import Mathlib

/-!
# MOS 6502 / 6510 emulator core (`chips/m6502.h`)

A shallow embedding of the 6502 emulator core: the arithmetic helpers
`_m6502_adc`, `_m6502_sbc` and `_m6502_arr` in binary and decimal (BCD) mode, the
register accessors, the pin-word macros, `m6502_init`, `m6502_reset`,
`m6502_trap_cb` and the 6510 port access `m6510_iorq`.  The execution loop `m6502_exec`, whose source is not at hand, is
modelled from the specification over an arbitrary decode table.

Machine integers are natural numbers.  A value stored into a `uint8_t` or
`uint16_t` variable is reduced modulo `2^8` resp. `2^16` wherever the C
expression can leave that range; C `int` subtraction is done in `Int` and
converted back with `u8` / `u16`.  The C operator `~` on a (non-negative)
`int` is the 32-bit complement `not32`.
-/

namespace M6502

/-! ## Status flags -/

/-- Carry. -/
def M6502_CF : Nat := 1 <<< 0
/-- Zero. -/
def M6502_ZF : Nat := 1 <<< 1
/-- IRQ disable. -/
def M6502_IF : Nat := 1 <<< 2
/-- Decimal mode. -/
def M6502_DF : Nat := 1 <<< 3
/-- BRK command. -/
def M6502_BF : Nat := 1 <<< 4
/-- Unused. -/
def M6502_XF : Nat := 1 <<< 5
/-- Overflow. -/
def M6502_VF : Nat := 1 <<< 6
/-- Negative. -/
def M6502_NF : Nat := 1 <<< 7

/-! ## C integer conversions -/

/-- Bitwise complement of a non-negative 32-bit `int` (the C operator `~`),
as the unsigned bit pattern of the result. -/
def not32 (x : Nat) : Nat := 0xFFFFFFFF ^^^ x

/-- Conversion of a C `int` to `uint8_t`. -/
def u8 (x : Int) : Nat := (x % 256).toNat

/-- Conversion of a C `int` to `uint16_t`. -/
def u16 (x : Int) : Nat := (x % 65536).toNat

/-- Conversion of a `uint8_t` to `int8_t`: the cast `(int8_t)x`. -/
def i8 (x : Nat) : Int := if x % 256 < 128 then ((x % 256 : Nat) : Int) else ((x % 256 : Nat) : Int) - 256

/-! ## Processor state -/

/-- The mutable tick state `m6502_state_t`. -/
structure m6502_state_t where
  PINS : Nat
  A : Nat
  X : Nat
  Y : Nat
  S : Nat
  P : Nat
  PC : Nat
  pi : Nat
  bcd_enabled : Bool
  deriving DecidableEq

/-! ## ALU primitives -/

/-- The macro `_M6502_NZ(p,v)`:
`((p&~(M6502_NF|M6502_ZF))|((v&0xFF)?(v&M6502_NF):M6502_ZF))`. -/
def _M6502_NZ (p v : Nat) : Nat :=
  (p &&& not32 (M6502_NF ||| M6502_ZF)) |||
    (if v &&& 0xFF ≠ 0 then v &&& M6502_NF else M6502_ZF)

/-- The function `_m6502_adc(cpu, val)`. -/
def _m6502_adc (cpu : m6502_state_t) (val : Nat) : m6502_state_t :=
  if cpu.bcd_enabled = true ∧ cpu.P &&& M6502_DF ≠ 0 then
    -- decimal mode
    let c : Nat := if cpu.P &&& M6502_CF ≠ 0 then 1 else 0
    let P0 := (cpu.P &&& not32 (M6502_NF ||| M6502_VF ||| M6502_ZF ||| M6502_CF)) % 256
    let al0 := ((cpu.A &&& 0x0F) + (val &&& 0x0F) + c) % 256
    let al := if al0 > 9 then (al0 + 6) % 256 else al0
    let ah0 := ((cpu.A >>> 4) + (val >>> 4) + (if al > 0x0F then 1 else 0)) % 256
    let P1 :=
      if 0 = (cpu.A + val + c) % 256 then (P0 ||| M6502_ZF) % 256
      else if ah0 &&& 0x08 ≠ 0 then (P0 ||| M6502_NF) % 256
      else P0
    let P2 :=
      if (not32 (cpu.A ^^^ val) &&& (cpu.A ^^^ (ah0 <<< 4))) &&& 0x80 ≠ 0
      then (P1 ||| M6502_VF) % 256 else P1
    let ah := if ah0 > 9 then (ah0 + 6) % 256 else ah0
    let P3 := if ah > 15 then (P2 ||| M6502_CF) % 256 else P2
    { cpu with P := P3, A := ((ah <<< 4) ||| (al &&& 0x0F)) % 256 }
  else
    -- default mode
    let sum := (cpu.A + val + (if cpu.P &&& M6502_CF ≠ 0 then 1 else 0)) % 65536
    let P0 := (cpu.P &&& not32 (M6502_VF ||| M6502_CF)) % 256
    let P1 := (_M6502_NZ P0 sum) % 256
    let P2 :=
      if (not32 (cpu.A ^^^ val) &&& (cpu.A ^^^ sum)) &&& 0x80 ≠ 0
      then (P1 ||| M6502_VF) % 256 else P1
    let P3 := if sum &&& 0xFF00 ≠ 0 then (P2 ||| M6502_CF) % 256 else P2
    { cpu with P := P3, A := (sum &&& 0xFF) % 256 }

/-- The function `_m6502_sbc(cpu, val)`. -/
def _m6502_sbc (cpu : m6502_state_t) (val : Nat) : m6502_state_t :=
  if cpu.bcd_enabled = true ∧ cpu.P &&& M6502_DF ≠ 0 then
    -- decimal mode
    let c : Nat := if cpu.P &&& M6502_CF ≠ 0 then 0 else 1
    let P0 := (cpu.P &&& not32 (M6502_NF ||| M6502_VF ||| M6502_ZF ||| M6502_CF)) % 256
    let diff := u16 ((cpu.A : Int) - (val : Int) - (c : Int))
    let al0 := u8 (((cpu.A &&& 0x0F : Nat) : Int) - ((val &&& 0x0F : Nat) : Int) - (c : Int))
    let al := if i8 al0 < 0 then u8 ((al0 : Int) - 6) else al0
    let ah0 := u8 (((cpu.A >>> 4 : Nat) : Int) - ((val >>> 4 : Nat) : Int)
                    - (if i8 al < 0 then 1 else 0))
    let P1 :=
      if 0 = diff % 256 then (P0 ||| M6502_ZF) % 256
      else if diff &&& 0x80 ≠ 0 then (P0 ||| M6502_NF) % 256
      else P0
    let P2 :=
      if ((cpu.A ^^^ val) &&& (cpu.A ^^^ diff)) &&& 0x80 ≠ 0
      then (P1 ||| M6502_VF) % 256 else P1
    let P3 := if ¬ (diff &&& 0xFF00 ≠ 0) then (P2 ||| M6502_CF) % 256 else P2
    let ah := if ah0 &&& 0x80 ≠ 0 then u8 ((ah0 : Int) - 6) else ah0
    { cpu with P := P3, A := ((ah <<< 4) ||| (al &&& 0x0F)) % 256 }
  else
    -- default mode
    let diff := u16 ((cpu.A : Int) - (val : Int)
                      - (if cpu.P &&& M6502_CF ≠ 0 then 0 else 1))
    let P0 := (cpu.P &&& not32 (M6502_VF ||| M6502_CF)) % 256
    let P1 := (_M6502_NZ P0 (diff % 256)) % 256
    let P2 :=
      if ((cpu.A ^^^ val) &&& (cpu.A ^^^ diff)) &&& 0x80 ≠ 0
      then (P1 ||| M6502_VF) % 256 else P1
    let P3 := if ¬ (diff &&& 0xFF00 ≠ 0) then (P2 ||| M6502_CF) % 256 else P2
    { cpu with P := P3, A := (diff &&& 0xFF) % 256 }

/-! ## Vocabulary of the specification -/

/-- The carry flag as a number: the carry-in of an addition. -/
def carryIn (p : Nat) : Nat := if p &&& M6502_CF ≠ 0 then 1 else 0

/-- Decimal arithmetic is active: BCD is enabled and the D flag is set. -/
def decimalMode (cpu : m6502_state_t) : Prop :=
  cpu.bcd_enabled = true ∧ cpu.P &&& M6502_DF ≠ 0

instance (cpu : m6502_state_t) : Decidable (decimalMode cpu) :=
  inferInstanceAs (Decidable (cpu.bcd_enabled = true ∧ cpu.P &&& M6502_DF ≠ 0))

/-- A flag (given by its mask) is set in a status byte. -/
def flagSet (p mask : Nat) : Prop := p &&& mask ≠ 0

instance (p mask : Nat) : Decidable (flagSet p mask) :=
  inferInstanceAs (Decidable (p &&& mask ≠ 0))

/-- The value of an 8-bit pattern read as a two's-complement number. -/
def toSigned (x : Nat) : Int := if x < 128 then (x : Int) else (x : Int) - 256

/-- Both nibbles are decimal digits. -/
def validBCD (x : Nat) : Prop := x >>> 4 ≤ 9 ∧ x &&& 15 ≤ 9

instance (x : Nat) : Decidable (validBCD x) :=
  inferInstanceAs (Decidable (x >>> 4 ≤ 9 ∧ x &&& 15 ≤ 9))

/-- The number a packed-BCD byte stands for: `10*(x>>4) + (x&15)`. -/
def dec (x : Nat) : Nat := 10 * (x >>> 4) + (x &&& 15)

/-! ## Auxiliary definitions of the proofs -/

/-- Bit `i` of a status byte whose N, V, Z and C flags are given and whose
other bits are those of `P`. -/
def flagBits (P : Nat) (n v z c : Bool) (i : Nat) : Bool :=
  if i = 0 then c else if i = 1 then z else if i = 6 then v else if i = 7 then n
  else P.testBit i

/-- The borrow-in of a subtraction: one minus the carry flag. -/
def borrowIn (p : Nat) : Nat := if p &&& M6502_CF ≠ 0 then 0 else 1

/-- The state of the worked example of binary addition: `A = 0x7F`, carry clear. -/
def adcBinExample : m6502_state_t :=
  { PINS := 0, A := 0x7F, X := 0, Y := 0, S := 0xFD, P := 0x24, PC := 0, pi := 0,
    bcd_enabled := true }

/-- The state of the worked example of binary subtraction: `A = 0x50`, carry clear
(a borrow is pending). -/
def sbcBinExample : m6502_state_t :=
  { PINS := 0, A := 0x50, X := 0, Y := 0, S := 0xFD, P := 0x24, PC := 0, pi := 0,
    bcd_enabled := true }

/-- The low-nibble sum of a decimal-mode addition after its greater-than-9
correction (the variable `al` of `_m6502_adc`). -/
def adcLowNibble (A val c : Nat) : Nat :=
  let al := ((A &&& 0x0F) + (val &&& 0x0F) + c) % 256
  if al > 9 then (al + 6) % 256 else al

/-- The high-nibble sum of a decimal-mode addition before its correction (the
variable `ah` of `_m6502_adc` where the flags are derived): the two high nibbles
plus the carry out of the corrected low nibble. -/
def adcHighNibbleSum (A val c : Nat) : Nat :=
  ((A >>> 4) + (val >>> 4) + (if adcLowNibble A val c > 0x0F then 1 else 0)) % 256

/-- The high-nibble sum of a decimal-mode addition after its greater-than-9
correction. -/
def adcHighNibble (A val c : Nat) : Nat :=
  if adcHighNibbleSum A val c > 9 then (adcHighNibbleSum A val c + 6) % 256
  else adcHighNibbleSum A val c

/-- A state in decimal mode for the worked example of the specification:
`A = 0x19`, carry clear, D set. -/
def adcDecExample : m6502_state_t :=
  { PINS := 0, A := 0x19, X := 0, Y := 0, S := 0xFD, P := 0x2C, PC := 0, pi := 0,
    bcd_enabled := true }

/-- A state in decimal mode whose addition with 1 wraps to zero in BCD:
`A = 0x99`, carry clear, D set. -/
def adcDecWrapExample : m6502_state_t :=
  { PINS := 0, A := 0x99, X := 0, Y := 0, S := 0xFD, P := 0x2C, PC := 0, pi := 0,
    bcd_enabled := true }

/-- The low-nibble difference of a decimal-mode subtraction after its borrow
correction (the variable `al` of `_m6502_sbc`); `c` is the borrow-in. -/
def sbcLowNibble (A val c : Nat) : Nat :=
  let al := u8 (((A &&& 0x0F : Nat) : Int) - ((val &&& 0x0F : Nat) : Int) - (c : Int))
  if i8 al < 0 then u8 ((al : Int) - 6) else al

/-- The high-nibble difference of a decimal-mode subtraction before its
correction (the variable `ah` of `_m6502_sbc` as first computed). -/
def sbcHighNibbleDiff (A val c : Nat) : Nat :=
  u8 (((A >>> 4 : Nat) : Int) - ((val >>> 4 : Nat) : Int)
        - (if i8 (sbcLowNibble A val c) < 0 then 1 else 0))

/-- The high-nibble difference of a decimal-mode subtraction after its borrow
correction. -/
def sbcHighNibble (A val c : Nat) : Nat :=
  if sbcHighNibbleDiff A val c &&& 0x80 ≠ 0 then u8 ((sbcHighNibbleDiff A val c : Int) - 6)
  else sbcHighNibbleDiff A val c

/-- A state in decimal mode for a subtraction with a pending borrow:
`A = 0x20`, carry clear, D set. -/
def sbcDecExample : m6502_state_t :=
  { PINS := 0, A := 0x20, X := 0, Y := 0, S := 0xFD, P := 0x2C, PC := 0, pi := 0,
    bcd_enabled := true }

/-- The state `sbcDecExample` with BCD arithmetic disabled. -/
def sbcDecExampleBinary : m6502_state_t :=
  { sbcDecExample with bcd_enabled := false }

/-! ## The undocumented ARR helper -/

/-- The function `_m6502_arr(cpu)`. -/
def _m6502_arr (cpu : m6502_state_t) : m6502_state_t :=
  if cpu.bcd_enabled = true ∧ cpu.P &&& M6502_DF ≠ 0 then
    let c : Bool := decide (cpu.P &&& M6502_CF ≠ 0)
    let P0 := (cpu.P &&& not32 (M6502_NF ||| M6502_VF ||| M6502_ZF ||| M6502_CF)) % 256
    let a0 := (cpu.A >>> 1) % 256
    let a1 := if c = true then (a0 ||| 0x80) % 256 else a0
    let P1 := (_M6502_NZ P0 a1) % 256
    let P2 := if (a1 ^^^ cpu.A) &&& 0x40 ≠ 0 then (P1 ||| M6502_VF) % 256 else P1
    let a2 := if (cpu.A &&& 0xF) ≥ 5 then (((a1 + 6) &&& 0xF) ||| (a1 &&& 0xF0)) % 256 else a1
    let a3 := if (cpu.A &&& 0xF0) ≥ 0x50 then (a2 + 0x60) % 256 else a2
    let P3 := if (cpu.A &&& 0xF0) ≥ 0x50 then (P2 ||| M6502_CF) % 256 else P2
    { cpu with P := P3, A := a3 }
  else
    let c : Bool := decide (cpu.P &&& M6502_CF ≠ 0)
    let P0 := (cpu.P &&& not32 (M6502_NF ||| M6502_VF ||| M6502_ZF ||| M6502_CF)) % 256
    let A0 := (cpu.A >>> 1) % 256
    let A1 := if c = true then (A0 ||| 0x80) % 256 else A0
    let P1 := (_M6502_NZ P0 A1) % 256
    let P2 := if A1 &&& 0x40 ≠ 0 then (P1 ||| (M6502_VF ||| M6502_CF)) % 256 else P1
    let P3 := if A1 &&& 0x20 ≠ 0 then (P2 ^^^ M6502_VF) % 256 else P2
    { cpu with P := P3, A := A1 }

/-- The rotated value of ARR: the accumulator shifted right by one with the
carry-in as the new bit 7, `(A >> 1) | (c << 7)`. -/
def arrRotate (A c : Nat) : Nat := (A >>> 1) ||| (c <<< 7)

/-- The state with its D flag cleared and everything else kept. -/
def clearD (cpu : m6502_state_t) : m6502_state_t :=
  { cpu with P := (cpu.P &&& not32 M6502_DF) % 256 }

/-- A state with BCD arithmetic disabled and the D flag set: `A = 0x99`,
carry set. -/
def bcdDisabledExample : m6502_state_t :=
  { PINS := 0, A := 0x99, X := 1, Y := 2, S := 0xFD, P := 0x2D, PC := 0x1234, pi := 0,
    bcd_enabled := false }

/-- A state in decimal mode for ARR: `A = 0x5A`, carry set, D set. -/
def arrDecExample : m6502_state_t :=
  { PINS := 0, A := 0x5A, X := 1, Y := 2, S := 0xFD, P := 0x2D, PC := 0x1234, pi := 0,
    bcd_enabled := true }

/-- Two result states have the same accumulator and the same N, V, Z and C flags. -/
def sameAccAndFlags (r1 r2 : m6502_state_t) : Prop :=
  r1.A = r2.A ∧
  (flagSet r1.P M6502_NF ↔ flagSet r2.P M6502_NF) ∧
  (flagSet r1.P M6502_VF ↔ flagSet r2.P M6502_VF) ∧
  (flagSet r1.P M6502_ZF ↔ flagSet r2.P M6502_ZF) ∧
  (flagSet r1.P M6502_CF ↔ flagSet r2.P M6502_CF)

/-- An ALU result `r` of the state `cpu` differs from it at most in the accumulator
and in the N, V, Z and C flags: the other registers, the pin word, the latched
interrupt-disable value, the BCD switch and the bits `0x3C` of P are those of `cpu`. -/
def aluFrame (cpu r : m6502_state_t) : Prop :=
  r.X = cpu.X ∧ r.Y = cpu.Y ∧ r.S = cpu.S ∧ r.PC = cpu.PC ∧ r.PINS = cpu.PINS ∧
  r.pi = cpu.pi ∧ r.bcd_enabled = cpu.bcd_enabled ∧ r.P &&& 0x3C = cpu.P &&& 0x3C

/-! ## Pin word -/

/-- Address line 0. -/
def M6502_A0 : Nat := 1 <<< 0
/-- Read/write direction: set on a read access. -/
def M6502_RW : Nat := 1 <<< 24
/-- Opcode-fetch marker. -/
def M6502_SYNC : Nat := 1 <<< 25
/-- Interrupt request. -/
def M6502_IRQ : Nat := 1 <<< 26
/-- Non-maskable interrupt request. -/
def M6502_NMI : Nat := 1 <<< 27
/-- Ready / wait state. -/
def M6502_RDY : Nat := 1 <<< 28

/-- Bitwise complement of a 64-bit unsigned value (the C operator `~` on a
`uint64_t`). -/
def not64 (x : Nat) : Nat := 0xFFFFFFFFFFFFFFFF ^^^ x

/-- The macro `M6502_GET_DATA(p)`: `((uint8_t)((p&0xFF0000ULL)>>16))`. -/
def M6502_GET_DATA (p : Nat) : Nat := ((p &&& 0xFF0000) >>> 16) % 256

/-- The macro `M6502_SET_DATA(p,d)`, as the new value of `p`:
`(((p)&~0xFF0000ULL)|(((d)<<16)&0xFF0000ULL))`. -/
def M6502_SET_DATA (p d : Nat) : Nat := (p &&& not64 0xFF0000) ||| ((d <<< 16) &&& 0xFF0000)

/-- The macro `M6502_MAKE_PINS(ctrl, addr, data)`:
`((ctrl)|(((data)<<16)&0xFF0000ULL)|((addr)&0xFFFFULL))`. -/
def M6502_MAKE_PINS (ctrl addr data : Nat) : Nat :=
  ctrl ||| ((data <<< 16) &&& 0xFF0000) ||| (addr &&& 0xFFFF)

/-! ## The CPU object and its host

The host program is a world of type `W` that the callbacks read and change; a
callback does not touch the CPU object.  `user_data` pointers are numbers.  A
function pointer is an `Option`, `none` being the null pointer. -/

/-- An invocation of a host callback, with the arguments it was given. -/
inductive Call where
  | tick (pins : Nat) (user_data : Nat)
  | trap (pc : Nat) (ticks : Int) (pins : Nat) (user_data : Nat)
  | input (user_data : Nat)
  | output (data : Nat) (user_data : Nat)
  deriving DecidableEq

/-- The host seen from the CPU: its world and the record of the callback
invocations made so far, oldest first. -/
structure Host (W : Type) where
  world : W
  calls : List Call

/-- The descriptor `m6502_desc_t` given to `m6502_init`. -/
structure m6502_desc_t (W : Type) where
  tick_cb : Option (Nat → Nat → W → Nat × W)
  user_data : Nat
  bcd_disabled : Bool
  in_cb : Option (Nat → W → Nat × W)
  out_cb : Option (Nat → Nat → W → W)
  m6510_io_pullup : Nat
  m6510_io_floating : Nat

/-- The CPU object `m6502_t`. -/
structure m6502_t (W : Type) where
  state : m6502_state_t
  tick_cb : Option (Nat → Nat → W → Nat × W)
  trap_cb : Option (Nat → Int → Nat → Nat → W → Int × W)
  user_data : Nat
  trap_user_data : Nat
  trap_id : Int
  in_cb : Option (Nat → W → Nat × W)
  out_cb : Option (Nat → Nat → W → W)
  io_ddr : Nat
  io_inp : Nat
  io_out : Nat
  io_pins : Nat
  io_pullup : Nat
  io_floating : Nat
  io_drive : Nat

/-- A call `tick_cb(pins, user_data)`: the response (a `uint64_t`) and the host
after the call. -/
def callTick {W : Type} (cb : Nat → Nat → W → Nat × W) (pins user_data : Nat) (h : Host W) :
    Nat × Host W :=
  ((cb pins user_data h.world).1 % 2 ^ 64,
    { world := (cb pins user_data h.world).2, calls := h.calls ++ [Call.tick pins user_data] })

/-- A call `in_cb(user_data)`: the value read (a `uint8_t`) and the host after the
call. -/
def callIn {W : Type} (cb : Nat → W → Nat × W) (user_data : Nat) (h : Host W) : Nat × Host W :=
  ((cb user_data h.world).1 % 256,
    { world := (cb user_data h.world).2, calls := h.calls ++ [Call.input user_data] })

/-- A call `out_cb(data, user_data)`: the host after the call. -/
def callOut {W : Type} (cb : Nat → Nat → W → W) (data user_data : Nat) (h : Host W) : Host W :=
  { world := cb data user_data h.world, calls := h.calls ++ [Call.output data user_data] }

/-- The register setter `m6502_set_a`. -/
def m6502_set_a {W : Type} (cpu : m6502_t W) (v : Nat) : m6502_t W :=
  { cpu with state := { cpu.state with A := v } }
/-- The register setter `m6502_set_x`. -/
def m6502_set_x {W : Type} (cpu : m6502_t W) (v : Nat) : m6502_t W :=
  { cpu with state := { cpu.state with X := v } }
/-- The register setter `m6502_set_y`. -/
def m6502_set_y {W : Type} (cpu : m6502_t W) (v : Nat) : m6502_t W :=
  { cpu with state := { cpu.state with Y := v } }
/-- The register setter `m6502_set_s`. -/
def m6502_set_s {W : Type} (cpu : m6502_t W) (v : Nat) : m6502_t W :=
  { cpu with state := { cpu.state with S := v } }
/-- The register setter `m6502_set_p`. -/
def m6502_set_p {W : Type} (cpu : m6502_t W) (v : Nat) : m6502_t W :=
  { cpu with state := { cpu.state with P := v } }
/-- The register setter `m6502_set_pc`. -/
def m6502_set_pc {W : Type} (cpu : m6502_t W) (v : Nat) : m6502_t W :=
  { cpu with state := { cpu.state with PC := v } }
/-- The register getter `m6502_a`. -/
def m6502_a {W : Type} (cpu : m6502_t W) : Nat := cpu.state.A
/-- The register getter `m6502_x`. -/
def m6502_x {W : Type} (cpu : m6502_t W) : Nat := cpu.state.X
/-- The register getter `m6502_y`. -/
def m6502_y {W : Type} (cpu : m6502_t W) : Nat := cpu.state.Y
/-- The register getter `m6502_s`. -/
def m6502_s {W : Type} (cpu : m6502_t W) : Nat := cpu.state.S
/-- The register getter `m6502_p`. -/
def m6502_p {W : Type} (cpu : m6502_t W) : Nat := cpu.state.P
/-- The register getter `m6502_pc`. -/
def m6502_pc {W : Type} (cpu : m6502_t W) : Nat := cpu.state.PC

/-- The CPU object after `memset(c, 0, sizeof(*c))`. -/
def m6502_zeroed (W : Type) : m6502_t W :=
  { state := { PINS := 0, A := 0, X := 0, Y := 0, S := 0, P := 0, PC := 0, pi := 0,
               bcd_enabled := false },
    tick_cb := none, trap_cb := none, user_data := 0, trap_user_data := 0, trap_id := 0,
    in_cb := none, out_cb := none, io_ddr := 0, io_inp := 0, io_out := 0, io_pins := 0,
    io_pullup := 0, io_floating := 0, io_drive := 0 }

/-- The function `m6502_init(c, desc)` on non-null `c` and `desc`; `none` is the
failed assertion `CHIPS_ASSERT(desc->tick_cb)`. -/
def m6502_init {W : Type} (_c : m6502_t W) (desc : m6502_desc_t W) : Option (m6502_t W) :=
  match desc.tick_cb with
  | none => none
  | some tick =>
    let c := m6502_zeroed W
    some { c with
      tick_cb := some tick
      user_data := desc.user_data
      state := { c.state with
        PINS := M6502_RW
        P := M6502_IF ||| M6502_XF
        S := 0xFD
        bcd_enabled := !desc.bcd_disabled }
      in_cb := desc.in_cb
      out_cb := desc.out_cb
      io_pullup := desc.m6510_io_pullup
      io_floating := desc.m6510_io_floating
      trap_id := -1 }

/-- The function `m6502_reset(c)` on a non-null `c`; `none` is the call through a
null `tick_cb`. -/
def m6502_reset {W : Type} (c : m6502_t W) (h : Host W) : Option (m6502_t W × Host W) :=
  match c.tick_cb with
  | none => none
  | some tick =>
    let st := { c.state with P := M6502_IF ||| M6502_XF, S := 0xFD, PINS := M6502_RW }
    let r1 := callTick tick (M6502_MAKE_PINS M6502_RW 0xFFFC 0x00) c.user_data h
    let l := M6502_GET_DATA r1.1
    let r2 := callTick tick (M6502_MAKE_PINS M6502_RW 0xFFFD 0x00) c.user_data r1.2
    let hi := M6502_GET_DATA r2.1
    some ({ c with
              state := { st with PC := ((hi <<< 8) ||| l) % 65536 }
              io_ddr := 0
              io_out := 0
              io_inp := 0
              io_pins := 0 },
          r2.2)

/-- The function `m6510_iorq(c, pins)`: the returned pin word, the CPU object and
the host after the access; `none` is the failed assertion
`CHIPS_ASSERT(c->in_cb && c->out_cb)`. -/
def m6510_iorq {W : Type} (c : m6502_t W) (pins : Nat) (h : Host W) :
    Option (Nat × m6502_t W × Host W) :=
  match c.in_cb, c.out_cb with
  | some in_cb, some out_cb =>
    if pins &&& M6502_A0 = 0 then
      -- address 0: access to data direction register
      if pins &&& M6502_RW ≠ 0 then
        some (M6502_SET_DATA pins c.io_ddr, c, h)
      else
        let ddr := M6502_GET_DATA pins
        let drive := ((c.io_out &&& ddr) ||| (c.io_drive &&& not32 ddr)) % 256
        let h1 := callOut out_cb (((c.io_out &&& ddr) ||| (c.io_pullup &&& not32 ddr)) % 256)
          c.user_data h
        let io_pins := ((c.io_out &&& ddr) ||| (c.io_inp &&& not32 ddr)) % 256
        some (pins, { c with io_ddr := ddr, io_drive := drive, io_pins := io_pins }, h1)
    else
      -- address 1: perform I/O
      if pins &&& M6502_RW ≠ 0 then
        let r := callIn in_cb c.user_data h
        let inp := r.1
        let val := (((inp ||| (c.io_floating &&& c.io_drive)) &&& not32 c.io_ddr) |||
          (c.io_out &&& c.io_ddr)) % 256
        let io_pins := ((c.io_out &&& c.io_ddr) ||| (inp &&& not32 c.io_ddr)) % 256
        some (M6502_SET_DATA pins val, { c with io_inp := inp, io_pins := io_pins }, r.2)
      else
        let out := M6502_GET_DATA pins
        let drive := ((out &&& c.io_ddr) ||| (c.io_drive &&& not32 c.io_ddr)) % 256
        let h1 := callOut out_cb (((out &&& c.io_ddr) ||| (c.io_pullup &&& not32 c.io_ddr)) % 256)
          c.user_data h
        let io_pins := ((out &&& c.io_ddr) ||| (c.io_inp &&& not32 c.io_ddr)) % 256
        some (pins, { c with io_out := out, io_drive := drive, io_pins := io_pins }, h1)
  | _, _ => none

/-- The 8-bit complement `~x` of a `uint8_t`, kept to 8 bits. -/
def not8 (x : Nat) : Nat := 0xFF ^^^ x

/-- The port registers and masks hold 8-bit values. -/
def portWf {W : Type} (c : m6502_t W) : Prop :=
  c.io_ddr < 256 ∧ c.io_inp < 256 ∧ c.io_out < 256 ∧ c.io_pins < 256 ∧ c.io_pullup < 256 ∧
    c.io_floating < 256 ∧ c.io_drive < 256

instance {W : Type} (c : m6502_t W) : Decidable (portWf c) :=
  inferInstanceAs (Decidable (c.io_ddr < 256 ∧ c.io_inp < 256 ∧ c.io_out < 256 ∧
    c.io_pins < 256 ∧ c.io_pullup < 256 ∧ c.io_floating < 256 ∧ c.io_drive < 256))

/-- A tick callback over a memory of 64 KiB: on a read it puts the addressed byte
on the data bus, on a write it stores the data bus. -/
def memTick (pins _user_data : Nat) (mem : Nat → Nat) : Nat × (Nat → Nat) :=
  if pins &&& M6502_RW ≠ 0 then (M6502_SET_DATA pins (mem (pins &&& 0xFFFF)), mem)
  else (pins, fun a => if a = pins &&& 0xFFFF then M6502_GET_DATA pins else mem a)

/-- A memory whose reset vector at `0xFFFC`/`0xFFFD` holds the address `0xC0DE` and
whose port input byte at `0x10000` is `0x81`. -/
def exampleMem (a : Nat) : Nat :=
  if a = 0xFFFC then 0xDE else if a = 0xFFFD then 0xC0 else if a = 0x10000 then 0x81 else 0

/-- An input callback that reads the port lines from the byte at address `0x10000`
of the host memory. -/
def memIn (_user_data : Nat) (mem : Nat → Nat) : Nat × (Nat → Nat) := (mem 0x10000, mem)

/-- An output callback that records the driven port level at address `0x10001`
of the host memory. -/
def memOut (data _user_data : Nat) (mem : Nat → Nat) : Nat → Nat :=
  fun a => if a = 0x10001 then data else mem a

/-- A descriptor of a 6510 over the memory host. -/
def exampleDesc : m6502_desc_t (Nat → Nat) :=
  { tick_cb := some memTick, user_data := 7, bcd_disabled := false, in_cb := some memIn,
    out_cb := some memOut, m6510_io_pullup := 0x17, m6510_io_floating := 0xC8 }

/-- A CPU object in the middle of a run: registers, port registers and drive
register hold non-zero values. -/
def exampleCpu : m6502_t (Nat → Nat) :=
  { state := { PINS := 0x1234567, A := 0x11, X := 0x22, Y := 0x33, S := 0x44, P := 0xC3,
               PC := 0x5566, pi := 4, bcd_enabled := true },
    tick_cb := some memTick, trap_cb := none, user_data := 7, trap_user_data := 9,
    trap_id := 3, in_cb := some memIn, out_cb := some memOut, io_ddr := 0x2F, io_inp := 0x10,
    io_out := 0x25, io_pins := 0x35, io_pullup := 0x17, io_floating := 0xC8, io_drive := 0xE5 }

/-- The host at the start of the examples: the example memory, no call made yet. -/
def exampleHost : Host (Nat → Nat) := { world := exampleMem, calls := [] }


/-! ## Vocabulary of the port claims -/

/-- The level the port drives to the outside: the output latch on output lines and
the pull-ups on input lines, `(io_out & io_ddr) | (io_pullup & ~io_ddr)`. -/
def drivenLevel {W : Type} (c : m6502_t W) : Nat :=
  (c.io_out &&& c.io_ddr) ||| (c.io_pullup &&& not8 c.io_ddr)

/-- The combined port value the equation of `io_pins` asks for:
`(io_out & io_ddr) | (io_inp & ~io_ddr)`. -/
def combinedPins {W : Type} (c : m6502_t W) : Nat :=
  (c.io_out &&& c.io_ddr) ||| (c.io_inp &&& not8 c.io_ddr)

/-- A host memory that is zero everywhere: the port input lines read `0x00`. -/
def zeroMem (_a : Nat) : Nat := 0

/-- The host with the all-zero memory, no call made yet. -/
def zeroHost : Host (Nat → Nat) := { world := zeroMem, calls := [] }

/-! ## The execution loop

`m6502_exec` and the decode table it runs are in `_m6502_decoder.h`, which is not
part of the sources at hand; the definitions of this section follow the
specification (sections 4.1, 4.3 and 4.4) and the header documentation of
`m6502_exec` and `m6502_trap_cb`. -/

/-- The macro `M6502_GET_ADDR(p)`: `((uint16_t)(p&0xFFFFULL))`. -/
def M6502_GET_ADDR (p : Nat) : Nat := (p &&& 0xFFFF) % 65536

/-- The macro `M6502_SET_ADDR(p,a)`, as the new value of `p`:
`((p&~0xFFFFULL)|((a)&0xFFFFULL))`. -/
def M6502_SET_ADDR (p a : Nat) : Nat := (p &&& not64 0xFFFF) ||| (a &&& 0xFFFF)

/-- Modelled from the spec: the decode table of `_m6502_decoder.h` is missing; this
is the fixed sequence of bus cycles of one instruction after its opcode fetch, as
section 4.1 describes it: memory-read cycles (also the internal cycles, which still
require a tick), memory-write cycles, and the registers with which the instruction
retires.  A read cycle continues with the byte that was read. -/
inductive Cycles where
  | retire (st : m6502_state_t) : Cycles
  | read (addr : Nat) (next : Nat → Cycles) : Cycles
  | write (addr data : Nat) (next : Cycles) : Cycles

/-- Modelled from the spec: the decode table of `_m6502_decoder.h` is missing and
is a parameter of the engine.  `instr opcode st` is the cycle sequence of the
instruction `opcode` from the registers `st` after the fetch; `interrupt before after st`
is the cycle sequence of the interrupt response taken after an instruction, if any,
from the pin words before and after the instruction and the registers (section 4.3:
sampling, one-instruction deferral and servicing are left to the table). -/
structure DecodeTable where
  instr : Nat → m6502_state_t → Cycles
  interrupt : Nat → Nat → m6502_state_t → Option Cycles

/-- The engine in the middle of `m6502_exec`: registers, current pin word, cycles
consumed so far in this call, and the host. -/
structure ExecState (W : Type) where
  st : m6502_state_t
  pins : Nat
  ticks : Nat
  host : Host W

/-- A call `trap_cb(pc, ticks, pins, trap_user_data)`: the returned value and the host
after the call. -/
def callTrap {W : Type} (cb : Nat → Int → Nat → Nat → W → Int × W) (pc : Nat) (ticks : Int)
    (pins user_data : Nat) (h : Host W) : Int × Host W :=
  ((cb pc ticks pins user_data h.world).1,
    { world := (cb pc ticks pins user_data h.world).2,
      calls := h.calls ++ [Call.trap pc ticks pins user_data] })

/-- Modelled from the spec: `m6502_exec` is missing; this is the pin word issued for
a read cycle at `addr`: the current pin word with the address set, read direction,
RDY cleared, and the opcode-fetch marker set exactly on a fetch. -/
def readWord (pins addr : Nat) (sync : Bool) : Nat :=
  if sync then ((M6502_SET_ADDR pins addr ||| M6502_RW) &&& not64 M6502_RDY) ||| M6502_SYNC
  else ((M6502_SET_ADDR pins addr ||| M6502_RW) &&& not64 M6502_RDY) &&& not64 M6502_SYNC

/-- Modelled from the spec: `m6502_exec` is missing; this is the pin word issued for
a write cycle of `data` to `addr`: address and data set, write direction, no
opcode-fetch marker. -/
def writeWord (pins addr data : Nat) : Nat :=
  (M6502_SET_DATA (M6502_SET_ADDR pins addr) data &&& not64 M6502_RW) &&& not64 M6502_SYNC

/-- Modelled from the spec: `m6502_exec` is missing; this is one read cycle under
the RDY rule of section 4.1: the word is issued with RDY cleared, each tick counts as
a consumed cycle, and while the response has RDY set the read is issued again at the
same address.  `wait` bounds the number of ticks of the cycle: the result is `none`
when RDY is still set after `wait` ticks. -/
def readCycle {W : Type} (tick : Nat → Nat → W → Nat × W) (user_data addr : Nat)
    (sync : Bool) : Nat → ExecState W → Option (ExecState W)
  | 0, _ => none
  | wait + 1, s =>
    if (callTick tick (readWord s.pins addr sync) user_data s.host).1 &&& M6502_RDY ≠ 0 then
      readCycle tick user_data addr sync wait
        { s with
          pins := (callTick tick (readWord s.pins addr sync) user_data s.host).1
          ticks := s.ticks + 1
          host := (callTick tick (readWord s.pins addr sync) user_data s.host).2 }
    else
      some { s with
        pins := (callTick tick (readWord s.pins addr sync) user_data s.host).1
        ticks := s.ticks + 1
        host := (callTick tick (readWord s.pins addr sync) user_data s.host).2 }

/-- Modelled from the spec: `m6502_exec` is missing; this is one write cycle: one
tick, whatever RDY is in the response. -/
def writeCycle {W : Type} (tick : Nat → Nat → W → Nat × W) (user_data addr data : Nat)
    (s : ExecState W) : ExecState W :=
  { s with
    pins := (callTick tick (writeWord s.pins addr data) user_data s.host).1
    ticks := s.ticks + 1
    host := (callTick tick (writeWord s.pins addr data) user_data s.host).2 }

/-- Modelled from the spec: `m6502_exec` is missing; this runs the cycles of an
instruction after its fetch, one tick per cycle (more under RDY). -/
def runCycles {W : Type} (tick : Nat → Nat → W → Nat × W) (user_data wait : Nat) :
    Cycles → ExecState W → Option (ExecState W)
  | Cycles.retire st, s => some { s with st := st }
  | Cycles.read addr next, s =>
    match readCycle tick user_data addr false wait s with
    | none => none
    | some s1 => runCycles tick user_data wait (next (M6502_GET_DATA s1.pins)) s1
  | Cycles.write addr data next, s =>
    runCycles tick user_data wait next (writeCycle tick user_data addr data s)

/-- Modelled from the spec: `m6502_exec` is missing; this is one whole instruction:
the opcode fetch at PC with the opcode-fetch marker, the cycles the decode table
gives for the opcode, and the interrupt response if the table takes one. -/
def execInstr {W : Type} (tbl : DecodeTable) (tick : Nat → Nat → W → Nat × W)
    (user_data wait : Nat) (s : ExecState W) : Option (ExecState W) :=
  match readCycle tick user_data s.st.PC true wait s with
  | none => none
  | some s1 =>
    match runCycles tick user_data wait
        (tbl.instr (M6502_GET_DATA s1.pins) { s1.st with PC := (s1.st.PC + 1) % 65536 })
        { s1 with st := { s1.st with PC := (s1.st.PC + 1) % 65536 } } with
    | none => none
    | some s2 =>
      match tbl.interrupt s.pins s2.pins s2.st with
      | none => some s2
      | some cyc => runCycles tick user_data wait cyc s2

/-- Modelled from the spec: `m6502_exec` is missing; this is the trap hook of
section 4.4 after an instruction has retired: a registered trap callback is invoked
with the program counter, the cycles consumed so far and the pin word; the second
component is the returned value when it is non-zero. -/
def trapHook {W : Type} (trap : Option (Nat → Int → Nat → Nat → W → Int × W))
    (trap_user_data : Nat) (s : ExecState W) : ExecState W × Option Int :=
  match trap with
  | none => (s, none)
  | some cb =>
    ({ s with host := (callTrap cb s.st.PC (s.ticks : Int) s.pins trap_user_data s.host).2 },
      if (callTrap cb s.st.PC (s.ticks : Int) s.pins trap_user_data s.host).1 ≠ 0
      then some (callTrap cb s.st.PC (s.ticks : Int) s.pins trap_user_data s.host).1
      else none)

/-- Modelled from the spec: `m6502_exec` is missing; this is its loop: while fewer
than `num_ticks` cycles are consumed, execute one whole instruction and run the trap
hook; a non-zero trap value ends the loop.  The first argument bounds the number of
instructions; `num_ticks` of them are enough, an instruction taking at least one
cycle. -/
def execLoop {W : Type} (tbl : DecodeTable) (tick : Nat → Nat → W → Nat × W)
    (trap : Option (Nat → Int → Nat → Nat → W → Int × W)) (user_data trap_user_data wait : Nat)
    (num_ticks : Nat) : Nat → ExecState W → Option (ExecState W × Option Int)
  | 0, s => some (s, none)
  | k + 1, s =>
    if s.ticks < num_ticks then
      match execInstr tbl tick user_data wait s with
      | none => none
      | some s1 =>
        match (trapHook trap trap_user_data s1).2 with
        | some v => some ((trapHook trap trap_user_data s1).1, some v)
        | none =>
          execLoop tbl tick trap user_data trap_user_data wait num_ticks k
            (trapHook trap trap_user_data s1).1
    else some (s, none)

/-- Modelled from the spec: `m6502_exec` is missing; this is the run of
`m6502_exec(cpu, num_ticks)` from the registers and pin word of `cpu`: the engine
state at the return and the trap value that ended the call, if one did.  `none`
stands for a call that does not return: a null tick callback, or a read cycle whose
RDY wait lasts more than `wait` ticks. -/
def m6502_exec_run {W : Type} (tbl : DecodeTable) (wait : Nat) (cpu : m6502_t W)
    (num_ticks : Nat) (h : Host W) : Option (ExecState W × Option Int) :=
  match cpu.tick_cb with
  | none => none
  | some tick =>
    execLoop tbl tick cpu.trap_cb cpu.user_data cpu.trap_user_data wait num_ticks num_ticks
      { st := cpu.state, pins := cpu.state.PINS, ticks := 0, host := h }

/-- Modelled from the spec: `m6502_exec` is missing; this is `m6502_exec(cpu, num_ticks)`:
the returned cycle count, the CPU object with the registers and the pin word stored
back and a trap value stored in `trap_id`, and the host after the call. -/
def m6502_exec {W : Type} (tbl : DecodeTable) (wait : Nat) (cpu : m6502_t W)
    (num_ticks : Nat) (h : Host W) : Option (Nat × m6502_t W × Host W) :=
  (m6502_exec_run tbl wait cpu num_ticks h).map fun r =>
    (r.1.ticks,
      { cpu with
        state := { r.1.st with PINS := r.1.pins }
        trap_id := r.2.getD cpu.trap_id },
      r.1.host)

/-- The number of tick-callback invocations in a record of calls. -/
def tickCount (l : List Call) : Nat :=
  l.countP fun c => match c with
    | Call.tick _ _ => true
    | _ => false

/-- The engine state `s'` is reached from `s` by whole instructions, each followed
by the trap hook: `m6502_exec` is at an instruction boundary. -/
inductive AtBoundary {W : Type} (tbl : DecodeTable) (tick : Nat → Nat → W → Nat × W)
    (trap : Option (Nat → Int → Nat → Nat → W → Int × W)) (user_data trap_user_data wait : Nat)
    (s : ExecState W) : ExecState W → Prop
  | start : AtBoundary tbl tick trap user_data trap_user_data wait s s
  | instr (a b : ExecState W) :
      AtBoundary tbl tick trap user_data trap_user_data wait s a →
      execInstr tbl tick user_data wait a = some b →
      AtBoundary tbl tick trap user_data trap_user_data wait s (trapHook trap trap_user_data b).1

/-- Every response of the tick callback to a read cycle has RDY clear. -/
def releasesRDY {W : Type} (tick : Nat → Nat → W → Nat × W) : Prop :=
  ∀ (pins user_data : Nat) (h : Host W), pins &&& M6502_RW ≠ 0 →
    (callTick tick pins user_data h).1 &&& M6502_RDY = 0

/-- A tick callback that answers every cycle with RDY set. -/
def stuckTick (pins _user_data : Nat) (mem : Nat → Nat) : Nat × (Nat → Nat) :=
  (pins ||| M6502_RDY, mem)

/-- A decode table in which every opcode is a two-cycle instruction without effect
(the fetch and one internal read at PC) and no interrupt is taken. -/
def nopTable : DecodeTable :=
  { instr := fun _ st => Cycles.read st.PC (fun _ => Cycles.retire st)
    interrupt := fun _ _ _ => none }

/-- The descriptor `exampleDesc` with a tick callback that never releases RDY. -/
def stuckDesc : m6502_desc_t (Nat → Nat) := { exampleDesc with tick_cb := some stuckTick }

/-- The CPU object after `m6502_init` on `stuckDesc` and `m6502_reset` on
`exampleHost`: the two reset reads are answered with a data byte of zero, so the
program counter is 0. -/
def stuckCpu : m6502_t (Nat → Nat) :=
  { state := { PINS := M6502_RW, A := 0, X := 0, Y := 0, S := 0xFD, P := 0x24, PC := 0,
               pi := 0, bcd_enabled := true },
    tick_cb := some stuckTick, trap_cb := none, user_data := 7, trap_user_data := 0,
    trap_id := -1, in_cb := some memIn, out_cb := some memOut, io_ddr := 0, io_inp := 0,
    io_out := 0, io_pins := 0, io_pullup := 0x17, io_floating := 0xC8, io_drive := 0 }

/-- The host after `m6502_reset` on `exampleHost`: the memory is unchanged and the two
reads of the reset vector are on record. -/
def resetHost : Host (Nat → Nat) :=
  { world := exampleMem,
    calls := [Call.tick (M6502_MAKE_PINS M6502_RW 0xFFFC 0x00) 7,
              Call.tick (M6502_MAKE_PINS M6502_RW 0xFFFD 0x00) 7] }

/-- The CPU object after `m6502_init` on `exampleDesc` and `m6502_reset` on
`exampleHost`: the program counter is the reset vector `0xC0DE`. -/
def readyCpu : m6502_t (Nat → Nat) :=
  { state := { PINS := M6502_RW, A := 0, X := 0, Y := 0, S := 0xFD, P := 0x24, PC := 0xC0DE,
               pi := 0, bcd_enabled := true },
    tick_cb := some memTick, trap_cb := none, user_data := 7, trap_user_data := 0,
    trap_id := -1, in_cb := some memIn, out_cb := some memOut, io_ddr := 0, io_inp := 0,
    io_out := 0, io_pins := 0, io_pullup := 0x17, io_floating := 0xC8, io_drive := 0 }

/-- The engine state `s'` continues `s`: the calls of `s'` extend those of `s`, and
the cycles consumed in between are exactly the tick invocations made in between. -/
def Advances {W : Type} (s s' : ExecState W) : Prop :=
  s.ticks ≤ s'.ticks ∧
    ∃ new, s'.host.calls = s.host.calls ++ new ∧ tickCount new + s.ticks = s'.ticks

/-! ## Further macros and functions of the header -/

/-- The macro `M6510_CHECK_IO(p)`: `((p&0xFFFEULL)==0)`. -/
def M6510_CHECK_IO (p : Nat) : Bool := decide (p &&& 0xFFFE = 0)

/-- The function `m6502_trap_cb(c, trap_cb, trap_user_data)` on a non-null `c`. -/
def m6502_trap_cb {W : Type} (c : m6502_t W)
    (trap_cb : Option (Nat → Int → Nat → Nat → W → Int × W)) (trap_user_data : Nat) :
    m6502_t W :=
  { c with trap_cb := trap_cb, trap_user_data := trap_user_data }

/-- A state in decimal mode with carry clear and accumulator `0x88`, for the round
trip of decimal add and subtract: `88 + 47 = 135`, which wraps to `35`. -/
def roundTripExample : m6502_state_t :=
  { PINS := 0, A := 0x88, X := 0, Y := 0, S := 0xFD, P := 0x2C, PC := 0, pi := 0,
    bcd_enabled := true }

/-! ## Reachable CPU objects -/

/-- The CPU objects a host can reach without `m6502_exec`: the result of `m6502_init`,
then any sequence of `m6502_reset`, `m6510_iorq` accesses (any pin word, so all four
kinds), register setters, `m6502_trap_cb`, and ALU primitives applied to the
registers, under any host. -/
inductive Reachable {W : Type} : m6502_t W → Prop
  | init (c0 : m6502_t W) (desc : m6502_desc_t W) (c : m6502_t W) :
      m6502_init c0 desc = some c → Reachable c
  | reset (c : m6502_t W) (h : Host W) (c' : m6502_t W) (h' : Host W) :
      Reachable c → m6502_reset c h = some (c', h') → Reachable c'
  | iorq (c : m6502_t W) (pins : Nat) (h : Host W) (pins' : Nat) (c' : m6502_t W)
      (h' : Host W) :
      Reachable c → m6510_iorq c pins h = some (pins', c', h') → Reachable c'
  | set_a (c : m6502_t W) (v : Nat) : Reachable c → Reachable (m6502_set_a c v)
  | set_x (c : m6502_t W) (v : Nat) : Reachable c → Reachable (m6502_set_x c v)
  | set_y (c : m6502_t W) (v : Nat) : Reachable c → Reachable (m6502_set_y c v)
  | set_s (c : m6502_t W) (v : Nat) : Reachable c → Reachable (m6502_set_s c v)
  | set_p (c : m6502_t W) (v : Nat) : Reachable c → Reachable (m6502_set_p c v)
  | set_pc (c : m6502_t W) (v : Nat) : Reachable c → Reachable (m6502_set_pc c v)
  | trap_cb (c : m6502_t W) (cb : Option (Nat → Int → Nat → Nat → W → Int × W)) (ud : Nat) :
      Reachable c → Reachable (m6502_trap_cb c cb ud)
  | adc (c : m6502_t W) (v : Nat) :
      Reachable c → Reachable { c with state := _m6502_adc c.state v }
  | sbc (c : m6502_t W) (v : Nat) :
      Reachable c → Reachable { c with state := _m6502_sbc c.state v }
  | arr (c : m6502_t W) :
      Reachable c → Reachable { c with state := _m6502_arr c.state }

/-- The port registers are 8-bit values and `io_pins` satisfies the equation of the
combined port value. -/
def portInv {W : Type} (c : m6502_t W) : Prop :=
  c.io_ddr < 256 ∧ c.io_out < 256 ∧ c.io_inp < 256 ∧ c.io_pins = combinedPins c

/-- The CPU object reached from `m6502_init` on `exampleDesc` by a write of `0x2F` to
the direction register, a write of `0x25` to the data port, a read of the data port
while the input lines are at `0x81`, and a read of the direction register. -/
def portExampleCpu : m6502_t (Nat → Nat) :=
  { state := { PINS := M6502_RW, A := 0, X := 0, Y := 0, S := 0xFD, P := 0x24, PC := 0,
               pi := 0, bcd_enabled := true },
    tick_cb := some memTick, trap_cb := none, user_data := 7, trap_user_data := 0,
    trap_id := -1, in_cb := some memIn, out_cb := some memOut, io_ddr := 0x2F, io_inp := 0x81,
    io_out := 0x25, io_pins := 0xA5, io_pullup := 0x17, io_floating := 0xC8, io_drive := 0x25 }

/-! ## Vocabulary of the wait-state rule and of the trap hook -/

/-- Modelled from the spec: `m6502_exec` is missing; this is one tick of a read cycle
at `addr` as `readCycle` issues it: the read word is made from the current pin word,
the response of the tick callback becomes the pin word, and one cycle is consumed. -/
def readTick {W : Type} (tick : Nat → Nat → W → Nat × W) (user_data addr : Nat) (sync : Bool)
    (s : ExecState W) : ExecState W :=
  { s with
    pins := (callTick tick (readWord s.pins addr sync) user_data s.host).1
    ticks := s.ticks + 1
    host := (callTick tick (readWord s.pins addr sync) user_data s.host).2 }

/-- The trap-callback invocations in a record of calls, in order. -/
def trapCalls (l : List Call) : List Call :=
  l.filter fun c => match c with
    | Call.trap _ _ _ _ => true
    | _ => false

/-- A run of whole instructions with the trap callback `cb` registered, from the
engine state in the first index: each instruction retires in a state `b`, the trap
callback is then invoked once with the program counter, the consumed cycles and the
pin word of `b`; the run goes on after a return value of 0 and ends at the first
non-zero return value.  The indices are the start state, the trap invocations made,
the end state and the non-zero value that ended the run, if any. -/
inductive TrapRun {W : Type} (tbl : DecodeTable) (tick : Nat → Nat → W → Nat × W)
    (cb : Nat → Int → Nat → Nat → W → Int × W) (user_data trap_user_data wait : Nat) :
    ExecState W → List Call → ExecState W → Option Int → Prop
  | done (s : ExecState W) : TrapRun tbl tick cb user_data trap_user_data wait s [] s none
  | stop (s b : ExecState W) :
      execInstr tbl tick user_data wait s = some b →
      (callTrap cb b.st.PC (b.ticks : Int) b.pins trap_user_data b.host).1 ≠ 0 →
      TrapRun tbl tick cb user_data trap_user_data wait s
        [Call.trap b.st.PC (b.ticks : Int) b.pins trap_user_data]
        { b with host := (callTrap cb b.st.PC (b.ticks : Int) b.pins trap_user_data b.host).2 }
        (some (callTrap cb b.st.PC (b.ticks : Int) b.pins trap_user_data b.host).1)
  | next (s b : ExecState W) (traps : List Call) (s' : ExecState W) (r : Option Int) :
      execInstr tbl tick user_data wait s = some b →
      (callTrap cb b.st.PC (b.ticks : Int) b.pins trap_user_data b.host).1 = 0 →
      TrapRun tbl tick cb user_data trap_user_data wait
        { b with host := (callTrap cb b.st.PC (b.ticks : Int) b.pins trap_user_data b.host).2 }
        traps s' r →
      TrapRun tbl tick cb user_data trap_user_data wait s
        (Call.trap b.st.PC (b.ticks : Int) b.pins trap_user_data :: traps) s' r

/-- A tick callback over the memory host that holds RDY set on a read cycle as long
as the counter at address `0x10002` of the host memory is not zero, counting it down,
and that answers every write cycle with RDY set. -/
def slowTick (pins _user_data : Nat) (mem : Nat → Nat) : Nat × (Nat → Nat) :=
  if pins &&& M6502_RW ≠ 0 then
    if mem 0x10002 = 0 then (M6502_SET_DATA pins (mem (pins &&& 0xFFFF)), mem)
    else (pins ||| M6502_RDY, fun a => if a = 0x10002 then mem 0x10002 - 1 else mem a)
  else
    (pins ||| M6502_RDY,
      fun a => if a = pins &&& 0xFFFF then M6502_GET_DATA pins else mem a)

/-- A host memory whose wait counter at `0x10002` is 2 and whose byte at `0x1234` is
`0x5A`. -/
def slowMem (a : Nat) : Nat := if a = 0x10002 then 2 else if a = 0x1234 then 0x5A else 0

/-- A trap callback that returns 5 when the program counter is `0x5568` and 0
otherwise. -/
def pcTrap (pc : Nat) (_ticks : Int) (_pins _user_data : Nat) (mem : Nat → Nat) :
    Int × (Nat → Nat) :=
  (if pc = 0x5568 then 5 else 0, mem)

/-- The engine state `s'` continues `s` by tick invocations only, each with the user
data `ud` and, when it has read direction, with RDY clear. -/
def TicksOnly {W : Type} (ud : Nat) (s s' : ExecState W) : Prop :=
  ∃ new, s'.host.calls = s.host.calls ++ new ∧
    ∀ c, c ∈ new → ∃ p, c = Call.tick p ud ∧ (p &&& M6502_RW ≠ 0 → p &&& M6502_RDY = 0)

/-! ## Calls that begin with an assertion -/

/-- The outcome of a call whose first statement is a `CHIPS_ASSERT`: the assertion
fails and the call is aborted in the program state `s` reached by then, or the call
returns `r`. -/
inductive Outcome (S R : Type) where
  | aborted (s : S) : Outcome S R
  | returned (r : R) : Outcome S R

/-- The value a call returns; `none` when it was aborted. -/
def Outcome.result {S R : Type} : Outcome S R → Option R
  | Outcome.aborted _ => none
  | Outcome.returned r => some r

/-- The statements of `m6510_iorq(c, pins)` after its assertion, with the two
callbacks the assertion found non-null: the returned pin word, the CPU object and the
host after the access. -/
def m6510_iorq_body {W : Type} (in_cb : Nat → W → Nat × W) (out_cb : Nat → Nat → W → W)
    (c : m6502_t W) (pins : Nat) (h : Host W) : Nat × m6502_t W × Host W :=
  if pins &&& M6502_A0 = 0 then
    -- address 0: access to data direction register
    if pins &&& M6502_RW ≠ 0 then
      (M6502_SET_DATA pins c.io_ddr, c, h)
    else
      let ddr := M6502_GET_DATA pins
      let drive := ((c.io_out &&& ddr) ||| (c.io_drive &&& not32 ddr)) % 256
      let h1 := callOut out_cb (((c.io_out &&& ddr) ||| (c.io_pullup &&& not32 ddr)) % 256)
        c.user_data h
      let io_pins := ((c.io_out &&& ddr) ||| (c.io_inp &&& not32 ddr)) % 256
      (pins, { c with io_ddr := ddr, io_drive := drive, io_pins := io_pins }, h1)
  else
    -- address 1: perform I/O
    if pins &&& M6502_RW ≠ 0 then
      let r := callIn in_cb c.user_data h
      let inp := r.1
      let val := (((inp ||| (c.io_floating &&& c.io_drive)) &&& not32 c.io_ddr) |||
        (c.io_out &&& c.io_ddr)) % 256
      let io_pins := ((c.io_out &&& c.io_ddr) ||| (inp &&& not32 c.io_ddr)) % 256
      (M6502_SET_DATA pins val, { c with io_inp := inp, io_pins := io_pins }, r.2)
    else
      let out := M6502_GET_DATA pins
      let drive := ((out &&& c.io_ddr) ||| (c.io_drive &&& not32 c.io_ddr)) % 256
      let h1 := callOut out_cb (((out &&& c.io_ddr) ||| (c.io_pullup &&& not32 c.io_ddr)) % 256)
        c.user_data h
      let io_pins := ((out &&& c.io_ddr) ||| (c.io_inp &&& not32 c.io_ddr)) % 256
      (pins, { c with io_out := out, io_drive := drive, io_pins := io_pins }, h1)

/-- The function `m6510_iorq(c, pins)` with the program state at a failed assertion
made explicit: `CHIPS_ASSERT(c->in_cb && c->out_cb)` is the first statement, so the
call is aborted with the CPU object and the host it was given, before any store and
any callback invocation; otherwise the statements after the assertion run. -/
def m6510_iorq_outcome {W : Type} (c : m6502_t W) (pins : Nat) (h : Host W) :
    Outcome (m6502_t W × Host W) (Nat × m6502_t W × Host W) :=
  match c.in_cb, c.out_cb with
  | some in_cb, some out_cb => Outcome.returned (m6510_iorq_body in_cb out_cb c pins h)
  | _, _ => Outcome.aborted (c, h)

/-- The statements of `m6502_init(c, desc)` after its assertions, with the tick
callback the assertion found non-null: the `memset` and the stores. -/
def m6502_init_body {W : Type} (tick : Nat → Nat → W → Nat × W) (desc : m6502_desc_t W) :
    m6502_t W :=
  let c := m6502_zeroed W
  { c with
    tick_cb := some tick
    user_data := desc.user_data
    state := { c.state with
      PINS := M6502_RW
      P := M6502_IF ||| M6502_XF
      S := 0xFD
      bcd_enabled := !desc.bcd_disabled }
    in_cb := desc.in_cb
    out_cb := desc.out_cb
    io_pullup := desc.m6510_io_pullup
    io_floating := desc.m6510_io_floating
    trap_id := -1 }

/-- The function `m6502_init(c, desc)` on non-null `c` and `desc` with the program
state at a failed assertion made explicit: `CHIPS_ASSERT(desc->tick_cb)` precedes the
`memset`, so the call is aborted with the CPU object it was given. -/
def m6502_init_outcome {W : Type} (c : m6502_t W) (desc : m6502_desc_t W) :
    Outcome (m6502_t W) (m6502_t W) :=
  match desc.tick_cb with
  | none => Outcome.aborted c
  | some tick => Outcome.returned (m6502_init_body tick desc)

/-! ## Vocabulary of the return of `m6502_exec` and of the RDY rule on its runs -/

/-- Every read cycle ends: from every engine state the read at any address, issued
again and again, gets a response with RDY clear after finitely many ticks. -/
def readsEnd {W : Type} (tick : Nat → Nat → W → Nat × W) (user_data : Nat) : Prop :=
  ∀ (addr : Nat) (sync : Bool) (s : ExecState W),
    ∃ k, ((readTick tick user_data addr sync)^[k + 1] s).pins &&& M6502_RDY = 0

/-- The tick callback answers every tick with read direction with RDY set. -/
def holdsRDY {W : Type} (tick : Nat → Nat → W → Nat × W) : Prop :=
  ∀ (pins user_data : Nat) (h : Host W), pins &&& M6502_RW ≠ 0 →
    (callTick tick pins user_data h).1 &&& M6502_RDY ≠ 0

/-- The CPU object `readyCpu` on the slow host: its tick callback holds RDY on reads
while the wait counter of the host memory is not zero. -/
def slowCpu : m6502_t (Nat → Nat) := { readyCpu with tick_cb := some slowTick }

/-- The slow host at the start of a call: wait counter 2, no call made yet. -/
def slowHost : Host (Nat → Nat) := { world := slowMem, calls := [] }

/-! # Theorems -/

/-! ## Bit-level helper lemmas -/

theorem and_two_pow_ne_zero (x i : Nat) : x &&& 2 ^ i ≠ 0 ↔ x.testBit i = true := by
  constructor
  · intro h
    obtain ⟨j, hj⟩ := Nat.ne_zero_implies_bit_true h
    rw [Nat.testBit_and, Nat.testBit_two_pow, Bool.and_eq_true, decide_eq_true_eq] at hj
    rw [hj.2]; exact hj.1
  · intro h h0
    have : (x &&& 2 ^ i).testBit i = true := by
      rw [Nat.testBit_and, h, Nat.testBit_two_pow_self]; rfl
    rw [h0, Nat.zero_testBit] at this
    exact Bool.noConfusion this

theorem tb_mod256 (x i : Nat) : (x % 256).testBit i = (decide (i < 8) && x.testBit i) :=
  Nat.testBit_mod_two_pow x 8 i

theorem tb_not32 (x i : Nat) : (not32 x).testBit i = (decide (i < 32) != x.testBit i) := by
  have h := Nat.testBit_two_pow_sub_one 32 i
  unfold not32
  rw [Nat.testBit_xor]
  exact congrArg (fun b => b != x.testBit i) h

theorem tb_CF (i : Nat) : M6502_CF.testBit i = decide (0 = i) := by
  show (2 ^ 0).testBit i = _; exact Nat.testBit_two_pow
theorem tb_ZF (i : Nat) : M6502_ZF.testBit i = decide (1 = i) := by
  show (2 ^ 1).testBit i = _; exact Nat.testBit_two_pow
theorem tb_IF (i : Nat) : M6502_IF.testBit i = decide (2 = i) := by
  show (2 ^ 2).testBit i = _; exact Nat.testBit_two_pow
theorem tb_DF (i : Nat) : M6502_DF.testBit i = decide (3 = i) := by
  show (2 ^ 3).testBit i = _; exact Nat.testBit_two_pow
theorem tb_BF (i : Nat) : M6502_BF.testBit i = decide (4 = i) := by
  show (2 ^ 4).testBit i = _; exact Nat.testBit_two_pow
theorem tb_XF (i : Nat) : M6502_XF.testBit i = decide (5 = i) := by
  show (2 ^ 5).testBit i = _; exact Nat.testBit_two_pow
theorem tb_VF (i : Nat) : M6502_VF.testBit i = decide (6 = i) := by
  show (2 ^ 6).testBit i = _; exact Nat.testBit_two_pow
theorem tb_NF (i : Nat) : M6502_NF.testBit i = decide (7 = i) := by
  show (2 ^ 7).testBit i = _; exact Nat.testBit_two_pow

theorem tb_lt256 {p : Nat} (hp : p < 256) {i : Nat} (hi : 8 ≤ i) : p.testBit i = false := by
  apply Nat.testBit_lt_two_pow
  calc p < 2 ^ 8 := hp
    _ ≤ 2 ^ i := Nat.pow_le_pow_right (by decide) hi

theorem and_255 (x : Nat) : x &&& 255 = x % 256 := Nat.and_pow_two_sub_one_eq_mod x 8

theorem and_15 (x : Nat) : x &&& 15 = x % 16 := Nat.and_pow_two_sub_one_eq_mod x 4

theorem and_128_ne_zero (x : Nat) : x &&& 128 ≠ 0 ↔ x / 128 % 2 = 1 := by
  have h := and_two_pow_ne_zero x 7
  rw [Nat.testBit_to_div_mod, decide_eq_true_eq] at h
  exact h

theorem and_8_ne_zero (x : Nat) : x &&& 8 ≠ 0 ↔ x / 8 % 2 = 1 := by
  have h := and_two_pow_ne_zero x 3
  rw [Nat.testBit_to_div_mod, decide_eq_true_eq] at h
  exact h

theorem and_ff00 (x : Nat) : x &&& 0xFF00 = (x / 256 % 256) * 256 := by
  apply Nat.eq_of_testBit_eq
  intro i
  have h1 : (0xFF00 : Nat) = 255 <<< 8 := by decide
  have h2 : (x / 256 % 256) * 256 = ((x >>> 8) % 256) <<< 8 := by
    rw [Nat.shiftLeft_eq, Nat.shiftRight_eq_div_pow]
  rw [h2, h1, Nat.testBit_and, Nat.testBit_shiftLeft, Nat.testBit_shiftLeft, tb_mod256,
    Nat.testBit_shiftRight]
  have h3 : Nat.testBit 255 (i - 8) = decide (i - 8 < 8) := Nat.testBit_two_pow_sub_one 8 (i - 8)
  rw [h3]
  by_cases hi : i ≥ 8
  · have : 8 + (i - 8) = i := by omega
    rw [this]
    cases x.testBit i <;> simp [hi]
  · simp [hi]

theorem and_ff00_ne_zero {x : Nat} (hx : x < 65536) : x &&& 0xFF00 ≠ 0 ↔ 256 ≤ x := by
  rw [and_ff00]; omega

theorem shl4_or (h l : Nat) : ((h <<< 4) ||| (l &&& 15)) = 16 * h + l % 16 := by
  rw [and_15, Nat.shiftLeft_eq, Nat.mul_comm]
  exact (Nat.mul_add_lt_is_or (Nat.mod_lt l (by decide) : l % 16 < 2 ^ 4) h).symm

theorem tb_ite (c : Prop) [Decidable c] (a b i : Nat) :
    (if c then a else b).testBit i = if c then a.testBit i else b.testBit i := by
  split_ifs <;> rfl

theorem bin_flags_bits (P s : Nat) (cv cc : Prop) [Decidable cv] [Decidable cc]
    (hP : P < 256) (i : Nat) :
    let P1 := (_M6502_NZ ((P &&& not32 (M6502_VF ||| M6502_CF)) % 256) s) % 256
    let P2 := if cv then (P1 ||| M6502_VF) % 256 else P1
    let P3 := if cc then (P2 ||| M6502_CF) % 256 else P2
    P3.testBit i =
      flagBits P (decide (s / 128 % 2 = 1 ∧ s % 256 ≠ 0)) (decide cv) (decide (s % 256 = 0))
        (decide cc) i := by
  intro P1 P2 P3
  have hbig : 8 ≤ i → P.testBit i = false := fun h => tb_lt256 hP h
  simp only [P3, P2, P1, _M6502_NZ, tb_ite, tb_mod256, Nat.testBit_and, Nat.testBit_or, tb_not32,
    tb_CF, tb_ZF, tb_VF, tb_NF, flagBits, and_255]
  by_cases h0 : i = 0
  · subst h0; by_cases hc : cc <;> by_cases hv : cv <;> by_cases hz : s % 256 = 0 <;> simp [hc, hv, hz, Nat.testBit_to_div_mod]
  by_cases h1 : i = 1
  · subst h1; by_cases hc : cc <;> by_cases hv : cv <;> by_cases hz : s % 256 = 0 <;> simp [hc, hv, hz, Nat.testBit_to_div_mod]
  by_cases h6 : i = 6
  · subst h6; by_cases hc : cc <;> by_cases hv : cv <;> by_cases hz : s % 256 = 0 <;> simp [hc, hv, hz, Nat.testBit_to_div_mod]
  by_cases h7 : i = 7
  · subst h7; by_cases hc : cc <;> by_cases hv : cv <;> by_cases hz : s % 256 = 0 <;> simp [hc, hv, hz, Nat.testBit_to_div_mod]
  have h7s : s.testBit 7 = decide (s / 128 % 2 = 1) := Nat.testBit_to_div_mod
  by_cases h8 : i < 8
  · have h32 : i < 32 := by omega
    by_cases hc : cc <;> by_cases hv : cv <;> by_cases hz : s % 256 = 0 <;>
      simp [hc, hv, hz, h0, h1, h6, h7, h8, h32, Ne.symm h0, Ne.symm h1, Ne.symm h6, Ne.symm h7]
  · have := hbig (by omega)
    by_cases hc : cc <;> by_cases hv : cv <;> by_cases hz : s % 256 = 0 <;>
      simp [hc, hv, hz, h0, h1, h6, h7, h8, this]

theorem dec_flags_bits (P : Nat) (cz cn cv cc : Prop) [Decidable cz] [Decidable cn]
    [Decidable cv] [Decidable cc] (hP : P < 256) (i : Nat) :
    let P0 := (P &&& not32 (M6502_NF ||| M6502_VF ||| M6502_ZF ||| M6502_CF)) % 256
    let P1 := if cz then (P0 ||| M6502_ZF) % 256
              else if cn then (P0 ||| M6502_NF) % 256 else P0
    let P2 := if cv then (P1 ||| M6502_VF) % 256 else P1
    let P3 := if cc then (P2 ||| M6502_CF) % 256 else P2
    P3.testBit i = flagBits P (decide (¬ cz ∧ cn)) (decide cv) (decide cz) (decide cc) i := by
  intro P0 P1 P2 P3
  have hbig : 8 ≤ i → P.testBit i = false := fun h => tb_lt256 hP h
  simp only [P3, P2, P1, P0, tb_ite, tb_mod256, Nat.testBit_and, Nat.testBit_or, tb_not32,
    tb_CF, tb_ZF, tb_VF, tb_NF, flagBits]
  by_cases h0 : i = 0
  · subst h0
    by_cases hc : cc <;> by_cases hv : cv <;> by_cases hz : cz <;> by_cases hn : cn <;>
      simp [hc, hv, hz, hn]
  by_cases h1 : i = 1
  · subst h1
    by_cases hc : cc <;> by_cases hv : cv <;> by_cases hz : cz <;> by_cases hn : cn <;>
      simp [hc, hv, hz, hn]
  by_cases h6 : i = 6
  · subst h6
    by_cases hc : cc <;> by_cases hv : cv <;> by_cases hz : cz <;> by_cases hn : cn <;>
      simp [hc, hv, hz, hn]
  by_cases h7 : i = 7
  · subst h7
    by_cases hc : cc <;> by_cases hv : cv <;> by_cases hz : cz <;> by_cases hn : cn <;>
      simp [hc, hv, hz, hn]
  by_cases h8 : i < 8
  · have h32 : i < 32 := by omega
    by_cases hc : cc <;> by_cases hv : cv <;> by_cases hz : cz <;> by_cases hn : cn <;>
      simp [hc, hv, hz, hn, h0, h1, h6, h7, h8, h32, Ne.symm h0, Ne.symm h1, Ne.symm h6,
        Ne.symm h7]
  · have := hbig (by omega)
    by_cases hc : cc <;> by_cases hv : cv <;> by_cases hz : cz <;> by_cases hn : cn <;>
      simp [hc, hv, hz, hn, h0, h1, h6, h7, h8, this]

/-! ## Flags read through `flagSet` -/

theorem flagSet_CF (p : Nat) : flagSet p M6502_CF ↔ p.testBit 0 = true :=
  and_two_pow_ne_zero p 0
theorem flagSet_ZF (p : Nat) : flagSet p M6502_ZF ↔ p.testBit 1 = true :=
  and_two_pow_ne_zero p 1
theorem flagSet_DF (p : Nat) : flagSet p M6502_DF ↔ p.testBit 3 = true :=
  and_two_pow_ne_zero p 3
theorem flagSet_VF (p : Nat) : flagSet p M6502_VF ↔ p.testBit 6 = true :=
  and_two_pow_ne_zero p 6
theorem flagSet_NF (p : Nat) : flagSet p M6502_NF ↔ p.testBit 7 = true :=
  and_two_pow_ne_zero p 7

theorem flagBits_zero (P : Nat) (n v z c : Bool) : flagBits P n v z c 0 = c := rfl
theorem flagBits_one (P : Nat) (n v z c : Bool) : flagBits P n v z c 1 = z := rfl
theorem flagBits_six (P : Nat) (n v z c : Bool) : flagBits P n v z c 6 = v := rfl
theorem flagBits_seven (P : Nat) (n v z c : Bool) : flagBits P n v z c 7 = n := rfl

theorem carryIn_le (p : Nat) : carryIn p ≤ 1 := by
  unfold carryIn; split_ifs <;> omega

/-- The sign-change test of `_m6502_adc` on bit 7. -/
theorem adc_v_cond (a v s : Nat) :
    (not32 (a ^^^ v) &&& (a ^^^ s)) &&& 0x80 ≠ 0 ↔
      (a / 128 % 2 = v / 128 % 2 ∧ a / 128 % 2 ≠ s / 128 % 2) := by
  rw [show (0x80 : Nat) = 2 ^ 7 from rfl, and_two_pow_ne_zero]
  simp only [Nat.testBit_and, Nat.testBit_xor, tb_not32]
  rw [@Nat.testBit_to_div_mod 7 a, @Nat.testBit_to_div_mod 7 v, @Nat.testBit_to_div_mod 7 s]
  rcases Nat.mod_two_eq_zero_or_one (a / 2 ^ 7) with ha | ha <;>
  rcases Nat.mod_two_eq_zero_or_one (v / 2 ^ 7) with hv | hv <;>
  rcases Nat.mod_two_eq_zero_or_one (s / 2 ^ 7) with hs | hs <;>
  simp [ha, hv, hs] <;> simp_all

/-- The sign-change test of `_m6502_sbc` on bit 7. -/
theorem sbc_v_cond (a v s : Nat) :
    ((a ^^^ v) &&& (a ^^^ s)) &&& 0x80 ≠ 0 ↔
      (a / 128 % 2 ≠ v / 128 % 2 ∧ a / 128 % 2 ≠ s / 128 % 2) := by
  rw [show (0x80 : Nat) = 2 ^ 7 from rfl, and_two_pow_ne_zero]
  simp only [Nat.testBit_and, Nat.testBit_xor]
  rw [@Nat.testBit_to_div_mod 7 a, @Nat.testBit_to_div_mod 7 v, @Nat.testBit_to_div_mod 7 s]
  rcases Nat.mod_two_eq_zero_or_one (a / 2 ^ 7) with ha | ha <;>
  rcases Nat.mod_two_eq_zero_or_one (v / 2 ^ 7) with hv | hv <;>
  rcases Nat.mod_two_eq_zero_or_one (s / 2 ^ 7) with hs | hs <;>
  simp [ha, hv, hs] <;> simp_all

/-! ## Binary-mode add -/

theorem adc_bin_A (cpu : m6502_state_t) (val : Nat) (hmode : ¬ decimalMode cpu) :
    (_m6502_adc cpu val).A = (cpu.A + val + carryIn cpu.P) % 256 := by
  unfold decimalMode at hmode
  simp only [_m6502_adc, if_neg hmode, carryIn, and_255]
  omega

theorem adc_bin_bits (cpu : m6502_state_t) (val : Nat)
    (hA : cpu.A < 256) (hP : cpu.P < 256) (hv : val < 256)
    (hmode : ¬ decimalMode cpu) (i : Nat) :
    ((_m6502_adc cpu val).P).testBit i =
      flagBits cpu.P
        (decide ((cpu.A + val + carryIn cpu.P) / 128 % 2 = 1))
        (decide (cpu.A / 128 % 2 = val / 128 % 2 ∧
                  cpu.A / 128 % 2 ≠ (cpu.A + val + carryIn cpu.P) / 128 % 2))
        (decide ((cpu.A + val + carryIn cpu.P) % 256 = 0))
        (decide (256 ≤ cpu.A + val + carryIn cpu.P)) i := by
  have hc := carryIn_le cpu.P
  have h16 : (cpu.A + val + carryIn cpu.P) % 65536 = cpu.A + val + carryIn cpu.P := by omega
  unfold decimalMode at hmode
  unfold _m6502_adc
  rw [if_neg hmode]
  refine Eq.trans (bin_flags_bits cpu.P ((cpu.A + val + carryIn cpu.P) % 65536)
    ((not32 (cpu.A ^^^ val) &&& (cpu.A ^^^ ((cpu.A + val + carryIn cpu.P) % 65536))) &&& 0x80 ≠ 0)
    (((cpu.A + val + carryIn cpu.P) % 65536) &&& 0xFF00 ≠ 0) hP i) ?_
  rw [h16]
  have hC : (cpu.A + val + carryIn cpu.P) &&& 0xFF00 ≠ 0 ↔ 256 ≤ cpu.A + val + carryIn cpu.P :=
    and_ff00_ne_zero (by omega)
  have hN : ((cpu.A + val + carryIn cpu.P) / 128 % 2 = 1 ∧ (cpu.A + val + carryIn cpu.P) % 256 ≠ 0)
      ↔ (cpu.A + val + carryIn cpu.P) / 128 % 2 = 1 := by omega
  simp only [adc_v_cond, hC, hN]

theorem tb7 (x : Nat) : x.testBit 7 = decide (x / 128 % 2 = 1) := Nat.testBit_to_div_mod

theorem tb3 (x : Nat) : x.testBit 3 = decide (x / 8 % 2 = 1) := Nat.testBit_to_div_mod

/-- C1: in binary mode (D clear or BCD disabled) `_m6502_adc` leaves
`A' = (A + v + c) mod 256`, sets C iff `A + v + c >= 256`, Z iff `A' = 0` and
N iff bit 7 of `A'` is 1, whatever the other status bits are. -/
theorem adc_binary_result (cpu : m6502_state_t) (val : Nat)
    (hA : cpu.A < 256) (hP : cpu.P < 256) (hv : val < 256)
    (hmode : ¬ decimalMode cpu) :
    (_m6502_adc cpu val).A = (cpu.A + val + carryIn cpu.P) % 256 ∧
    (flagSet (_m6502_adc cpu val).P M6502_CF ↔ 256 ≤ cpu.A + val + carryIn cpu.P) ∧
    (flagSet (_m6502_adc cpu val).P M6502_ZF ↔ (_m6502_adc cpu val).A = 0) ∧
    (flagSet (_m6502_adc cpu val).P M6502_NF ↔ (_m6502_adc cpu val).A.testBit 7 = true) := by
  have hc := carryIn_le cpu.P
  have hAr := adc_bin_A cpu val hmode
  refine ⟨hAr, ?_, ?_, ?_⟩
  · rw [flagSet_CF, adc_bin_bits cpu val hA hP hv hmode, flagBits_zero, decide_eq_true_eq]
  · rw [flagSet_ZF, adc_bin_bits cpu val hA hP hv hmode, flagBits_one, decide_eq_true_eq, hAr]
  · rw [flagSet_NF, adc_bin_bits cpu val hA hP hv hmode, flagBits_seven, decide_eq_true_eq, hAr,
      tb7, decide_eq_true_eq]
    omega

theorem adc_binary_result_witness :
    (adcBinExample.A < 256 ∧ adcBinExample.P < 256 ∧ (1 : Nat) < 256 ∧
      ¬ decimalMode adcBinExample) ∧
    ((_m6502_adc adcBinExample 1).A = (adcBinExample.A + 1 + carryIn adcBinExample.P) % 256 ∧
    (flagSet (_m6502_adc adcBinExample 1).P M6502_CF ↔
      256 ≤ adcBinExample.A + 1 + carryIn adcBinExample.P) ∧
    (flagSet (_m6502_adc adcBinExample 1).P M6502_ZF ↔ (_m6502_adc adcBinExample 1).A = 0) ∧
    (flagSet (_m6502_adc adcBinExample 1).P M6502_NF ↔
      (_m6502_adc adcBinExample 1).A.testBit 7 = true)) :=
  ⟨by decide, adc_binary_result adcBinExample 1 (by decide) (by decide) (by decide) (by decide)⟩

/-- C2: in binary mode `_m6502_adc` sets V exactly when the signed sum
`toSigned A + toSigned v + c` is outside `[-128, 127]`, which is exactly when `A`
and `v` have the same bit 7 and the result has the other one. -/
theorem adc_binary_overflow (cpu : m6502_state_t) (val : Nat)
    (hA : cpu.A < 256) (hP : cpu.P < 256) (hv : val < 256)
    (hmode : ¬ decimalMode cpu) :
    (flagSet (_m6502_adc cpu val).P M6502_VF ↔
      ¬ (-128 ≤ toSigned cpu.A + toSigned val + (carryIn cpu.P : Int) ∧
          toSigned cpu.A + toSigned val + (carryIn cpu.P : Int) ≤ 127)) ∧
    (flagSet (_m6502_adc cpu val).P M6502_VF ↔
      (cpu.A.testBit 7 = val.testBit 7 ∧
        (_m6502_adc cpu val).A.testBit 7 ≠ cpu.A.testBit 7)) := by
  have hc := carryIn_le cpu.P
  have hAr := adc_bin_A cpu val hmode
  have hV : flagSet (_m6502_adc cpu val).P M6502_VF ↔
      (cpu.A / 128 % 2 = val / 128 % 2 ∧
        cpu.A / 128 % 2 ≠ (cpu.A + val + carryIn cpu.P) / 128 % 2) := by
    rw [flagSet_VF, adc_bin_bits cpu val hA hP hv hmode, flagBits_six, decide_eq_true_eq]
  refine ⟨?_, ?_⟩
  · rw [hV]; unfold toSigned
    split_ifs <;> omega
  · rw [hV, hAr, tb7, tb7, tb7]
    simp only [ne_eq, decide_eq_decide]
    omega

theorem adc_binary_overflow_witness :
    (adcBinExample.A < 256 ∧ adcBinExample.P < 256 ∧ (1 : Nat) < 256 ∧
      ¬ decimalMode adcBinExample) ∧
    ((flagSet (_m6502_adc adcBinExample 1).P M6502_VF ↔
      ¬ (-128 ≤ toSigned adcBinExample.A + toSigned 1 + (carryIn adcBinExample.P : Int) ∧
          toSigned adcBinExample.A + toSigned 1 + (carryIn adcBinExample.P : Int) ≤ 127)) ∧
    (flagSet (_m6502_adc adcBinExample 1).P M6502_VF ↔
      (adcBinExample.A.testBit 7 = (1 : Nat).testBit 7 ∧
        (_m6502_adc adcBinExample 1).A.testBit 7 ≠ adcBinExample.A.testBit 7))) :=
  ⟨by decide, adc_binary_overflow adcBinExample 1 (by decide) (by decide) (by decide) (by decide)⟩

/-! ## Binary-mode subtract -/

theorem borrowIn_eq (p : Nat) : borrowIn p = 1 - carryIn p := by
  unfold borrowIn carryIn; split_ifs <;> rfl

theorem borrowIn_cast (p : Nat) :
    (if p &&& M6502_CF ≠ 0 then (0 : Int) else 1) = ((borrowIn p : Nat) : Int) := by
  unfold borrowIn; split_ifs <;> rfl

theorem and_ff00_eq_zero {x : Nat} (hx : x < 65536) : ¬ (x &&& 0xFF00 ≠ 0) ↔ x < 256 := by
  rw [and_ff00_ne_zero hx]; omega

theorem u16_lt (x : Int) : u16 x < 65536 := by unfold u16; omega

theorem sbc_bin_A (cpu : m6502_state_t) (val : Nat) (hmode : ¬ decimalMode cpu) :
    (_m6502_sbc cpu val).A = u8 ((cpu.A : Int) - (val : Int) - (borrowIn cpu.P : Int)) := by
  unfold decimalMode at hmode
  simp only [_m6502_sbc, if_neg hmode, and_255, borrowIn_cast]
  unfold u16 u8
  omega

theorem sbc_bin_bits (cpu : m6502_state_t) (val : Nat)
    (hA : cpu.A < 256) (hP : cpu.P < 256) (hv : val < 256)
    (hmode : ¬ decimalMode cpu) (i : Nat) :
    ((_m6502_sbc cpu val).P).testBit i =
      flagBits cpu.P
        (decide (u8 ((cpu.A : Int) - (val : Int) - (borrowIn cpu.P : Int)) / 128 % 2 = 1))
        (decide (cpu.A / 128 % 2 ≠ val / 128 % 2 ∧
                  cpu.A / 128 % 2 ≠
                    u8 ((cpu.A : Int) - (val : Int) - (borrowIn cpu.P : Int)) / 128 % 2))
        (decide (u8 ((cpu.A : Int) - (val : Int) - (borrowIn cpu.P : Int)) = 0))
        (decide (val + borrowIn cpu.P ≤ cpu.A)) i := by
  have hb : borrowIn cpu.P ≤ 1 := by rw [borrowIn_eq]; omega
  unfold decimalMode at hmode
  unfold _m6502_sbc
  rw [if_neg hmode]
  refine Eq.trans (bin_flags_bits cpu.P _ _ _ hP i) ?_
  simp only [borrowIn_cast, sbc_v_cond, and_ff00_eq_zero (u16_lt _)]
  have h1 : u16 ((cpu.A : Int) - (val : Int) - (borrowIn cpu.P : Int)) % 256 =
      u8 ((cpu.A : Int) - (val : Int) - (borrowIn cpu.P : Int)) := by
    unfold u16 u8; omega
  have h2 : u16 ((cpu.A : Int) - (val : Int) - (borrowIn cpu.P : Int)) / 128 % 2 =
      u8 ((cpu.A : Int) - (val : Int) - (borrowIn cpu.P : Int)) / 128 % 2 := by
    unfold u16 u8; omega
  have h3 : u16 ((cpu.A : Int) - (val : Int) - (borrowIn cpu.P : Int)) < 256 ↔
      val + borrowIn cpu.P ≤ cpu.A := by
    unfold u16; omega
  have h4 : u8 ((cpu.A : Int) - (val : Int) - (borrowIn cpu.P : Int)) < 256 := by
    unfold u8; omega
  have h5 : u8 ((cpu.A : Int) - (val : Int) - (borrowIn cpu.P : Int)) % 256 =
      u8 ((cpu.A : Int) - (val : Int) - (borrowIn cpu.P : Int)) := by omega
  have hN : (u8 ((cpu.A : Int) - (val : Int) - (borrowIn cpu.P : Int)) / 128 % 2 = 1 ∧
      u8 ((cpu.A : Int) - (val : Int) - (borrowIn cpu.P : Int)) ≠ 0) ↔
      u8 ((cpu.A : Int) - (val : Int) - (borrowIn cpu.P : Int)) / 128 % 2 = 1 := by omega
  simp only [h1, h2, h3, h5, hN]

theorem adc_eq_update (cpu : m6502_state_t) (val : Nat) :
    _m6502_adc cpu val =
      { cpu with P := (_m6502_adc cpu val).P, A := (_m6502_adc cpu val).A } := by
  unfold _m6502_adc
  split_ifs <;> rfl

theorem sbc_eq_update (cpu : m6502_state_t) (val : Nat) :
    _m6502_sbc cpu val =
      { cpu with P := (_m6502_sbc cpu val).P, A := (_m6502_sbc cpu val).A } := by
  unfold _m6502_sbc
  split_ifs <;> rfl

theorem xor_255 {v : Nat} (hv : v < 256) : v ^^^ 0xFF = 255 - v := by
  apply Nat.eq_of_testBit_eq
  intro i
  have h0 : 255 - v = 2 ^ 8 - (v + 1) := by omega
  have h1 : (255 - v).testBit i = (decide (i < 8) && !v.testBit i) := by
    rw [h0]; exact Nat.testBit_two_pow_sub_succ (show v < 2 ^ 8 from hv) i
  have h2 : Nat.testBit 0xFF i = decide (i < 8) := Nat.testBit_two_pow_sub_one 8 i
  rw [Nat.testBit_xor, h1, h2]
  by_cases hi : i < 8
  · simp [hi]
  · simp [hi, tb_lt256 hv (Nat.le_of_not_lt hi)]

/-- C4: in binary mode `_m6502_sbc` leaves `A' = (A - v - (1 - c)) mod 256`, sets C
iff no borrow occurred (`A >= v + (1 - c)`), Z iff `A' = 0` and N iff bit 7 of `A'`
is 1. -/
theorem sbc_binary_result (cpu : m6502_state_t) (val : Nat)
    (hA : cpu.A < 256) (hP : cpu.P < 256) (hv : val < 256)
    (hmode : ¬ decimalMode cpu) :
    ((_m6502_sbc cpu val).A : Int) =
      ((cpu.A : Int) - (val : Int) - (1 - (carryIn cpu.P : Int))) % 256 ∧
    (flagSet (_m6502_sbc cpu val).P M6502_CF ↔ cpu.A ≥ val + (1 - carryIn cpu.P)) ∧
    (flagSet (_m6502_sbc cpu val).P M6502_ZF ↔ (_m6502_sbc cpu val).A = 0) ∧
    (flagSet (_m6502_sbc cpu val).P M6502_NF ↔ (_m6502_sbc cpu val).A.testBit 7 = true) := by
  have hc := carryIn_le cpu.P
  have hb := borrowIn_eq cpu.P
  have hAr := sbc_bin_A cpu val hmode
  refine ⟨?_, ?_, ?_, ?_⟩
  · rw [hAr]; unfold u8; omega
  · rw [flagSet_CF, sbc_bin_bits cpu val hA hP hv hmode, flagBits_zero, decide_eq_true_eq, hb]
  · rw [flagSet_ZF, sbc_bin_bits cpu val hA hP hv hmode, flagBits_one, decide_eq_true_eq, hAr]
  · rw [flagSet_NF, sbc_bin_bits cpu val hA hP hv hmode, flagBits_seven, decide_eq_true_eq, hAr,
      tb7, decide_eq_true_eq]

theorem sbc_binary_result_witness :
    (sbcBinExample.A < 256 ∧ sbcBinExample.P < 256 ∧ (0xF0 : Nat) < 256 ∧
      ¬ decimalMode sbcBinExample) ∧
    (((_m6502_sbc sbcBinExample 0xF0).A : Int) =
      ((sbcBinExample.A : Int) - ((0xF0 : Nat) : Int) -
        (1 - (carryIn sbcBinExample.P : Int))) % 256 ∧
    (flagSet (_m6502_sbc sbcBinExample 0xF0).P M6502_CF ↔
      sbcBinExample.A ≥ 0xF0 + (1 - carryIn sbcBinExample.P)) ∧
    (flagSet (_m6502_sbc sbcBinExample 0xF0).P M6502_ZF ↔
      (_m6502_sbc sbcBinExample 0xF0).A = 0) ∧
    (flagSet (_m6502_sbc sbcBinExample 0xF0).P M6502_NF ↔
      (_m6502_sbc sbcBinExample 0xF0).A.testBit 7 = true)) :=
  ⟨by decide, sbc_binary_result sbcBinExample 0xF0 (by decide) (by decide) (by decide) (by decide)⟩

/-- C5: in binary mode `_m6502_sbc(s, v)` yields exactly the state (accumulator,
status byte and every other field) that `_m6502_adc(s, v XOR 0xFF)` yields. -/
theorem sbc_binary_eq_adc_complement (cpu : m6502_state_t) (val : Nat)
    (hA : cpu.A < 256) (hP : cpu.P < 256) (hv : val < 256)
    (hmode : ¬ decimalMode cpu) :
    _m6502_sbc cpu val = _m6502_adc cpu (val ^^^ 0xFF) := by
  have hc := carryIn_le cpu.P
  have hb := borrowIn_eq cpu.P
  have hx := xor_255 hv
  have hv2 : val ^^^ 0xFF < 256 := by omega
  have hAeq : (_m6502_sbc cpu val).A = (_m6502_adc cpu (val ^^^ 0xFF)).A := by
    rw [sbc_bin_A cpu val hmode, adc_bin_A cpu _ hmode, hx]
    unfold u8; omega
  have hPeq : (_m6502_sbc cpu val).P = (_m6502_adc cpu (val ^^^ 0xFF)).P := by
    apply Nat.eq_of_testBit_eq
    intro i
    rw [sbc_bin_bits cpu val hA hP hv hmode, adc_bin_bits cpu _ hA hP hv2 hmode, hx]
    have h1 : u8 ((cpu.A : Int) - (val : Int) - (borrowIn cpu.P : Int)) / 128 % 2 =
        (cpu.A + (255 - val) + carryIn cpu.P) / 128 % 2 := by unfold u8; omega
    have h2 : u8 ((cpu.A : Int) - (val : Int) - (borrowIn cpu.P : Int)) = 0 ↔
        (cpu.A + (255 - val) + carryIn cpu.P) % 256 = 0 := by unfold u8; omega
    have h3 : val + borrowIn cpu.P ≤ cpu.A ↔ 256 ≤ cpu.A + (255 - val) + carryIn cpu.P := by
      omega
    have h4 : cpu.A / 128 % 2 ≠ val / 128 % 2 ↔ cpu.A / 128 % 2 = (255 - val) / 128 % 2 := by
      omega
    simp only [h1, h2, h3, h4]
  rw [sbc_eq_update, adc_eq_update cpu (val ^^^ 0xFF), hAeq, hPeq]

theorem sbc_binary_eq_adc_complement_witness :
    (sbcBinExample.A < 256 ∧ sbcBinExample.P < 256 ∧ (0xF0 : Nat) < 256 ∧
      ¬ decimalMode sbcBinExample) ∧
    _m6502_sbc sbcBinExample 0xF0 = _m6502_adc sbcBinExample (0xF0 ^^^ 0xFF) :=
  ⟨by decide,
    sbc_binary_eq_adc_complement sbcBinExample 0xF0 (by decide) (by decide) (by decide)
      (by decide)⟩

/-! ## Decimal-mode add -/

theorem shr4 (x : Nat) : x >>> 4 = x / 16 := Nat.shiftRight_eq_div_pow x 4

theorem shl4 (x : Nat) : x <<< 4 = x * 16 := Nat.shiftLeft_eq x 4

theorem adcLowNibble_eq (A val c : Nat) (hc : c ≤ 1) :
    adcLowNibble A val c =
      if A % 16 + val % 16 + c > 9 then A % 16 + val % 16 + c + 6 else A % 16 + val % 16 + c := by
  simp only [adcLowNibble, and_15]
  split_ifs <;> omega

theorem adcHighNibbleSum_eq (A val c : Nat) (hA : A < 256) (hv : val < 256) :
    adcHighNibbleSum A val c =
      A / 16 + val / 16 + (if adcLowNibble A val c > 15 then 1 else 0) := by
  simp only [adcHighNibbleSum, shr4]
  split_ifs <;> omega

theorem adcHighNibbleSum_le (A val c : Nat) (hA : A < 256) (hv : val < 256) :
    adcHighNibbleSum A val c ≤ 31 := by
  rw [adcHighNibbleSum_eq A val c hA hv]
  split_ifs <;> omega

theorem adcHighNibble_eq (A val c : Nat) (hA : A < 256) (hv : val < 256) :
    adcHighNibble A val c =
      if adcHighNibbleSum A val c > 9 then adcHighNibbleSum A val c + 6
      else adcHighNibbleSum A val c := by
  have := adcHighNibbleSum_le A val c hA hv
  unfold adcHighNibble
  split_ifs <;> omega

theorem adc_dec_A (cpu : m6502_state_t) (val : Nat) (hmode : decimalMode cpu) :
    (_m6502_adc cpu val).A =
      (16 * adcHighNibble cpu.A val (carryIn cpu.P) +
        adcLowNibble cpu.A val (carryIn cpu.P) % 16) % 256 := by
  unfold decimalMode at hmode
  unfold _m6502_adc
  rw [if_pos hmode]
  exact congrArg (· % 256) (shl4_or _ _)

theorem adc_dec_bits (cpu : m6502_state_t) (val : Nat) (hP : cpu.P < 256)
    (hmode : decimalMode cpu) (i : Nat) :
    ((_m6502_adc cpu val).P).testBit i =
      flagBits cpu.P
        (decide (¬ (0 = (cpu.A + val + carryIn cpu.P) % 256) ∧
                  adcHighNibbleSum cpu.A val (carryIn cpu.P) / 8 % 2 = 1))
        (decide (cpu.A / 128 % 2 = val / 128 % 2 ∧
                  cpu.A / 128 % 2 ≠ adcHighNibbleSum cpu.A val (carryIn cpu.P) / 8 % 2))
        (decide (0 = (cpu.A + val + carryIn cpu.P) % 256))
        (decide (adcHighNibble cpu.A val (carryIn cpu.P) > 15)) i := by
  unfold decimalMode at hmode
  unfold _m6502_adc
  rw [if_pos hmode]
  refine Eq.trans (dec_flags_bits cpu.P
    (0 = (cpu.A + val + carryIn cpu.P) % 256)
    (adcHighNibbleSum cpu.A val (carryIn cpu.P) &&& 0x08 ≠ 0)
    ((not32 (cpu.A ^^^ val) &&& (cpu.A ^^^ (adcHighNibbleSum cpu.A val (carryIn cpu.P) <<< 4)))
      &&& 0x80 ≠ 0)
    (adcHighNibble cpu.A val (carryIn cpu.P) > 15) hP i) ?_
  have h1 : adcHighNibbleSum cpu.A val (carryIn cpu.P) <<< 4 / 128 % 2 =
      adcHighNibbleSum cpu.A val (carryIn cpu.P) / 8 % 2 := by
    rw [shl4]; omega
  simp only [adc_v_cond, and_8_ne_zero, h1]

theorem bcd_add_arith (aH aL vH vL c L H0 H : Nat) (h1 : aH ≤ 9) (h2 : aL ≤ 9) (h3 : vH ≤ 9)
    (h4 : vL ≤ 9) (hc : c ≤ 1)
    (hL : L = if aL + vL + c > 9 then aL + vL + c + 6 else aL + vL + c)
    (hH0 : H0 = aH + vH + if L > 15 then 1 else 0)
    (hH : H = if H0 > 9 then H0 + 6 else H0) :
    H % 16 ≤ 9 ∧ L % 16 ≤ 9 ∧
    10 * (H % 16) + L % 16 = (10 * aH + aL + (10 * vH + vL) + c) % 100 ∧
    (H > 15 ↔ 10 * aH + aL + (10 * vH + vL) + c ≥ 100) := by
  split_ifs at hL hH0 hH <;> subst hL <;> subst hH0 <;> subst hH <;>
    refine ⟨?_, ?_, ?_, ?_⟩ <;> omega

/-- C3: on valid packed-BCD operands decimal-mode `_m6502_adc` leaves a valid
packed-BCD accumulator with `dec A' = (dec A + dec v + c) mod 100` and sets C iff
`dec A + dec v + c >= 100`. -/
theorem adc_decimal_bcd (cpu : m6502_state_t) (val : Nat)
    (hA : cpu.A < 256) (hP : cpu.P < 256) (hv : val < 256)
    (hmode : decimalMode cpu) (hbA : validBCD cpu.A) (hbv : validBCD val) :
    validBCD (_m6502_adc cpu val).A ∧
    dec (_m6502_adc cpu val).A = (dec cpu.A + dec val + carryIn cpu.P) % 100 ∧
    (flagSet (_m6502_adc cpu val).P M6502_CF ↔ dec cpu.A + dec val + carryIn cpu.P ≥ 100) := by
  have hc := carryIn_le cpu.P
  have hAr := adc_dec_A cpu val hmode
  have hl := adcLowNibble_eq cpu.A val (carryIn cpu.P) hc
  have hh0 := adcHighNibbleSum_eq cpu.A val (carryIn cpu.P) hA hv
  have hh := adcHighNibble_eq cpu.A val (carryIn cpu.P) hA hv
  unfold validBCD at hbA hbv
  rw [shr4, and_15] at hbA hbv
  have hC : flagSet (_m6502_adc cpu val).P M6502_CF ↔
      adcHighNibble cpu.A val (carryIn cpu.P) > 15 := by
    rw [flagSet_CF, adc_dec_bits cpu val hP hmode, flagBits_zero, decide_eq_true_eq]
  rw [hC]
  unfold validBCD dec
  simp only [shr4, and_15, hAr]
  have hq : (16 * adcHighNibble cpu.A val (carryIn cpu.P) +
      adcLowNibble cpu.A val (carryIn cpu.P) % 16) % 256 / 16 =
      adcHighNibble cpu.A val (carryIn cpu.P) % 16 := by omega
  have hr : (16 * adcHighNibble cpu.A val (carryIn cpu.P) +
      adcLowNibble cpu.A val (carryIn cpu.P) % 16) % 256 % 16 =
      adcLowNibble cpu.A val (carryIn cpu.P) % 16 := by omega
  rw [hq, hr]
  obtain ⟨g1, g2, g3, g4⟩ := bcd_add_arith (cpu.A / 16) (cpu.A % 16) (val / 16) (val % 16)
    (carryIn cpu.P) _ _ _ hbA.1 hbA.2 hbv.1 hbv.2 hc hl hh0 hh
  exact ⟨⟨g1, g2⟩, g3, g4⟩

theorem adc_decimal_bcd_witness :
    (adcDecExample.A < 256 ∧ adcDecExample.P < 256 ∧ (0x01 : Nat) < 256 ∧
      decimalMode adcDecExample ∧ validBCD adcDecExample.A ∧ validBCD 0x01) ∧
    (_m6502_adc adcDecExample 0x01).A = 0x20 ∧
    (validBCD (_m6502_adc adcDecExample 0x01).A ∧
    dec (_m6502_adc adcDecExample 0x01).A =
      (dec adcDecExample.A + dec 0x01 + carryIn adcDecExample.P) % 100 ∧
    (flagSet (_m6502_adc adcDecExample 0x01).P M6502_CF ↔
      dec adcDecExample.A + dec 0x01 + carryIn adcDecExample.P ≥ 100)) :=
  ⟨by decide, by decide,
    adc_decimal_bcd adcDecExample 0x01 (by decide) (by decide) (by decide) (by decide)
      (by decide) (by decide)⟩

/-- C8: in decimal mode `_m6502_adc` sets Z iff the uncorrected binary sum
`(A + v + c) mod 256` is zero, whatever the BCD-corrected accumulator is. -/
theorem adc_decimal_zero_flag (cpu : m6502_state_t) (val : Nat) (hP : cpu.P < 256)
    (hmode : decimalMode cpu) :
    flagSet (_m6502_adc cpu val).P M6502_ZF ↔ (cpu.A + val + carryIn cpu.P) % 256 = 0 := by
  rw [flagSet_ZF, adc_dec_bits cpu val hP hmode, flagBits_one, decide_eq_true_eq]
  exact eq_comm

theorem adc_decimal_zero_flag_witness :
    (adcDecWrapExample.P < 256 ∧ decimalMode adcDecWrapExample) ∧
    (_m6502_adc adcDecWrapExample 0x01).A = 0x00 ∧
    ¬ flagSet (_m6502_adc adcDecWrapExample 0x01).P M6502_ZF ∧
    (flagSet (_m6502_adc adcDecWrapExample 0x01).P M6502_ZF ↔
      (adcDecWrapExample.A + 0x01 + carryIn adcDecWrapExample.P) % 256 = 0) :=
  ⟨by decide, by decide, by decide,
    adc_decimal_zero_flag adcDecWrapExample 0x01 (by decide) (by decide)⟩

/-- C9: in decimal mode `_m6502_adc` sets N iff bit 3 of the uncorrected
high-nibble sum `(A>>4) + (v>>4) + carry-out of the corrected low nibble` is 1, for
all 8-bit inputs (also those where the zero test succeeded). -/
theorem adc_decimal_negative_flag (cpu : m6502_state_t) (val : Nat)
    (hA : cpu.A < 256) (hP : cpu.P < 256) (hv : val < 256) (hmode : decimalMode cpu) :
    flagSet (_m6502_adc cpu val).P M6502_NF ↔
      ((cpu.A >>> 4) + (val >>> 4) +
        (if adcLowNibble cpu.A val (carryIn cpu.P) > 0x0F then 1 else 0)).testBit 3 = true := by
  have hc := carryIn_le cpu.P
  have hl := adcLowNibble_eq cpu.A val (carryIn cpu.P) hc
  have hh0 := adcHighNibbleSum_eq cpu.A val (carryIn cpu.P) hA hv
  rw [flagSet_NF, adc_dec_bits cpu val hP hmode, flagBits_seven, decide_eq_true_eq, tb3,
    decide_eq_true_eq, shr4, shr4, ← hh0]
  constructor
  · exact fun h => h.2
  · intro h
    refine ⟨?_, h⟩
    intro hz
    rw [hh0] at h
    split_ifs at hl h <;> omega

theorem adc_decimal_negative_flag_witness :
    (adcDecWrapExample.A < 256 ∧ adcDecWrapExample.P < 256 ∧ (0x01 : Nat) < 256 ∧
      decimalMode adcDecWrapExample) ∧
    (flagSet (_m6502_adc adcDecWrapExample 0x01).P M6502_NF ↔
      ((adcDecWrapExample.A >>> 4) + (0x01 >>> 4) +
        (if adcLowNibble adcDecWrapExample.A 0x01 (carryIn adcDecWrapExample.P) > 0x0F
          then 1 else 0)).testBit 3 = true) :=
  ⟨by decide,
    adc_decimal_negative_flag adcDecWrapExample 0x01 (by decide) (by decide) (by decide)
      (by decide)⟩

/-- C10: in decimal mode `_m6502_adc` sets V iff `A` and `v` have equal bit 7 and
bit 3 of the uncorrected high-nibble sum differs from bit 7 of `A`. -/
theorem adc_decimal_overflow_flag (cpu : m6502_state_t) (val : Nat)
    (hA : cpu.A < 256) (hP : cpu.P < 256) (hv : val < 256) (hmode : decimalMode cpu) :
    flagSet (_m6502_adc cpu val).P M6502_VF ↔
      (cpu.A.testBit 7 = val.testBit 7 ∧
        ((cpu.A >>> 4) + (val >>> 4) +
          (if adcLowNibble cpu.A val (carryIn cpu.P) > 0x0F then 1 else 0)).testBit 3 ≠
            cpu.A.testBit 7) := by
  have hh0 := adcHighNibbleSum_eq cpu.A val (carryIn cpu.P) hA hv
  rw [flagSet_VF, adc_dec_bits cpu val hP hmode, flagBits_six, decide_eq_true_eq, tb3, tb7, tb7,
    shr4, shr4, ← hh0]
  simp only [ne_eq, decide_eq_decide]
  omega

theorem adc_decimal_overflow_flag_witness :
    (adcDecWrapExample.A < 256 ∧ adcDecWrapExample.P < 256 ∧ (0x01 : Nat) < 256 ∧
      decimalMode adcDecWrapExample) ∧
    (flagSet (_m6502_adc adcDecWrapExample 0x01).P M6502_VF ↔
      (adcDecWrapExample.A.testBit 7 = (0x01 : Nat).testBit 7 ∧
        ((adcDecWrapExample.A >>> 4) + (0x01 >>> 4) +
          (if adcLowNibble adcDecWrapExample.A 0x01 (carryIn adcDecWrapExample.P) > 0x0F
            then 1 else 0)).testBit 3 ≠ adcDecWrapExample.A.testBit 7)) :=
  ⟨by decide,
    adc_decimal_overflow_flag adcDecWrapExample 0x01 (by decide) (by decide) (by decide)
      (by decide)⟩

/-! ## Decimal-mode subtract -/

theorem i8_neg_iff (x : Nat) : i8 x < 0 ↔ 128 ≤ x % 256 := by
  unfold i8; split_ifs <;> omega

theorem sbcLowNibble_eq (A val c : Nat) (hc : c ≤ 1) :
    sbcLowNibble A val c =
      if A % 16 < val % 16 + c then A % 16 + 250 - val % 16 - c
      else A % 16 - val % 16 - c := by
  simp only [sbcLowNibble, and_15, i8_neg_iff]
  unfold u8
  split_ifs <;> omega

theorem sbcLowNibble_borrow (A val c : Nat) (hc : c ≤ 1) :
    i8 (sbcLowNibble A val c) < 0 ↔ A % 16 < val % 16 + c := by
  rw [i8_neg_iff, sbcLowNibble_eq A val c hc]
  split_ifs <;> omega

theorem sbcHighNibbleDiff_eq (A val c : Nat) (hA : A < 256) (hv : val < 256) (hc : c ≤ 1) :
    sbcHighNibbleDiff A val c =
      if A / 16 < val / 16 + (if A % 16 < val % 16 + c then 1 else 0)
      then A / 16 + 256 - val / 16 - (if A % 16 < val % 16 + c then 1 else 0)
      else A / 16 - val / 16 - (if A % 16 < val % 16 + c then 1 else 0) := by
  simp only [sbcHighNibbleDiff, shr4, sbcLowNibble_borrow A val c hc]
  unfold u8
  split_ifs <;> omega

theorem sbcHighNibble_eq (A val c : Nat) (hA : A < 256) (hv : val < 256) (hc : c ≤ 1) :
    sbcHighNibble A val c =
      if A / 16 < val / 16 + (if A % 16 < val % 16 + c then 1 else 0)
      then A / 16 + 250 - val / 16 - (if A % 16 < val % 16 + c then 1 else 0)
      else A / 16 - val / 16 - (if A % 16 < val % 16 + c then 1 else 0) := by
  simp only [sbcHighNibble, and_128_ne_zero, sbcHighNibbleDiff_eq A val c hA hv hc]
  unfold u8
  split_ifs <;> omega

theorem sbc_dec_A (cpu : m6502_state_t) (val : Nat) (hmode : decimalMode cpu) :
    (_m6502_sbc cpu val).A =
      (16 * sbcHighNibble cpu.A val (borrowIn cpu.P) +
        sbcLowNibble cpu.A val (borrowIn cpu.P) % 16) % 256 := by
  unfold decimalMode at hmode
  unfold _m6502_sbc
  rw [if_pos hmode]
  exact congrArg (· % 256) (shl4_or _ _)

theorem sbc_dec_bits (cpu : m6502_state_t) (val : Nat)
    (hA : cpu.A < 256) (hP : cpu.P < 256) (hv : val < 256)
    (hmode : decimalMode cpu) (i : Nat) :
    ((_m6502_sbc cpu val).P).testBit i =
      flagBits cpu.P
        (decide (u8 ((cpu.A : Int) - (val : Int) - (borrowIn cpu.P : Int)) / 128 % 2 = 1))
        (decide (cpu.A / 128 % 2 ≠ val / 128 % 2 ∧
                  cpu.A / 128 % 2 ≠
                    u8 ((cpu.A : Int) - (val : Int) - (borrowIn cpu.P : Int)) / 128 % 2))
        (decide (u8 ((cpu.A : Int) - (val : Int) - (borrowIn cpu.P : Int)) = 0))
        (decide (val + borrowIn cpu.P ≤ cpu.A)) i := by
  have hb : borrowIn cpu.P ≤ 1 := by rw [borrowIn_eq]; omega
  unfold decimalMode at hmode
  unfold _m6502_sbc
  rw [if_pos hmode]
  refine Eq.trans (dec_flags_bits cpu.P
    (0 = u16 ((cpu.A : Int) - (val : Int) - (borrowIn cpu.P : Int)) % 256)
    (u16 ((cpu.A : Int) - (val : Int) - (borrowIn cpu.P : Int)) &&& 0x80 ≠ 0)
    (((cpu.A ^^^ val) &&& (cpu.A ^^^ u16 ((cpu.A : Int) - (val : Int) - (borrowIn cpu.P : Int))))
      &&& 0x80 ≠ 0)
    (¬ (u16 ((cpu.A : Int) - (val : Int) - (borrowIn cpu.P : Int)) &&& 0xFF00 ≠ 0)) hP i) ?_
  simp only [sbc_v_cond]
  simp only [and_128_ne_zero, and_ff00_eq_zero (u16_lt _)]
  have h1 : u16 ((cpu.A : Int) - (val : Int) - (borrowIn cpu.P : Int)) % 256 =
      u8 ((cpu.A : Int) - (val : Int) - (borrowIn cpu.P : Int)) := by
    unfold u16 u8; omega
  have h2 : u16 ((cpu.A : Int) - (val : Int) - (borrowIn cpu.P : Int)) / 128 % 2 =
      u8 ((cpu.A : Int) - (val : Int) - (borrowIn cpu.P : Int)) / 128 % 2 := by
    unfold u16 u8; omega
  have h3 : u16 ((cpu.A : Int) - (val : Int) - (borrowIn cpu.P : Int)) < 256 ↔
      val + borrowIn cpu.P ≤ cpu.A := by
    unfold u16; omega
  have hZ : (0 = u8 ((cpu.A : Int) - (val : Int) - (borrowIn cpu.P : Int))) ↔
      u8 ((cpu.A : Int) - (val : Int) - (borrowIn cpu.P : Int)) = 0 := eq_comm
  have hN : (¬ (u8 ((cpu.A : Int) - (val : Int) - (borrowIn cpu.P : Int)) = 0) ∧
      u8 ((cpu.A : Int) - (val : Int) - (borrowIn cpu.P : Int)) / 128 % 2 = 1) ↔
      u8 ((cpu.A : Int) - (val : Int) - (borrowIn cpu.P : Int)) / 128 % 2 = 1 := by omega
  simp only [h1, h2, h3, hZ, hN]

theorem bcd_sub_arith (aH aL vH vL b L H : Nat) (h1 : aH ≤ 9) (h2 : aL ≤ 9) (h3 : vH ≤ 9)
    (h4 : vL ≤ 9) (hb : b ≤ 1)
    (hL : L = if aL < vL + b then aL + 250 - vL - b else aL - vL - b)
    (hH : H = if aH < vH + (if aL < vL + b then 1 else 0)
              then aH + 250 - vH - (if aL < vL + b then 1 else 0)
              else aH - vH - (if aL < vL + b then 1 else 0)) :
    H % 16 ≤ 9 ∧ L % 16 ≤ 9 ∧
    ((10 * (H % 16) + L % 16 : Nat) : Int) =
      (((10 * aH + aL : Nat) : Int) - ((10 * vH + vL : Nat) : Int) - (b : Int)) % 100 ∧
    (16 * vH + vL + b ≤ 16 * aH + aL ↔ 10 * aH + aL ≥ 10 * vH + vL + b) := by
  split_ifs at hL hH <;> subst hL <;> subst hH <;> refine ⟨?_, ?_, ?_, ?_⟩ <;> omega

/-- C6: on valid packed-BCD operands decimal-mode `_m6502_sbc` leaves a valid
packed-BCD accumulator with `dec A' = (dec A - dec v - b) mod 100`, `b = 1 - c`, and
sets C iff `dec A >= dec v + b`. -/
theorem sbc_decimal_bcd (cpu : m6502_state_t) (val : Nat)
    (hA : cpu.A < 256) (hP : cpu.P < 256) (hv : val < 256)
    (hmode : decimalMode cpu) (hbA : validBCD cpu.A) (hbv : validBCD val) :
    validBCD (_m6502_sbc cpu val).A ∧
    ((dec (_m6502_sbc cpu val).A : Nat) : Int) =
      ((dec cpu.A : Int) - (dec val : Int) - ((1 - carryIn cpu.P : Nat) : Int)) % 100 ∧
    (flagSet (_m6502_sbc cpu val).P M6502_CF ↔ dec cpu.A ≥ dec val + (1 - carryIn cpu.P)) := by
  have hc := carryIn_le cpu.P
  have hbe := borrowIn_eq cpu.P
  have hb : borrowIn cpu.P ≤ 1 := by omega
  have hAr := sbc_dec_A cpu val hmode
  have hl := sbcLowNibble_eq cpu.A val (borrowIn cpu.P) hb
  have hh := sbcHighNibble_eq cpu.A val (borrowIn cpu.P) hA hv hb
  unfold validBCD at hbA hbv
  rw [shr4, and_15] at hbA hbv
  have hC : flagSet (_m6502_sbc cpu val).P M6502_CF ↔ val + borrowIn cpu.P ≤ cpu.A := by
    rw [flagSet_CF, sbc_dec_bits cpu val hA hP hv hmode, flagBits_zero, decide_eq_true_eq]
  have hC2 : val + borrowIn cpu.P ≤ cpu.A ↔
      16 * (val / 16) + val % 16 + borrowIn cpu.P ≤ 16 * (cpu.A / 16) + cpu.A % 16 := by
    omega
  rw [hC, hC2, ← hbe]
  unfold validBCD dec
  simp only [shr4, and_15, hAr]
  have hq : (16 * sbcHighNibble cpu.A val (borrowIn cpu.P) +
      sbcLowNibble cpu.A val (borrowIn cpu.P) % 16) % 256 / 16 =
      sbcHighNibble cpu.A val (borrowIn cpu.P) % 16 := by omega
  have hr : (16 * sbcHighNibble cpu.A val (borrowIn cpu.P) +
      sbcLowNibble cpu.A val (borrowIn cpu.P) % 16) % 256 % 16 =
      sbcLowNibble cpu.A val (borrowIn cpu.P) % 16 := by omega
  rw [hq, hr]
  obtain ⟨g1, g2, g3, g4⟩ := bcd_sub_arith (cpu.A / 16) (cpu.A % 16) (val / 16) (val % 16)
    (borrowIn cpu.P) _ _ hbA.1 hbA.2 hbv.1 hbv.2 hb hl hh
  exact ⟨⟨g1, g2⟩, g3, g4⟩

theorem sbc_decimal_bcd_witness :
    (sbcDecExample.A < 256 ∧ sbcDecExample.P < 256 ∧ (0x01 : Nat) < 256 ∧
      decimalMode sbcDecExample ∧ validBCD sbcDecExample.A ∧ validBCD 0x01) ∧
    (_m6502_sbc sbcDecExample 0x01).A = 0x18 ∧
    (validBCD (_m6502_sbc sbcDecExample 0x01).A ∧
    ((dec (_m6502_sbc sbcDecExample 0x01).A : Nat) : Int) =
      ((dec sbcDecExample.A : Int) - (dec 0x01 : Int) -
        ((1 - carryIn sbcDecExample.P : Nat) : Int)) % 100 ∧
    (flagSet (_m6502_sbc sbcDecExample 0x01).P M6502_CF ↔
      dec sbcDecExample.A ≥ dec 0x01 + (1 - carryIn sbcDecExample.P))) :=
  ⟨by decide, by decide,
    sbc_decimal_bcd sbcDecExample 0x01 (by decide) (by decide) (by decide) (by decide)
      (by decide) (by decide)⟩

/-- C7: for the same accumulator, operand and carry-in, the N, V, Z and C flags
left by decimal-mode `_m6502_sbc` are those left by binary-mode `_m6502_sbc`. -/
theorem sbc_decimal_flags_eq_binary (sd sb : m6502_state_t) (val : Nat)
    (hA : sd.A < 256) (hPd : sd.P < 256) (hPb : sb.P < 256) (hv : val < 256)
    (hd : decimalMode sd) (hbin : ¬ decimalMode sb)
    (hAeq : sb.A = sd.A) (hCeq : carryIn sb.P = carryIn sd.P) :
    (flagSet (_m6502_sbc sd val).P M6502_NF ↔ flagSet (_m6502_sbc sb val).P M6502_NF) ∧
    (flagSet (_m6502_sbc sd val).P M6502_VF ↔ flagSet (_m6502_sbc sb val).P M6502_VF) ∧
    (flagSet (_m6502_sbc sd val).P M6502_ZF ↔ flagSet (_m6502_sbc sb val).P M6502_ZF) ∧
    (flagSet (_m6502_sbc sd val).P M6502_CF ↔ flagSet (_m6502_sbc sb val).P M6502_CF) := by
  have hA2 : sb.A < 256 := by rw [hAeq]; exact hA
  have hB : borrowIn sb.P = borrowIn sd.P := by rw [borrowIn_eq, borrowIn_eq, hCeq]
  refine ⟨?_, ?_, ?_, ?_⟩
  · rw [flagSet_NF, flagSet_NF, sbc_dec_bits sd val hA hPd hv hd,
      sbc_bin_bits sb val hA2 hPb hv hbin, flagBits_seven, flagBits_seven, hAeq, hB]
  · rw [flagSet_VF, flagSet_VF, sbc_dec_bits sd val hA hPd hv hd,
      sbc_bin_bits sb val hA2 hPb hv hbin, flagBits_six, flagBits_six, hAeq, hB]
  · rw [flagSet_ZF, flagSet_ZF, sbc_dec_bits sd val hA hPd hv hd,
      sbc_bin_bits sb val hA2 hPb hv hbin, flagBits_one, flagBits_one, hAeq, hB]
  · rw [flagSet_CF, flagSet_CF, sbc_dec_bits sd val hA hPd hv hd,
      sbc_bin_bits sb val hA2 hPb hv hbin, flagBits_zero, flagBits_zero, hAeq, hB]

theorem sbc_decimal_flags_eq_binary_witness :
    (sbcDecExample.A < 256 ∧ sbcDecExample.P < 256 ∧ sbcDecExampleBinary.P < 256 ∧
      (0x21 : Nat) < 256 ∧ decimalMode sbcDecExample ∧ ¬ decimalMode sbcDecExampleBinary ∧
      sbcDecExampleBinary.A = sbcDecExample.A ∧
      carryIn sbcDecExampleBinary.P = carryIn sbcDecExample.P) ∧
    (_m6502_sbc sbcDecExample 0x21).A ≠ (_m6502_sbc sbcDecExampleBinary 0x21).A ∧
    ((flagSet (_m6502_sbc sbcDecExample 0x21).P M6502_NF ↔
        flagSet (_m6502_sbc sbcDecExampleBinary 0x21).P M6502_NF) ∧
    (flagSet (_m6502_sbc sbcDecExample 0x21).P M6502_VF ↔
        flagSet (_m6502_sbc sbcDecExampleBinary 0x21).P M6502_VF) ∧
    (flagSet (_m6502_sbc sbcDecExample 0x21).P M6502_ZF ↔
        flagSet (_m6502_sbc sbcDecExampleBinary 0x21).P M6502_ZF) ∧
    (flagSet (_m6502_sbc sbcDecExample 0x21).P M6502_CF ↔
        flagSet (_m6502_sbc sbcDecExampleBinary 0x21).P M6502_CF)) :=
  ⟨by decide, by decide,
    sbc_decimal_flags_eq_binary sbcDecExample sbcDecExampleBinary 0x21 (by decide) (by decide)
      (by decide) (by decide) (by decide) (by decide) (by decide) (by decide)⟩


/-! ## ARR -/

theorem and_64_ne_zero (x : Nat) : x &&& 0x40 ≠ 0 ↔ x / 64 % 2 = 1 := by
  have h := and_two_pow_ne_zero x 6
  rw [Nat.testBit_to_div_mod, decide_eq_true_eq] at h
  exact h

theorem and_32_ne_zero (x : Nat) : x &&& 0x20 ≠ 0 ↔ x / 32 % 2 = 1 := by
  have h := and_two_pow_ne_zero x 5
  rw [Nat.testBit_to_div_mod, decide_eq_true_eq] at h
  exact h

theorem arr_bin_flags_bits (P a : Nat) (c6 c5 : Prop) [Decidable c6] [Decidable c5]
    (hP : P < 256) (i : Nat) :
    let P0 := (P &&& not32 (M6502_NF ||| M6502_VF ||| M6502_ZF ||| M6502_CF)) % 256
    let P1 := (_M6502_NZ P0 a) % 256
    let P2 := if c6 then (P1 ||| (M6502_VF ||| M6502_CF)) % 256 else P1
    let P3 := if c5 then (P2 ^^^ M6502_VF) % 256 else P2
    P3.testBit i =
      flagBits P (decide (a / 128 % 2 = 1 ∧ a % 256 ≠ 0)) (decide (¬ (c6 ↔ c5)))
        (decide (a % 256 = 0)) (decide c6) i := by
  intro P0 P1 P2 P3
  have hbig : 8 ≤ i → P.testBit i = false := fun h => tb_lt256 hP h
  simp only [P3, P2, P1, P0, _M6502_NZ, tb_ite, tb_mod256, Nat.testBit_and, Nat.testBit_or,
    Nat.testBit_xor, tb_not32, tb_CF, tb_ZF, tb_VF, tb_NF, flagBits, and_255]
  by_cases h0 : i = 0
  · subst h0
    by_cases h6 : c6 <;> by_cases h5 : c5 <;> by_cases hz : a % 256 = 0 <;>
      simp [h6, h5, hz, Nat.testBit_to_div_mod]
  by_cases h1 : i = 1
  · subst h1
    by_cases h6 : c6 <;> by_cases h5 : c5 <;> by_cases hz : a % 256 = 0 <;>
      simp [h6, h5, hz, Nat.testBit_to_div_mod]
  by_cases h6i : i = 6
  · subst h6i
    by_cases h6 : c6 <;> by_cases h5 : c5 <;> by_cases hz : a % 256 = 0 <;>
      simp [h6, h5, hz, Nat.testBit_to_div_mod]
  by_cases h7 : i = 7
  · subst h7
    by_cases h6 : c6 <;> by_cases h5 : c5 <;> by_cases hz : a % 256 = 0 <;>
      simp [h6, h5, hz, Nat.testBit_to_div_mod]
  by_cases h8 : i < 8
  · have h32 : i < 32 := by omega
    by_cases h6 : c6 <;> by_cases h5 : c5 <;> by_cases hz : a % 256 = 0 <;>
      simp [h6, h5, hz, h0, h1, h6i, h7, h8, h32, Ne.symm h0, Ne.symm h1, Ne.symm h6i,
        Ne.symm h7]
  · have := hbig (by omega)
    by_cases h6 : c6 <;> by_cases h5 : c5 <;> by_cases hz : a % 256 = 0 <;>
      simp [h6, h5, hz, h0, h1, h6i, h7, h8, this]

theorem arr_dec_flags_bits (P a : Nat) (cv cc : Prop) [Decidable cv] [Decidable cc]
    (hP : P < 256) (i : Nat) :
    let P0 := (P &&& not32 (M6502_NF ||| M6502_VF ||| M6502_ZF ||| M6502_CF)) % 256
    let P1 := (_M6502_NZ P0 a) % 256
    let P2 := if cv then (P1 ||| M6502_VF) % 256 else P1
    let P3 := if cc then (P2 ||| M6502_CF) % 256 else P2
    P3.testBit i =
      flagBits P (decide (a / 128 % 2 = 1 ∧ a % 256 ≠ 0)) (decide cv)
        (decide (a % 256 = 0)) (decide cc) i := by
  intro P0 P1 P2 P3
  have hbig : 8 ≤ i → P.testBit i = false := fun h => tb_lt256 hP h
  simp only [P3, P2, P1, P0, _M6502_NZ, tb_ite, tb_mod256, Nat.testBit_and, Nat.testBit_or,
    tb_not32, tb_CF, tb_ZF, tb_VF, tb_NF, flagBits, and_255]
  by_cases h0 : i = 0
  · subst h0
    by_cases hc : cc <;> by_cases hv : cv <;> by_cases hz : a % 256 = 0 <;>
      simp [hc, hv, hz, Nat.testBit_to_div_mod]
  by_cases h1 : i = 1
  · subst h1
    by_cases hc : cc <;> by_cases hv : cv <;> by_cases hz : a % 256 = 0 <;>
      simp [hc, hv, hz, Nat.testBit_to_div_mod]
  by_cases h6i : i = 6
  · subst h6i
    by_cases hc : cc <;> by_cases hv : cv <;> by_cases hz : a % 256 = 0 <;>
      simp [hc, hv, hz, Nat.testBit_to_div_mod]
  by_cases h7 : i = 7
  · subst h7
    by_cases hc : cc <;> by_cases hv : cv <;> by_cases hz : a % 256 = 0 <;>
      simp [hc, hv, hz, Nat.testBit_to_div_mod]
  by_cases h8 : i < 8
  · have h32 : i < 32 := by omega
    by_cases hc : cc <;> by_cases hv : cv <;> by_cases hz : a % 256 = 0 <;>
      simp [hc, hv, hz, h0, h1, h6i, h7, h8, h32, Ne.symm h0, Ne.symm h1, Ne.symm h6i,
        Ne.symm h7]
  · have := hbig (by omega)
    by_cases hc : cc <;> by_cases hv : cv <;> by_cases hz : a % 256 = 0 <;>
      simp [hc, hv, hz, h0, h1, h6i, h7, h8, this]

theorem and_f0 (x : Nat) : x &&& 0xF0 = (x / 16 % 16) * 16 := by
  apply Nat.eq_of_testBit_eq
  intro i
  have h1 : (0xF0 : Nat) = 15 <<< 4 := by decide
  have h2 : (x / 16 % 16) * 16 = ((x >>> 4) % 2 ^ 4) <<< 4 := by
    rw [Nat.shiftLeft_eq, Nat.shiftRight_eq_div_pow]; rfl
  rw [h2, h1, Nat.testBit_and, Nat.testBit_shiftLeft, Nat.testBit_shiftLeft,
    Nat.testBit_mod_two_pow, Nat.testBit_shiftRight]
  have h3 : Nat.testBit 15 (i - 4) = decide (i - 4 < 4) := Nat.testBit_two_pow_sub_one 4 (i - 4)
  rw [h3]
  by_cases hi : i ≥ 4
  · have : 4 + (i - 4) = i := by omega
    rw [this]
    cases x.testBit i <;> simp [hi]
  · simp [hi]

theorem or_128 {x : Nat} (h : x < 128) : x ||| 0x80 = x + 128 := by
  have h1 : 2 ^ 7 * 1 + x = 2 ^ 7 * 1 ||| x := Nat.mul_add_lt_is_or (show x < 2 ^ 7 from h) 1
  have h2 : (2 ^ 7 * 1 : Nat) = 0x80 := rfl
  rw [h2] at h1
  rw [Nat.or_comm, ← h1]
  omega

theorem arrRotate_eq (A c : Nat) (hA : A < 256) (hc : c ≤ 1) :
    arrRotate A c = A / 2 + 128 * c := by
  unfold arrRotate
  have h1 : A >>> 1 = A / 2 := Nat.shiftRight_eq_div_pow A 1
  rw [h1]
  rcases Nat.le_one_iff_eq_zero_or_eq_one.mp hc with h | h <;> subst h
  · simp
  · rw [show (1 : Nat) <<< 7 = 0x80 from rfl, or_128 (by omega)]

theorem arr_rot_code (A P : Nat) (hA : A < 256) :
    (if decide (P &&& M6502_CF ≠ 0) = true then ((A >>> 1) % 256 ||| 0x80) % 256
      else (A >>> 1) % 256) = arrRotate A (carryIn P) := by
  rw [arrRotate_eq A _ hA (carryIn_le P)]
  have h1 : A >>> 1 = A / 2 := Nat.shiftRight_eq_div_pow A 1
  have h2 : A / 2 % 256 = A / 2 := by omega
  rw [h1, h2]
  unfold carryIn
  by_cases h : P &&& M6502_CF ≠ 0
  · rw [if_pos h, if_pos (decide_eq_true h), or_128 (by omega)]; omega
  · rw [if_neg h, if_neg (by simpa using h)]; omega

theorem arr_bin_A (cpu : m6502_state_t) (hA : cpu.A < 256) (hmode : ¬ decimalMode cpu) :
    (_m6502_arr cpu).A = arrRotate cpu.A (carryIn cpu.P) := by
  unfold decimalMode at hmode
  unfold _m6502_arr
  rw [if_neg hmode]
  exact arr_rot_code cpu.A cpu.P hA

theorem arr_bin_bits (cpu : m6502_state_t) (hA : cpu.A < 256) (hP : cpu.P < 256)
    (hmode : ¬ decimalMode cpu) (i : Nat) :
    ((_m6502_arr cpu).P).testBit i =
      flagBits cpu.P
        (decide (arrRotate cpu.A (carryIn cpu.P) / 128 % 2 = 1))
        (decide (arrRotate cpu.A (carryIn cpu.P) / 64 % 2 ≠
                  arrRotate cpu.A (carryIn cpu.P) / 32 % 2))
        (decide (arrRotate cpu.A (carryIn cpu.P) = 0))
        (decide (arrRotate cpu.A (carryIn cpu.P) / 64 % 2 = 1)) i := by
  have hr := arrRotate_eq cpu.A (carryIn cpu.P) hA (carryIn_le cpu.P)
  have hc := carryIn_le cpu.P
  unfold decimalMode at hmode
  unfold _m6502_arr
  rw [if_neg hmode]
  refine Eq.trans (arr_bin_flags_bits cpu.P _ _ _ hP i) ?_
  simp only [arr_rot_code cpu.A cpu.P hA, and_64_ne_zero, and_32_ne_zero]
  have h1 : arrRotate cpu.A (carryIn cpu.P) % 256 = arrRotate cpu.A (carryIn cpu.P) := by omega
  have hN : (arrRotate cpu.A (carryIn cpu.P) / 128 % 2 = 1 ∧
      arrRotate cpu.A (carryIn cpu.P) ≠ 0) ↔
      arrRotate cpu.A (carryIn cpu.P) / 128 % 2 = 1 := by omega
  have hV : ¬ (arrRotate cpu.A (carryIn cpu.P) / 64 % 2 = 1 ↔
      arrRotate cpu.A (carryIn cpu.P) / 32 % 2 = 1) ↔
      arrRotate cpu.A (carryIn cpu.P) / 64 % 2 ≠ arrRotate cpu.A (carryIn cpu.P) / 32 % 2 := by
    omega
  simp only [h1, hN, hV]

theorem xor_and_64 (a b : Nat) : (a ^^^ b) &&& 0x40 ≠ 0 ↔ a / 64 % 2 ≠ b / 64 % 2 := by
  rw [show (0x40 : Nat) = 2 ^ 6 from rfl, and_two_pow_ne_zero]
  simp only [Nat.testBit_xor]
  rw [@Nat.testBit_to_div_mod 6 a, @Nat.testBit_to_div_mod 6 b]
  rcases Nat.mod_two_eq_zero_or_one (a / 2 ^ 6) with ha | ha <;>
  rcases Nat.mod_two_eq_zero_or_one (b / 2 ^ 6) with hb | hb <;>
  simp [ha, hb] <;> simp_all

theorem low_or_high (l h : Nat) (hl : l < 16) : l ||| (h * 16) = 16 * h + l := by
  have h1 : 2 ^ 4 * h + l = 2 ^ 4 * h ||| l := Nat.mul_add_lt_is_or (show l < 2 ^ 4 from hl) h
  have h2 : (2 ^ 4 * h : Nat) = h * 16 := by omega
  rw [h2] at h1
  rw [Nat.or_comm, ← h1]
  omega

theorem arr_dec_lo (cpu : m6502_state_t) (hA : cpu.A < 256) (hmode : decimalMode cpu) :
    (_m6502_arr cpu).A % 16 =
      if cpu.A % 16 ≥ 5 then (arrRotate cpu.A (carryIn cpu.P) + 6) % 16
      else arrRotate cpu.A (carryIn cpu.P) % 16 := by
  have hr := arrRotate_eq cpu.A (carryIn cpu.P) hA (carryIn_le cpu.P)
  have hc := carryIn_le cpu.P
  unfold decimalMode at hmode
  unfold _m6502_arr
  rw [if_pos hmode]
  simp only [arr_rot_code cpu.A cpu.P hA, and_15, and_f0]
  have hlo : (arrRotate cpu.A (carryIn cpu.P) + 6) % 16 |||
      arrRotate cpu.A (carryIn cpu.P) / 16 % 16 * 16 =
      16 * (arrRotate cpu.A (carryIn cpu.P) / 16 % 16) +
        (arrRotate cpu.A (carryIn cpu.P) + 6) % 16 :=
    low_or_high _ _ (Nat.mod_lt _ (by decide))
  rw [hlo]
  generalize arrRotate cpu.A (carryIn cpu.P) = r at *
  split_ifs <;> omega

theorem arr_dec_hi (cpu : m6502_state_t) (hA : cpu.A < 256) (hmode : decimalMode cpu) :
    (_m6502_arr cpu).A / 16 =
      if cpu.A / 16 ≥ 5 then (arrRotate cpu.A (carryIn cpu.P) / 16 + 6) % 16
      else arrRotate cpu.A (carryIn cpu.P) / 16 := by
  have hr := arrRotate_eq cpu.A (carryIn cpu.P) hA (carryIn_le cpu.P)
  have hc := carryIn_le cpu.P
  unfold decimalMode at hmode
  unfold _m6502_arr
  rw [if_pos hmode]
  simp only [arr_rot_code cpu.A cpu.P hA, and_15, and_f0]
  have hlo : (arrRotate cpu.A (carryIn cpu.P) + 6) % 16 |||
      arrRotate cpu.A (carryIn cpu.P) / 16 % 16 * 16 =
      16 * (arrRotate cpu.A (carryIn cpu.P) / 16 % 16) +
        (arrRotate cpu.A (carryIn cpu.P) + 6) % 16 :=
    low_or_high _ _ (Nat.mod_lt _ (by decide))
  rw [hlo]
  generalize arrRotate cpu.A (carryIn cpu.P) = r at *
  split_ifs <;> omega

theorem arr_dec_bits (cpu : m6502_state_t) (hA : cpu.A < 256) (hP : cpu.P < 256)
    (hmode : decimalMode cpu) (i : Nat) :
    ((_m6502_arr cpu).P).testBit i =
      flagBits cpu.P
        (decide (arrRotate cpu.A (carryIn cpu.P) / 128 % 2 = 1))
        (decide (arrRotate cpu.A (carryIn cpu.P) / 64 % 2 ≠ cpu.A / 64 % 2))
        (decide (arrRotate cpu.A (carryIn cpu.P) = 0))
        (decide (cpu.A / 16 ≥ 5)) i := by
  have hr := arrRotate_eq cpu.A (carryIn cpu.P) hA (carryIn_le cpu.P)
  have hc := carryIn_le cpu.P
  unfold decimalMode at hmode
  unfold _m6502_arr
  rw [if_pos hmode]
  refine Eq.trans (arr_dec_flags_bits cpu.P _ _ _ hP i) ?_
  simp only [arr_rot_code cpu.A cpu.P hA, xor_and_64, and_f0]
  have h1 : arrRotate cpu.A (carryIn cpu.P) % 256 = arrRotate cpu.A (carryIn cpu.P) := by omega
  have hN : (arrRotate cpu.A (carryIn cpu.P) / 128 % 2 = 1 ∧
      arrRotate cpu.A (carryIn cpu.P) ≠ 0) ↔
      arrRotate cpu.A (carryIn cpu.P) / 128 % 2 = 1 := by omega
  have hC : cpu.A / 16 % 16 * 16 ≥ 0x50 ↔ cpu.A / 16 ≥ 5 := by omega
  simp only [h1, hN, hC]

theorem tb6 (x : Nat) : x.testBit 6 = decide (x / 64 % 2 = 1) := Nat.testBit_to_div_mod

theorem tb5 (x : Nat) : x.testBit 5 = decide (x / 32 % 2 = 1) := Nat.testBit_to_div_mod

/-- C12: binary-mode `_m6502_arr` leaves `A' = (A >> 1) | (c << 7)`, sets C iff bit 6
of `A'` is 1, V iff bit 6 of `A'` differs from bit 5 of `A'`, Z iff `A' = 0` and N iff
bit 7 of `A'` is 1. -/
theorem arr_binary_result (cpu : m6502_state_t) (hA : cpu.A < 256) (hP : cpu.P < 256)
    (hmode : ¬ decimalMode cpu) :
    (_m6502_arr cpu).A = arrRotate cpu.A (carryIn cpu.P) ∧
    (flagSet (_m6502_arr cpu).P M6502_CF ↔ (_m6502_arr cpu).A.testBit 6 = true) ∧
    (flagSet (_m6502_arr cpu).P M6502_VF ↔
      (_m6502_arr cpu).A.testBit 6 ≠ (_m6502_arr cpu).A.testBit 5) ∧
    (flagSet (_m6502_arr cpu).P M6502_ZF ↔ (_m6502_arr cpu).A = 0) ∧
    (flagSet (_m6502_arr cpu).P M6502_NF ↔ (_m6502_arr cpu).A.testBit 7 = true) := by
  have hAr := arr_bin_A cpu hA hmode
  refine ⟨hAr, ?_, ?_, ?_, ?_⟩
  · rw [flagSet_CF, arr_bin_bits cpu hA hP hmode, flagBits_zero, hAr, tb6]
  · rw [flagSet_VF, arr_bin_bits cpu hA hP hmode, flagBits_six, hAr, tb6, tb5,
      decide_eq_true_eq]
    simp only [ne_eq, decide_eq_decide]
    omega
  · rw [flagSet_ZF, arr_bin_bits cpu hA hP hmode, flagBits_one, decide_eq_true_eq, hAr]
  · rw [flagSet_NF, arr_bin_bits cpu hA hP hmode, flagBits_seven, hAr, tb7]

theorem arr_binary_result_witness :
    (bcdDisabledExample.A < 256 ∧ bcdDisabledExample.P < 256 ∧
      ¬ decimalMode bcdDisabledExample) ∧
    (_m6502_arr bcdDisabledExample).A = 0xCC ∧
    ((_m6502_arr bcdDisabledExample).A =
      arrRotate bcdDisabledExample.A (carryIn bcdDisabledExample.P) ∧
    (flagSet (_m6502_arr bcdDisabledExample).P M6502_CF ↔
      (_m6502_arr bcdDisabledExample).A.testBit 6 = true) ∧
    (flagSet (_m6502_arr bcdDisabledExample).P M6502_VF ↔
      (_m6502_arr bcdDisabledExample).A.testBit 6 ≠
        (_m6502_arr bcdDisabledExample).A.testBit 5) ∧
    (flagSet (_m6502_arr bcdDisabledExample).P M6502_ZF ↔
      (_m6502_arr bcdDisabledExample).A = 0) ∧
    (flagSet (_m6502_arr bcdDisabledExample).P M6502_NF ↔
      (_m6502_arr bcdDisabledExample).A.testBit 7 = true)) :=
  ⟨by decide, by decide, arr_binary_result bcdDisabledExample (by decide) (by decide) (by decide)⟩

/-- C13: decimal-mode `_m6502_arr` forms `r = (A >> 1) | (c << 7)` and corrects the
nibbles independently: the low nibble of `A'` is `(r + 6) mod 16` if the low nibble of
`A` is at least 5 and that of `r` otherwise, the high nibble of `A'` is
`((r >> 4) + 6) mod 16` if the high nibble of `A` is at least 5 and that of `r`
otherwise, and C is set iff the high nibble was corrected. -/
theorem arr_decimal_result (cpu : m6502_state_t) (hA : cpu.A < 256) (hP : cpu.P < 256)
    (hmode : decimalMode cpu) :
    ((_m6502_arr cpu).A &&& 0x0F =
      if cpu.A &&& 0x0F ≥ 5 then (arrRotate cpu.A (carryIn cpu.P) + 6) % 16
      else arrRotate cpu.A (carryIn cpu.P) &&& 0x0F) ∧
    ((_m6502_arr cpu).A >>> 4 =
      if cpu.A >>> 4 ≥ 5 then ((arrRotate cpu.A (carryIn cpu.P) >>> 4) + 6) % 16
      else arrRotate cpu.A (carryIn cpu.P) >>> 4) ∧
    (flagSet (_m6502_arr cpu).P M6502_CF ↔ cpu.A >>> 4 ≥ 5) := by
  refine ⟨?_, ?_, ?_⟩
  · simp only [and_15]
    exact arr_dec_lo cpu hA hmode
  · simp only [shr4]
    exact arr_dec_hi cpu hA hmode
  · rw [flagSet_CF, arr_dec_bits cpu hA hP hmode, flagBits_zero, decide_eq_true_eq, shr4]

theorem arr_decimal_result_witness :
    (arrDecExample.A < 256 ∧ arrDecExample.P < 256 ∧ decimalMode arrDecExample) ∧
    (arrRotate arrDecExample.A (carryIn arrDecExample.P) = 0xAD ∧
      (_m6502_arr arrDecExample).A = 0x03) ∧
    (((_m6502_arr arrDecExample).A &&& 0x0F =
      if arrDecExample.A &&& 0x0F ≥ 5
      then (arrRotate arrDecExample.A (carryIn arrDecExample.P) + 6) % 16
      else arrRotate arrDecExample.A (carryIn arrDecExample.P) &&& 0x0F) ∧
    ((_m6502_arr arrDecExample).A >>> 4 =
      if arrDecExample.A >>> 4 ≥ 5
      then ((arrRotate arrDecExample.A (carryIn arrDecExample.P) >>> 4) + 6) % 16
      else arrRotate arrDecExample.A (carryIn arrDecExample.P) >>> 4) ∧
    (flagSet (_m6502_arr arrDecExample).P M6502_CF ↔ arrDecExample.A >>> 4 ≥ 5)) :=
  ⟨by decide, by decide, arr_decimal_result arrDecExample (by decide) (by decide) (by decide)⟩

/-! ## Mode selection and frame of the ALU primitives -/

theorem arr_eq_update (cpu : m6502_state_t) :
    _m6502_arr cpu = { cpu with P := (_m6502_arr cpu).P, A := (_m6502_arr cpu).A } := by
  unfold _m6502_arr
  split_ifs <;> rfl

theorem flagBits_three (P : Nat) (n v z c : Bool) : flagBits P n v z c 3 = P.testBit 3 := rfl

theorem frame_of_flagBits {P P' : Nat} {n v z c : Bool}
    (h : ∀ i, P'.testBit i = flagBits P n v z c i) : P' &&& 0x3C = P &&& 0x3C := by
  apply Nat.eq_of_testBit_eq
  intro i
  have hm : (0x3C : Nat) = M6502_IF ||| M6502_DF ||| M6502_BF ||| M6502_XF := by decide
  rw [hm]
  simp only [Nat.testBit_and, Nat.testBit_or, tb_IF, tb_DF, tb_BF, tb_XF, h i, flagBits]
  by_cases h0 : i = 0
  · subst h0; simp
  by_cases h1 : i = 1
  · subst h1; simp
  by_cases h6 : i = 6
  · subst h6; simp
  by_cases h7 : i = 7
  · subst h7; simp
  simp [h0, h1, h6, h7]

theorem sameAccAndFlags_of_bits {r1 r2 : m6502_state_t} {P1 : Nat} (P2 : Nat) {n v z c : Bool}
    (hA : r1.A = r2.A) (h1 : ∀ i, r1.P.testBit i = flagBits P1 n v z c i)
    (h2 : ∀ i, r2.P.testBit i = flagBits P2 n v z c i) : sameAccAndFlags r1 r2 := by
  refine ⟨hA, ?_, ?_, ?_, ?_⟩
  · rw [flagSet_NF, flagSet_NF, h1, h2, flagBits_seven, flagBits_seven]
  · rw [flagSet_VF, flagSet_VF, h1, h2, flagBits_six, flagBits_six]
  · rw [flagSet_ZF, flagSet_ZF, h1, h2, flagBits_one, flagBits_one]
  · rw [flagSet_CF, flagSet_CF, h1, h2, flagBits_zero, flagBits_zero]

theorem flagD_of_bits {P P' : Nat} {n v z c : Bool}
    (h : ∀ i, P'.testBit i = flagBits P n v z c i) :
    flagSet P' M6502_DF ↔ flagSet P M6502_DF := by
  rw [flagSet_DF, flagSet_DF, h, flagBits_three]

theorem carryIn_clearD (cpu : m6502_state_t) : carryIn (clearD cpu).P = carryIn cpu.P := by
  have h : flagSet ((cpu.P &&& not32 M6502_DF) % 256) M6502_CF ↔ flagSet cpu.P M6502_CF := by
    rw [flagSet_CF, flagSet_CF, tb_mod256, Nat.testBit_and, tb_not32, tb_DF]
    simp
  unfold flagSet at h
  unfold carryIn clearD
  simp only [h]

theorem clearD_P_lt (cpu : m6502_state_t) : (clearD cpu).P < 256 :=
  Nat.mod_lt _ (by decide)

theorem not_decimal_of_disabled {cpu : m6502_state_t} (hb : cpu.bcd_enabled = false) :
    ¬ decimalMode cpu := by
  unfold decimalMode
  rw [hb]
  simp

/-- C11: with BCD disabled the D flag does not select decimal arithmetic: each of
`_m6502_adc`, `_m6502_sbc` and `_m6502_arr` gives the same accumulator and the same
N, V, Z and C flags as on the state with D cleared, and leaves D as it was. -/
theorem bcd_disabled_ignores_decimal_flag (cpu : m6502_state_t) (val : Nat)
    (hA : cpu.A < 256) (hP : cpu.P < 256) (hv : val < 256)
    (hb : cpu.bcd_enabled = false) :
    (sameAccAndFlags (_m6502_adc cpu val) (_m6502_adc (clearD cpu) val) ∧
      (flagSet (_m6502_adc cpu val).P M6502_DF ↔ flagSet cpu.P M6502_DF)) ∧
    (sameAccAndFlags (_m6502_sbc cpu val) (_m6502_sbc (clearD cpu) val) ∧
      (flagSet (_m6502_sbc cpu val).P M6502_DF ↔ flagSet cpu.P M6502_DF)) ∧
    (sameAccAndFlags (_m6502_arr cpu) (_m6502_arr (clearD cpu)) ∧
      (flagSet (_m6502_arr cpu).P M6502_DF ↔ flagSet cpu.P M6502_DF)) := by
  have hm1 : ¬ decimalMode cpu := not_decimal_of_disabled hb
  have hm2 : ¬ decimalMode (clearD cpu) := not_decimal_of_disabled hb
  have hP2 := clearD_P_lt cpu
  have hc := carryIn_clearD cpu
  have hA2 : (clearD cpu).A = cpu.A := rfl
  have hA2lt : (clearD cpu).A < 256 := hA
  refine ⟨⟨?_, ?_⟩, ⟨?_, ?_⟩, ⟨?_, ?_⟩⟩
  · refine sameAccAndFlags_of_bits (clearD cpu).P ?_ (adc_bin_bits cpu val hA hP hv hm1) ?_
    · rw [adc_bin_A cpu val hm1, adc_bin_A _ val hm2, hc, hA2]
    · intro i
      rw [adc_bin_bits _ val hA2lt hP2 hv hm2 i, hc, hA2]
  · exact flagD_of_bits (adc_bin_bits cpu val hA hP hv hm1)
  · refine sameAccAndFlags_of_bits (clearD cpu).P ?_ (sbc_bin_bits cpu val hA hP hv hm1) ?_
    · rw [sbc_bin_A cpu val hm1, sbc_bin_A _ val hm2, borrowIn_eq, borrowIn_eq, hc, hA2]
    · intro i
      rw [sbc_bin_bits _ val hA2lt hP2 hv hm2 i, borrowIn_eq, borrowIn_eq, hc, hA2]
  · exact flagD_of_bits (sbc_bin_bits cpu val hA hP hv hm1)
  · refine sameAccAndFlags_of_bits (clearD cpu).P ?_ (arr_bin_bits cpu hA hP hm1) ?_
    · rw [arr_bin_A cpu hA hm1, arr_bin_A _ hA2lt hm2, hc, hA2]
    · intro i
      rw [arr_bin_bits _ hA2lt hP2 hm2 i, hc, hA2]
  · exact flagD_of_bits (arr_bin_bits cpu hA hP hm1)

theorem bcd_disabled_ignores_decimal_flag_witness :
    (bcdDisabledExample.A < 256 ∧ bcdDisabledExample.P < 256 ∧ (0x01 : Nat) < 256 ∧
      bcdDisabledExample.bcd_enabled = false) ∧
    (flagSet bcdDisabledExample.P M6502_DF ∧ ¬ flagSet (clearD bcdDisabledExample).P M6502_DF ∧
      (_m6502_adc bcdDisabledExample 0x01).A = 0x9B) ∧
    ((sameAccAndFlags (_m6502_adc bcdDisabledExample 0x01)
        (_m6502_adc (clearD bcdDisabledExample) 0x01) ∧
      (flagSet (_m6502_adc bcdDisabledExample 0x01).P M6502_DF ↔
        flagSet bcdDisabledExample.P M6502_DF)) ∧
    (sameAccAndFlags (_m6502_sbc bcdDisabledExample 0x01)
        (_m6502_sbc (clearD bcdDisabledExample) 0x01) ∧
      (flagSet (_m6502_sbc bcdDisabledExample 0x01).P M6502_DF ↔
        flagSet bcdDisabledExample.P M6502_DF)) ∧
    (sameAccAndFlags (_m6502_arr bcdDisabledExample) (_m6502_arr (clearD bcdDisabledExample)) ∧
      (flagSet (_m6502_arr bcdDisabledExample).P M6502_DF ↔
        flagSet bcdDisabledExample.P M6502_DF))) :=
  ⟨by decide, by decide,
    bcd_disabled_ignores_decimal_flag bcdDisabledExample 0x01 (by decide) (by decide)
      (by decide) (by decide)⟩

theorem aluFrame_of_bits {cpu r : m6502_state_t} {n v z c : Bool}
    (hr : r = { cpu with P := r.P, A := r.A })
    (h : ∀ i, r.P.testBit i = flagBits cpu.P n v z c i) : aluFrame cpu r := by
  have hP := frame_of_flagBits h
  refine ⟨?_, ?_, ?_, ?_, ?_, ?_, ?_, hP⟩ <;> rw [hr]

/-- C14: in binary and in decimal mode `_m6502_adc`, `_m6502_sbc` and `_m6502_arr`
leave X, Y, S, PC, PINS, `pi` and `bcd_enabled` unchanged and leave the I, D, B and
unused bits of P (mask `0x3C`) unchanged. -/
theorem alu_frame (cpu : m6502_state_t) (val : Nat)
    (hA : cpu.A < 256) (hP : cpu.P < 256) (hv : val < 256) :
    aluFrame cpu (_m6502_adc cpu val) ∧ aluFrame cpu (_m6502_sbc cpu val) ∧
      aluFrame cpu (_m6502_arr cpu) := by
  by_cases hmode : decimalMode cpu
  · exact ⟨aluFrame_of_bits (adc_eq_update cpu val) (adc_dec_bits cpu val hP hmode),
      aluFrame_of_bits (sbc_eq_update cpu val) (sbc_dec_bits cpu val hA hP hv hmode),
      aluFrame_of_bits (arr_eq_update cpu) (arr_dec_bits cpu hA hP hmode)⟩
  · exact ⟨aluFrame_of_bits (adc_eq_update cpu val) (adc_bin_bits cpu val hA hP hv hmode),
      aluFrame_of_bits (sbc_eq_update cpu val) (sbc_bin_bits cpu val hA hP hv hmode),
      aluFrame_of_bits (arr_eq_update cpu) (arr_bin_bits cpu hA hP hmode)⟩

theorem alu_frame_witness :
    (arrDecExample.A < 256 ∧ arrDecExample.P < 256 ∧ (0x01 : Nat) < 256) ∧
    (aluFrame arrDecExample (_m6502_adc arrDecExample 0x01) ∧
      aluFrame arrDecExample (_m6502_sbc arrDecExample 0x01) ∧
      aluFrame arrDecExample (_m6502_arr arrDecExample)) :=
  ⟨by decide, alu_frame arrDecExample 0x01 (by decide) (by decide) (by decide)⟩

/-! ## Pin word fields -/

theorem and_mask_shift (x k n : Nat) :
    x &&& ((2 ^ n - 1) <<< k) = ((x >>> k) % 2 ^ n) <<< k := by
  apply Nat.eq_of_testBit_eq
  intro i
  rw [Nat.testBit_and, Nat.testBit_shiftLeft, Nat.testBit_shiftLeft, Nat.testBit_mod_two_pow,
    Nat.testBit_shiftRight, Nat.testBit_two_pow_sub_one]
  by_cases hi : i ≥ k
  · have : k + (i - k) = i := by omega
    rw [this]
    cases x.testBit i <;> simp [hi]
  · simp [hi]

theorem get_data_eq (x : Nat) : M6502_GET_DATA x = x / 65536 % 256 := by
  unfold M6502_GET_DATA
  have h := and_mask_shift x 16 8
  have hm : ((2 ^ 8 - 1) <<< 16 : Nat) = 0xFF0000 := by decide
  rw [hm] at h
  rw [h, Nat.shiftLeft_eq, Nat.shiftRight_eq_div_pow, Nat.shiftRight_eq_div_pow]
  omega

theorem get_data_lt (x : Nat) : M6502_GET_DATA x < 256 := Nat.mod_lt _ (by decide)

theorem get_data_mod64 (x : Nat) : M6502_GET_DATA (x % 2 ^ 64) = M6502_GET_DATA x := by
  rw [get_data_eq, get_data_eq]
  omega

theorem tb_dataMask (j : Nat) :
    (0xFF0000 : Nat).testBit j = (decide (j ≥ 16) && decide (j - 16 < 8)) := by
  have hm : (0xFF0000 : Nat) = (2 ^ 8 - 1) <<< 16 := by decide
  rw [hm, Nat.testBit_shiftLeft, Nat.testBit_two_pow_sub_one]

theorem tb_not64 (x i : Nat) : (not64 x).testBit i = (decide (i < 64) != x.testBit i) := by
  have h := Nat.testBit_two_pow_sub_one 64 i
  unfold not64
  rw [Nat.testBit_xor]
  exact congrArg (fun b => b != x.testBit i) h

theorem tb_not8 (x i : Nat) : (not8 x).testBit i = (decide (i < 8) != x.testBit i) := by
  have h := Nat.testBit_two_pow_sub_one 8 i
  unfold not8
  rw [Nat.testBit_xor]
  exact congrArg (fun b => b != x.testBit i) h

theorem get_set_data (p d : Nat) : M6502_GET_DATA (M6502_SET_DATA p d) = d % 256 := by
  unfold M6502_GET_DATA M6502_SET_DATA
  apply Nat.eq_of_testBit_eq
  intro i
  simp only [tb_mod256, Nat.testBit_shiftRight, Nat.testBit_and, Nat.testBit_or, tb_not64,
    tb_dataMask, Nat.testBit_shiftLeft]
  by_cases hi : i < 8
  · have h1 : 16 + i ≥ 16 := by omega
    have h2 : 16 + i - 16 = i := by omega
    have h3 : 16 + i < 64 := by omega
    simp [hi, h1, h2, h3]
  · simp [hi]

theorem hi_lo_or (hi lo : Nat) (hlo : lo < 256) (hhi : hi < 256) :
    ((hi <<< 8) ||| lo) % 65536 = lo + 256 * hi := by
  have h1 : 2 ^ 8 * hi + lo = 2 ^ 8 * hi ||| lo := Nat.mul_add_lt_is_or (show lo < 2 ^ 8 from hlo) hi
  have h2 : hi <<< 8 = 2 ^ 8 * hi := by rw [Nat.shiftLeft_eq, Nat.mul_comm]
  rw [h2, ← h1]
  omega

theorem reset_pins_lo : M6502_MAKE_PINS M6502_RW 0xFFFC 0x00 = M6502_RW ||| 0xFFFC := by decide

theorem reset_pins_hi : M6502_MAKE_PINS M6502_RW 0xFFFD 0x00 = M6502_RW ||| 0xFFFD := by decide

/-! ## Reset and initialisation -/

/-- C15: `m6502_reset` invokes the tick callback exactly twice, first with the pin
word `RW|0xFFFC` and then with `RW|0xFFFD`, whatever the callback answers, and loads
`PC = l + 256*h` from the data fields `l` and `h` of the two responses. -/
theorem reset_loads_vector {W : Type} (c : m6502_t W) (h : Host W)
    (tick : Nat → Nat → W → Nat × W) (ht : c.tick_cb = some tick) :
    ∃ c' h', m6502_reset c h = some (c', h') ∧
      h'.calls = h.calls ++ [Call.tick (M6502_RW ||| 0xFFFC) c.user_data,
                             Call.tick (M6502_RW ||| 0xFFFD) c.user_data] ∧
      h'.world = (tick (M6502_RW ||| 0xFFFD) c.user_data
                    (tick (M6502_RW ||| 0xFFFC) c.user_data h.world).2).2 ∧
      c'.state.PC =
        M6502_GET_DATA (tick (M6502_RW ||| 0xFFFC) c.user_data h.world).1 +
          256 * M6502_GET_DATA (tick (M6502_RW ||| 0xFFFD) c.user_data
                  (tick (M6502_RW ||| 0xFFFC) c.user_data h.world).2).1 := by
  unfold m6502_reset
  rw [ht]
  refine ⟨_, _, rfl, ?_, ?_, ?_⟩
  · simp only [callTick, reset_pins_lo, reset_pins_hi, List.append_assoc, List.singleton_append]
  · simp only [callTick, reset_pins_lo, reset_pins_hi]
  · simp only [callTick, reset_pins_lo, reset_pins_hi, get_data_mod64]
    exact hi_lo_or _ _ (get_data_lt _) (get_data_lt _)

theorem reset_loads_vector_witness :
    exampleCpu.tick_cb = some memTick ∧
    (m6502_reset exampleCpu exampleHost).map (fun r => r.1.state.PC) = some 0xC0DE ∧
    (∃ c' h', m6502_reset exampleCpu exampleHost = some (c', h') ∧
      h'.calls = exampleHost.calls ++ [Call.tick (M6502_RW ||| 0xFFFC) exampleCpu.user_data,
                             Call.tick (M6502_RW ||| 0xFFFD) exampleCpu.user_data] ∧
      h'.world = (memTick (M6502_RW ||| 0xFFFD) exampleCpu.user_data
                    (memTick (M6502_RW ||| 0xFFFC) exampleCpu.user_data exampleHost.world).2).2 ∧
      c'.state.PC =
        M6502_GET_DATA (memTick (M6502_RW ||| 0xFFFC) exampleCpu.user_data exampleHost.world).1 +
          256 * M6502_GET_DATA (memTick (M6502_RW ||| 0xFFFD) exampleCpu.user_data
                  (memTick (M6502_RW ||| 0xFFFC) exampleCpu.user_data
                    exampleHost.world).2).1) :=
  ⟨rfl, by decide, reset_loads_vector exampleCpu exampleHost memTick rfl⟩

/-- C16: after `m6502_reset` the status register is exactly `0x24`, `S = 0xFD`, the
stored pin word is exactly `M6502_RW`, and the port direction register, output
latch, input latch and combined port value are 0, whatever the tick callback
answers. -/
theorem reset_registers {W : Type} (c : m6502_t W) (h : Host W)
    (tick : Nat → Nat → W → Nat × W) (ht : c.tick_cb = some tick) :
    ∃ c' h', m6502_reset c h = some (c', h') ∧
      c'.state.P = 0x24 ∧ c'.state.S = 0xFD ∧ c'.state.PINS = M6502_RW ∧
      c'.io_ddr = 0 ∧ c'.io_out = 0 ∧ c'.io_inp = 0 ∧ c'.io_pins = 0 := by
  unfold m6502_reset
  rw [ht]
  exact ⟨_, _, rfl, rfl, rfl, rfl, rfl, rfl, rfl, rfl⟩

theorem reset_registers_witness :
    exampleCpu.tick_cb = some memTick ∧
    (∃ c' h', m6502_reset exampleCpu exampleHost = some (c', h') ∧
      c'.state.P = 0x24 ∧ c'.state.S = 0xFD ∧ c'.state.PINS = M6502_RW ∧
      c'.io_ddr = 0 ∧ c'.io_out = 0 ∧ c'.io_inp = 0 ∧ c'.io_pins = 0) :=
  ⟨rfl, reset_registers exampleCpu exampleHost memTick rfl⟩

/-- C17, refuted as stated: the drive register of `exampleCpu` is `0xE5` before the
reset and still `0xE5`, not 0, after it. -/
theorem reset_keeps_drive_counterexample :
    exampleCpu.io_drive = 0xE5 ∧
    (m6502_reset exampleCpu exampleHost).map (fun r => r.1.io_drive) = some 0xE5 ∧
    (m6502_reset exampleCpu exampleHost).map (fun r => r.1.io_drive) ≠ some 0 := by
  decide

/-- C17, amended: after `m6502_reset` the port registers `io_ddr`, `io_out`, `io_inp`
and `io_pins` are 0, and the drive register `io_drive` keeps the value it had before
the reset. -/
theorem reset_port_state {W : Type} (c : m6502_t W) (h : Host W)
    (tick : Nat → Nat → W → Nat × W) (ht : c.tick_cb = some tick) :
    ∃ c' h', m6502_reset c h = some (c', h') ∧
      c'.io_ddr = 0 ∧ c'.io_out = 0 ∧ c'.io_inp = 0 ∧ c'.io_pins = 0 ∧
      c'.io_drive = c.io_drive := by
  unfold m6502_reset
  rw [ht]
  exact ⟨_, _, rfl, rfl, rfl, rfl, rfl, rfl⟩

theorem reset_port_state_witness :
    exampleCpu.tick_cb = some memTick ∧
    (∃ c' h', m6502_reset exampleCpu exampleHost = some (c', h') ∧
      c'.io_ddr = 0 ∧ c'.io_out = 0 ∧ c'.io_inp = 0 ∧ c'.io_pins = 0 ∧
      c'.io_drive = exampleCpu.io_drive) :=
  ⟨rfl, reset_port_state exampleCpu exampleHost memTick rfl⟩

/-- C18: on a descriptor with a tick callback `m6502_init` succeeds, whatever the
CPU object held before, with `P = 0x24`, `S = 0xFD`, `PINS = M6502_RW`, with A, X, Y,
PC, `pi`, the trap callback and its user data and all port registers zero, with
`trap_id = -1`, `bcd_enabled = !bcd_disabled`, and with the tick, input and output
callbacks, the user data and the pull-up and floating masks of the descriptor. -/
theorem init_state {W : Type} (c : m6502_t W) (desc : m6502_desc_t W)
    (tick : Nat → Nat → W → Nat × W) (ht : desc.tick_cb = some tick) :
    ∃ c', m6502_init c desc = some c' ∧
      c'.state.P = 0x24 ∧ c'.state.S = 0xFD ∧ c'.state.PINS = M6502_RW ∧
      c'.state.A = 0 ∧ c'.state.X = 0 ∧ c'.state.Y = 0 ∧ c'.state.PC = 0 ∧ c'.state.pi = 0 ∧
      c'.trap_cb = none ∧ c'.trap_user_data = 0 ∧
      c'.io_ddr = 0 ∧ c'.io_out = 0 ∧ c'.io_inp = 0 ∧ c'.io_pins = 0 ∧ c'.io_drive = 0 ∧
      c'.trap_id = -1 ∧ c'.state.bcd_enabled = !desc.bcd_disabled ∧
      c'.tick_cb = desc.tick_cb ∧ c'.in_cb = desc.in_cb ∧ c'.out_cb = desc.out_cb ∧
      c'.user_data = desc.user_data ∧ c'.io_pullup = desc.m6510_io_pullup ∧
      c'.io_floating = desc.m6510_io_floating := by
  unfold m6502_init
  rw [ht]
  exact ⟨_, rfl, rfl, rfl, rfl, rfl, rfl, rfl, rfl, rfl, rfl, rfl, rfl, rfl, rfl, rfl, rfl, rfl,
    rfl, rfl, rfl, rfl, rfl, rfl, rfl⟩

theorem init_state_witness :
    exampleDesc.tick_cb = some memTick ∧
    (∃ c', m6502_init exampleCpu exampleDesc = some c' ∧
      c'.state.P = 0x24 ∧ c'.state.S = 0xFD ∧ c'.state.PINS = M6502_RW ∧
      c'.state.A = 0 ∧ c'.state.X = 0 ∧ c'.state.Y = 0 ∧ c'.state.PC = 0 ∧ c'.state.pi = 0 ∧
      c'.trap_cb = none ∧ c'.trap_user_data = 0 ∧
      c'.io_ddr = 0 ∧ c'.io_out = 0 ∧ c'.io_inp = 0 ∧ c'.io_pins = 0 ∧ c'.io_drive = 0 ∧
      c'.trap_id = -1 ∧ c'.state.bcd_enabled = !exampleDesc.bcd_disabled ∧
      c'.tick_cb = exampleDesc.tick_cb ∧ c'.in_cb = exampleDesc.in_cb ∧
      c'.out_cb = exampleDesc.out_cb ∧
      c'.user_data = exampleDesc.user_data ∧ c'.io_pullup = exampleDesc.m6510_io_pullup ∧
      c'.io_floating = exampleDesc.m6510_io_floating) :=
  ⟨rfl, init_state exampleCpu exampleDesc memTick rfl⟩

/-! ## Register accessors -/

/-- C19, refuted as stated: after `m6502_set_p(cpu, 0x00)` the status register read
by `m6502_p` is `0x00`, with the unused bit clear. -/
theorem set_p_unused_bit_counterexample :
    (0x00 : Nat) < 256 ∧ m6502_p (m6502_set_p exampleCpu 0x00) = 0x00 ∧
    ¬ flagSet (m6502_p (m6502_set_p exampleCpu 0x00)) M6502_XF := by
  decide

/-- C19, amended: `m6502_set_p` stores the value as it is, so after
`m6502_set_p(cpu, v)` the status register read by `m6502_p` is `v` and its unused bit
is 1 exactly when bit 5 of `v` is 1. -/
theorem set_p_stores_value {W : Type} (cpu : m6502_t W) (v : Nat) :
    m6502_p (m6502_set_p cpu v) = v ∧
    (flagSet (m6502_p (m6502_set_p cpu v)) M6502_XF ↔ flagSet v M6502_XF) :=
  ⟨rfl, Iff.rfl⟩

/-! ## The 6510 port -/

theorem port_read_value (i fl dr ddr out : Nat) (hddr : ddr < 256) :
    (((i ||| (fl &&& dr)) &&& not32 ddr) ||| (out &&& ddr)) % 256 =
      (((i % 256) ||| (fl &&& dr)) &&& not8 ddr) ||| (out &&& ddr) := by
  apply Nat.eq_of_testBit_eq
  intro j
  simp only [tb_mod256, Nat.testBit_and, Nat.testBit_or, tb_not32, tb_not8]
  by_cases hj : j < 8
  · have h32 : j < 32 := by omega
    simp [hj, h32]
  · have hd : ddr.testBit j = false := tb_lt256 hddr (Nat.le_of_not_lt hj)
    simp [hj, hd]

/-- C20: with both port callbacks configured, a read access to address 1 (RW set,
A0 set) invokes the input callback exactly once and the output callback never,
latches the value `i` read into `io_inp`, and returns a pin word whose data field is
`((i | (io_floating & io_drive)) & ~io_ddr) | (io_out & io_ddr)`. -/
theorem iorq_read_port {W : Type} (c : m6502_t W) (pins : Nat) (h : Host W)
    (in_cb : Nat → W → Nat × W) (out_cb : Nat → Nat → W → W)
    (hin : c.in_cb = some in_cb) (hout : c.out_cb = some out_cb) (hwf : portWf c)
    (hA0 : pins &&& M6502_A0 ≠ 0) (hRW : pins &&& M6502_RW ≠ 0) :
    ∃ pins' c' h', m6510_iorq c pins h = some (pins', c', h') ∧
      h'.calls = h.calls ++ [Call.input c.user_data] ∧
      h'.world = (in_cb c.user_data h.world).2 ∧
      c'.io_inp = (in_cb c.user_data h.world).1 % 256 ∧
      M6502_GET_DATA pins' =
        ((((in_cb c.user_data h.world).1 % 256) ||| (c.io_floating &&& c.io_drive)) &&&
          not8 c.io_ddr) ||| (c.io_out &&& c.io_ddr) := by
  unfold m6510_iorq
  rw [hin, hout]
  simp only [if_neg hA0, if_pos hRW]
  refine ⟨_, _, _, rfl, rfl, rfl, rfl, ?_⟩
  rw [get_set_data, Nat.mod_mod]
  simp only [callIn]
  rw [port_read_value _ _ _ _ _ hwf.1, Nat.mod_mod]

theorem iorq_read_port_witness :
    (exampleCpu.in_cb = some memIn ∧ exampleCpu.out_cb = some memOut ∧ portWf exampleCpu ∧
      (M6502_RW ||| 0x0001) &&& M6502_A0 ≠ 0 ∧ (M6502_RW ||| 0x0001) &&& M6502_RW ≠ 0) ∧
    (m6510_iorq exampleCpu (M6502_RW ||| 0x0001) exampleHost).map
      (fun r => (M6502_GET_DATA r.1, r.2.1.io_inp)) = some (0xE5, 0x81) ∧
    (∃ pins' c' h', m6510_iorq exampleCpu (M6502_RW ||| 0x0001) exampleHost =
        some (pins', c', h') ∧
      h'.calls = exampleHost.calls ++ [Call.input exampleCpu.user_data] ∧
      h'.world = (memIn exampleCpu.user_data exampleHost.world).2 ∧
      c'.io_inp = (memIn exampleCpu.user_data exampleHost.world).1 % 256 ∧
      M6502_GET_DATA pins' =
        ((((memIn exampleCpu.user_data exampleHost.world).1 % 256) |||
            (exampleCpu.io_floating &&& exampleCpu.io_drive)) &&&
          not8 exampleCpu.io_ddr) ||| (exampleCpu.io_out &&& exampleCpu.io_ddr)) :=
  ⟨⟨rfl, rfl, by decide, by decide, by decide⟩, by decide,
    iorq_read_port exampleCpu (M6502_RW ||| 0x0001) exampleHost memIn memOut rfl rfl
      (by decide) (by decide) (by decide)⟩


/-! ## Port accesses in closed form -/

theorem mix8 (a b m : Nat) (hm : m < 256) :
    ((a &&& m) ||| (b &&& not32 m)) % 256 = (a &&& m) ||| (b &&& not8 m) := by
  apply Nat.eq_of_testBit_eq
  intro j
  simp only [tb_mod256, Nat.testBit_and, Nat.testBit_or, tb_not32, tb_not8]
  by_cases hj : j < 8
  · have h32 : j < 32 := by omega
    simp [hj, h32]
  · have hd : m.testBit j = false := tb_lt256 hm (Nat.le_of_not_lt hj)
    simp [hj, hd]

theorem iorq_ddr_read_eq {W : Type} (c : m6502_t W) (pins : Nat) (h : Host W)
    (in_cb : Nat → W → Nat × W) (out_cb : Nat → Nat → W → W)
    (hin : c.in_cb = some in_cb) (hout : c.out_cb = some out_cb)
    (hA0 : pins &&& M6502_A0 = 0) (hRW : pins &&& M6502_RW ≠ 0) :
    m6510_iorq c pins h = some (M6502_SET_DATA pins c.io_ddr, c, h) := by
  unfold m6510_iorq
  rw [hin, hout]
  simp only [if_pos hA0, if_pos hRW]

theorem iorq_ddr_write_eq {W : Type} (c : m6502_t W) (pins : Nat) (h : Host W)
    (in_cb : Nat → W → Nat × W) (out_cb : Nat → Nat → W → W)
    (hin : c.in_cb = some in_cb) (hout : c.out_cb = some out_cb)
    (hA0 : pins &&& M6502_A0 = 0) (hRW : pins &&& M6502_RW = 0) :
    m6510_iorq c pins h =
      some (pins,
        { c with
          io_ddr := M6502_GET_DATA pins
          io_drive := (c.io_out &&& M6502_GET_DATA pins) |||
            (c.io_drive &&& not8 (M6502_GET_DATA pins))
          io_pins := (c.io_out &&& M6502_GET_DATA pins) |||
            (c.io_inp &&& not8 (M6502_GET_DATA pins)) },
        callOut out_cb ((c.io_out &&& M6502_GET_DATA pins) |||
            (c.io_pullup &&& not8 (M6502_GET_DATA pins))) c.user_data h) := by
  unfold m6510_iorq
  rw [hin, hout]
  have hnRW : ¬ pins &&& M6502_RW ≠ 0 := by simp [hRW]
  simp only [if_pos hA0, if_neg hnRW, mix8 _ _ _ (get_data_lt pins)]

theorem iorq_port_read_eq {W : Type} (c : m6502_t W) (pins : Nat) (h : Host W)
    (in_cb : Nat → W → Nat × W) (out_cb : Nat → Nat → W → W)
    (hin : c.in_cb = some in_cb) (hout : c.out_cb = some out_cb) (hddr : c.io_ddr < 256)
    (hA0 : pins &&& M6502_A0 ≠ 0) (hRW : pins &&& M6502_RW ≠ 0) :
    m6510_iorq c pins h =
      some (M6502_SET_DATA pins
          ((((callIn in_cb c.user_data h).1 ||| (c.io_floating &&& c.io_drive)) &&&
            not8 c.io_ddr) ||| (c.io_out &&& c.io_ddr)),
        { c with
          io_inp := (callIn in_cb c.user_data h).1
          io_pins := (c.io_out &&& c.io_ddr) |||
            ((callIn in_cb c.user_data h).1 &&& not8 c.io_ddr) },
        (callIn in_cb c.user_data h).2) := by
  unfold m6510_iorq
  rw [hin, hout]
  have hi : (callIn in_cb c.user_data h).1 % 256 = (callIn in_cb c.user_data h).1 := by
    simp only [callIn, Nat.mod_mod]
  simp only [if_neg hA0, if_pos hRW, mix8 _ _ _ hddr, port_read_value _ _ _ _ _ hddr, hi]

theorem iorq_port_write_eq {W : Type} (c : m6502_t W) (pins : Nat) (h : Host W)
    (in_cb : Nat → W → Nat × W) (out_cb : Nat → Nat → W → W)
    (hin : c.in_cb = some in_cb) (hout : c.out_cb = some out_cb) (hddr : c.io_ddr < 256)
    (hA0 : pins &&& M6502_A0 ≠ 0) (hRW : pins &&& M6502_RW = 0) :
    m6510_iorq c pins h =
      some (pins,
        { c with
          io_out := M6502_GET_DATA pins
          io_drive := (M6502_GET_DATA pins &&& c.io_ddr) ||| (c.io_drive &&& not8 c.io_ddr)
          io_pins := (M6502_GET_DATA pins &&& c.io_ddr) ||| (c.io_inp &&& not8 c.io_ddr) },
        callOut out_cb ((M6502_GET_DATA pins &&& c.io_ddr) |||
            (c.io_pullup &&& not8 c.io_ddr)) c.user_data h) := by
  unfold m6510_iorq
  rw [hin, hout]
  have hnRW : ¬ pins &&& M6502_RW ≠ 0 := by simp [hRW]
  simp only [if_neg hA0, if_neg hnRW, mix8 _ _ _ hddr]

/-! ## The four port accesses -/

/-- C21: a write access to address 0 (RW clear, A0 clear) with data byte `d` sets
`io_ddr = d` and `io_drive = (io_out & d) | (old io_drive & ~d)`, invokes the output
callback exactly once, with `(io_out & d) | (io_pullup & ~d)`, never the input
callback, and leaves `io_out` and `io_inp` unchanged. -/
theorem iorq_write_ddr {W : Type} (c : m6502_t W) (pins : Nat) (h : Host W)
    (in_cb : Nat → W → Nat × W) (out_cb : Nat → Nat → W → W)
    (hin : c.in_cb = some in_cb) (hout : c.out_cb = some out_cb)
    (hA0 : pins &&& M6502_A0 = 0) (hRW : pins &&& M6502_RW = 0) :
    ∃ pins' c' h', m6510_iorq c pins h = some (pins', c', h') ∧
      c'.io_ddr = M6502_GET_DATA pins ∧
      c'.io_drive = (c.io_out &&& M6502_GET_DATA pins) |||
        (c.io_drive &&& not8 (M6502_GET_DATA pins)) ∧
      h'.calls = h.calls ++ [Call.output ((c.io_out &&& M6502_GET_DATA pins) |||
        (c.io_pullup &&& not8 (M6502_GET_DATA pins))) c.user_data] ∧
      h'.world = out_cb ((c.io_out &&& M6502_GET_DATA pins) |||
        (c.io_pullup &&& not8 (M6502_GET_DATA pins))) c.user_data h.world ∧
      c'.io_out = c.io_out ∧ c'.io_inp = c.io_inp :=
  ⟨_, _, _, iorq_ddr_write_eq c pins h in_cb out_cb hin hout hA0 hRW, rfl, rfl, rfl, rfl, rfl,
    rfl⟩

theorem iorq_write_ddr_witness :
    (exampleCpu.in_cb = some memIn ∧ exampleCpu.out_cb = some memOut ∧
      (0x5A0000 : Nat) &&& M6502_A0 = 0 ∧ (0x5A0000 : Nat) &&& M6502_RW = 0) ∧
    (M6502_GET_DATA 0x5A0000 = 0x5A ∧
      (m6510_iorq exampleCpu 0x5A0000 exampleHost).map
        (fun r => (r.2.1.io_ddr, r.2.1.io_drive, r.2.2.calls)) =
        some (0x5A, 0xA5, [Call.output 0x05 7])) ∧
    (∃ pins' c' h', m6510_iorq exampleCpu 0x5A0000 exampleHost = some (pins', c', h') ∧
      c'.io_ddr = M6502_GET_DATA 0x5A0000 ∧
      c'.io_drive = (exampleCpu.io_out &&& M6502_GET_DATA 0x5A0000) |||
        (exampleCpu.io_drive &&& not8 (M6502_GET_DATA 0x5A0000)) ∧
      h'.calls = exampleHost.calls ++
        [Call.output ((exampleCpu.io_out &&& M6502_GET_DATA 0x5A0000) |||
          (exampleCpu.io_pullup &&& not8 (M6502_GET_DATA 0x5A0000))) exampleCpu.user_data] ∧
      h'.world = memOut ((exampleCpu.io_out &&& M6502_GET_DATA 0x5A0000) |||
        (exampleCpu.io_pullup &&& not8 (M6502_GET_DATA 0x5A0000))) exampleCpu.user_data
          exampleHost.world ∧
      c'.io_out = exampleCpu.io_out ∧ c'.io_inp = exampleCpu.io_inp) :=
  ⟨⟨rfl, rfl, by decide, by decide⟩, by decide,
    iorq_write_ddr exampleCpu 0x5A0000 exampleHost memIn memOut rfl rfl (by decide)
      (by decide)⟩

/-- C22: a write access to address 1 (RW clear, A0 set) with data byte `d` sets
`io_out = d`, leaves `io_ddr` and `io_inp` unchanged, sets
`io_drive = (d & io_ddr) | (old io_drive & ~io_ddr)` and invokes the output callback
exactly once, with `(d & io_ddr) | (io_pullup & ~io_ddr)`. -/
theorem iorq_write_port {W : Type} (c : m6502_t W) (pins : Nat) (h : Host W)
    (in_cb : Nat → W → Nat × W) (out_cb : Nat → Nat → W → W)
    (hin : c.in_cb = some in_cb) (hout : c.out_cb = some out_cb) (hwf : portWf c)
    (hA0 : pins &&& M6502_A0 ≠ 0) (hRW : pins &&& M6502_RW = 0) :
    ∃ pins' c' h', m6510_iorq c pins h = some (pins', c', h') ∧
      c'.io_out = M6502_GET_DATA pins ∧ c'.io_ddr = c.io_ddr ∧ c'.io_inp = c.io_inp ∧
      c'.io_drive = (M6502_GET_DATA pins &&& c.io_ddr) ||| (c.io_drive &&& not8 c.io_ddr) ∧
      h'.calls = h.calls ++ [Call.output ((M6502_GET_DATA pins &&& c.io_ddr) |||
        (c.io_pullup &&& not8 c.io_ddr)) c.user_data] ∧
      h'.world = out_cb ((M6502_GET_DATA pins &&& c.io_ddr) |||
        (c.io_pullup &&& not8 c.io_ddr)) c.user_data h.world :=
  ⟨_, _, _, iorq_port_write_eq c pins h in_cb out_cb hin hout hwf.1 hA0 hRW, rfl, rfl, rfl, rfl,
    rfl, rfl⟩

theorem iorq_write_port_witness :
    (exampleCpu.in_cb = some memIn ∧ exampleCpu.out_cb = some memOut ∧ portWf exampleCpu ∧
      (0x5A0001 : Nat) &&& M6502_A0 ≠ 0 ∧ (0x5A0001 : Nat) &&& M6502_RW = 0) ∧
    (m6510_iorq exampleCpu 0x5A0001 exampleHost).map
        (fun r => (r.2.1.io_out, r.2.1.io_drive, r.2.2.calls)) =
        some (0x5A, 0xCA, [Call.output 0x1A 7]) ∧
    (∃ pins' c' h', m6510_iorq exampleCpu 0x5A0001 exampleHost = some (pins', c', h') ∧
      c'.io_out = M6502_GET_DATA 0x5A0001 ∧ c'.io_ddr = exampleCpu.io_ddr ∧
      c'.io_inp = exampleCpu.io_inp ∧
      c'.io_drive = (M6502_GET_DATA 0x5A0001 &&& exampleCpu.io_ddr) |||
        (exampleCpu.io_drive &&& not8 exampleCpu.io_ddr) ∧
      h'.calls = exampleHost.calls ++
        [Call.output ((M6502_GET_DATA 0x5A0001 &&& exampleCpu.io_ddr) |||
          (exampleCpu.io_pullup &&& not8 exampleCpu.io_ddr)) exampleCpu.user_data] ∧
      h'.world = memOut ((M6502_GET_DATA 0x5A0001 &&& exampleCpu.io_ddr) |||
        (exampleCpu.io_pullup &&& not8 exampleCpu.io_ddr)) exampleCpu.user_data
          exampleHost.world) :=
  ⟨⟨rfl, rfl, by decide, by decide, by decide⟩, by decide,
    iorq_write_port exampleCpu 0x5A0001 exampleHost memIn memOut rfl rfl (by decide)
      (by decide) (by decide)⟩

/-- C23: a read access to address 0 (RW set, A0 clear) returns a pin word whose
data field is the current `io_ddr`, invokes no callback and leaves the CPU object
unchanged. -/
theorem iorq_read_ddr {W : Type} (c : m6502_t W) (pins : Nat) (h : Host W)
    (in_cb : Nat → W → Nat × W) (out_cb : Nat → Nat → W → W)
    (hin : c.in_cb = some in_cb) (hout : c.out_cb = some out_cb) (hwf : portWf c)
    (hA0 : pins &&& M6502_A0 = 0) (hRW : pins &&& M6502_RW ≠ 0) :
    ∃ pins', m6510_iorq c pins h = some (pins', c, h) ∧ M6502_GET_DATA pins' = c.io_ddr := by
  refine ⟨_, iorq_ddr_read_eq c pins h in_cb out_cb hin hout hA0 hRW, ?_⟩
  rw [get_set_data]
  exact Nat.mod_eq_of_lt hwf.1

theorem iorq_read_ddr_witness :
    (exampleCpu.in_cb = some memIn ∧ exampleCpu.out_cb = some memOut ∧ portWf exampleCpu ∧
      M6502_RW &&& M6502_A0 = 0 ∧ M6502_RW &&& M6502_RW ≠ 0) ∧
    (∃ pins', m6510_iorq exampleCpu M6502_RW exampleHost = some (pins', exampleCpu, exampleHost) ∧
      M6502_GET_DATA pins' = exampleCpu.io_ddr) :=
  ⟨⟨rfl, rfl, by decide, by decide, by decide⟩,
    iorq_read_ddr exampleCpu M6502_RW exampleHost memIn memOut rfl rfl (by decide) (by decide)
      (by decide)⟩

theorem tb_lt256_true {x b : Nat} (hx : x < 256) (hb : x.testBit b = true) : b < 8 := by
  by_contra hcon
  rw [tb_lt256 hx (Nat.le_of_not_lt hcon)] at hb
  exact Bool.noConfusion hb

/-- C24: floating-pin retention.  After (1) a direction-register write with bit `b`
set, (2) a data-port write with bit `b` set and (3) a direction-register write with
bit `b` clear, a data-port read (4) returns 1 in bit `b` of the data bus when the
floating-mask bit `b` is set, whatever the input callback reports (also 0). -/
theorem floating_pin_retention {W : Type} (c : m6502_t W) (h : Host W)
    (in_cb : Nat → W → Nat × W) (out_cb : Nat → Nat → W → W)
    (hin : c.in_cb = some in_cb) (hout : c.out_cb = some out_cb)
    (b p1 p2 p3 p4 : Nat) (hfl : c.io_floating.testBit b = true)
    (h1a : p1 &&& M6502_A0 = 0) (h1w : p1 &&& M6502_RW = 0)
    (h1b : (M6502_GET_DATA p1).testBit b = true)
    (h2a : p2 &&& M6502_A0 ≠ 0) (h2w : p2 &&& M6502_RW = 0)
    (h2b : (M6502_GET_DATA p2).testBit b = true)
    (h3a : p3 &&& M6502_A0 = 0) (h3w : p3 &&& M6502_RW = 0)
    (h3b : (M6502_GET_DATA p3).testBit b = false)
    (h4a : p4 &&& M6502_A0 ≠ 0) (h4r : p4 &&& M6502_RW ≠ 0) :
    ∃ q1 c1 g1 q2 c2 g2 q3 c3 g3 q4 c4 g4,
      m6510_iorq c p1 h = some (q1, c1, g1) ∧ m6510_iorq c1 p2 g1 = some (q2, c2, g2) ∧
      m6510_iorq c2 p3 g2 = some (q3, c3, g3) ∧ m6510_iorq c3 p4 g3 = some (q4, c4, g4) ∧
      (M6502_GET_DATA q4).testBit b = true := by
  have hb8 : b < 8 := tb_lt256_true (get_data_lt p1) h1b
  refine ⟨_, _, _, _, _, _, _, _, _, _, _, _,
    iorq_ddr_write_eq c p1 h in_cb out_cb hin hout h1a h1w,
    iorq_port_write_eq _ p2 _ in_cb out_cb hin hout (get_data_lt p1) h2a h2w,
    iorq_ddr_write_eq _ p3 _ in_cb out_cb hin hout h3a h3w,
    iorq_port_read_eq _ p4 _ in_cb out_cb hin hout (get_data_lt p3) h4a h4r, ?_⟩
  rw [get_set_data]
  simp only [tb_mod256, Nat.testBit_and, Nat.testBit_or, tb_not8, h1b, h2b, h3b, hfl, hb8]
  simp

theorem floating_pin_retention_witness :
    (exampleCpu.in_cb = some memIn ∧ exampleCpu.out_cb = some memOut ∧
      exampleCpu.io_floating.testBit 6 = true ∧
      ((0x400000 : Nat) &&& M6502_A0 = 0 ∧ (0x400000 : Nat) &&& M6502_RW = 0 ∧
        (M6502_GET_DATA 0x400000).testBit 6 = true) ∧
      ((0x400001 : Nat) &&& M6502_A0 ≠ 0 ∧ (0x400001 : Nat) &&& M6502_RW = 0 ∧
        (M6502_GET_DATA 0x400001).testBit 6 = true) ∧
      ((0x000000 : Nat) &&& M6502_A0 = 0 ∧ (0x000000 : Nat) &&& M6502_RW = 0 ∧
        (M6502_GET_DATA 0x000000).testBit 6 = false) ∧
      ((M6502_RW ||| 0x0001) &&& M6502_A0 ≠ 0 ∧ (M6502_RW ||| 0x0001) &&& M6502_RW ≠ 0)) ∧
    ((m6510_iorq exampleCpu 0x400000 zeroHost).bind (fun r1 =>
      (m6510_iorq r1.2.1 0x400001 r1.2.2).bind (fun r2 =>
        (m6510_iorq r2.2.1 0x000000 r2.2.2).bind (fun r3 =>
          (m6510_iorq r3.2.1 (M6502_RW ||| 0x0001) r3.2.2).map (fun r4 =>
            (r4.2.1.io_inp, M6502_GET_DATA r4.1))))) = some (0x00, 0xC0)) ∧
    (∃ q1 c1 g1 q2 c2 g2 q3 c3 g3 q4 c4 g4,
      m6510_iorq exampleCpu 0x400000 zeroHost = some (q1, c1, g1) ∧
      m6510_iorq c1 0x400001 g1 = some (q2, c2, g2) ∧
      m6510_iorq c2 0x000000 g2 = some (q3, c3, g3) ∧
      m6510_iorq c3 (M6502_RW ||| 0x0001) g3 = some (q4, c4, g4) ∧
      (M6502_GET_DATA q4).testBit 6 = true) :=
  ⟨⟨rfl, rfl, by decide, by decide, by decide, by decide, by decide⟩, by decide,
    floating_pin_retention exampleCpu zeroHost memIn memOut rfl rfl 6 0x400000 0x400001
      0x000000 (M6502_RW ||| 0x0001) (by decide) (by decide) (by decide) (by decide)
      (by decide) (by decide) (by decide) (by decide) (by decide) (by decide) (by decide)
      (by decide)⟩

/-- C26, refuted as stated: a CPU initialised with pull-up mask `0x17` has all port
lines as inputs; a data-port read while the input callback reports `0x00` returns
`0x00`, so the pulled-up input bits 0, 1, 2 and 4 read 0. -/
theorem iorq_read_ignores_pullup :
    (m6502_init exampleCpu exampleDesc).map (fun c => (c.io_pullup, c.io_ddr)) =
      some (0x17, 0x00) ∧
    (memIn exampleDesc.user_data zeroHost.world).1 = 0x00 ∧
    (m6502_init exampleCpu exampleDesc).bind (fun c =>
      (m6510_iorq c (M6502_RW ||| 0x0001) zeroHost).map (fun r => M6502_GET_DATA r.1)) =
      some 0x00 := by
  decide

/-- C26, amended: the pull-up mask acts on the level reported to the output callback,
not on reads.  On a write access the value given to the output callback has the
pull-up bit in every bit configured as input after the write.  A data-port read
returns in every input bit the bit reported by the input callback or, on a floating
line, the retained drive bit, and its result does not depend on the pull-up mask. -/
theorem pullup_on_output_level {W : Type} (c : m6502_t W) (pins : Nat) (h : Host W)
    (in_cb : Nat → W → Nat × W) (out_cb : Nat → Nat → W → W)
    (hin : c.in_cb = some in_cb) (hout : c.out_cb = some out_cb) (hwf : portWf c) :
    ∃ pins' c' h', m6510_iorq c pins h = some (pins', c', h') ∧
      (pins &&& M6502_RW = 0 →
        ∃ v, h'.calls = h.calls ++ [Call.output v c.user_data] ∧
          ∀ b, b < 8 → c'.io_ddr.testBit b = false → v.testBit b = c.io_pullup.testBit b) ∧
      (pins &&& M6502_A0 ≠ 0 → pins &&& M6502_RW ≠ 0 →
        (∀ b, b < 8 → c.io_ddr.testBit b = false →
          (M6502_GET_DATA pins').testBit b =
            ((callIn in_cb c.user_data h).1.testBit b ||
              (c.io_floating.testBit b && c.io_drive.testBit b))) ∧
        ∀ q, m6510_iorq { c with io_pullup := q } pins h =
          some (pins', { c' with io_pullup := q }, h')) := by
  by_cases hA0 : pins &&& M6502_A0 = 0
  · by_cases hRW : pins &&& M6502_RW = 0
    · refine ⟨_, _, _, iorq_ddr_write_eq c pins h in_cb out_cb hin hout hA0 hRW,
        fun _ => ⟨_, rfl, fun b hb hd => ?_⟩, fun hA => absurd hA0 hA⟩
      have hd2 : (M6502_GET_DATA pins).testBit b = false := hd
      simp [Nat.testBit_or, Nat.testBit_and, tb_not8, hb, hd2]
    · exact ⟨_, _, _, iorq_ddr_read_eq c pins h in_cb out_cb hin hout hA0 hRW,
        fun h0 => absurd h0 hRW, fun hA => absurd hA0 hA⟩
  · by_cases hRW : pins &&& M6502_RW = 0
    · refine ⟨_, _, _, iorq_port_write_eq c pins h in_cb out_cb hin hout hwf.1 hA0 hRW,
        fun _ => ⟨_, rfl, fun b hb hd => ?_⟩, fun _ hR => absurd hRW hR⟩
      have hd2 : c.io_ddr.testBit b = false := hd
      simp [Nat.testBit_or, Nat.testBit_and, tb_not8, hb, hd2]
    · refine ⟨_, _, _, iorq_port_read_eq c pins h in_cb out_cb hin hout hwf.1 hA0 hRW,
        fun h0 => absurd h0 hRW, fun _ _ => ⟨fun b hb hd => ?_, fun q => ?_⟩⟩
      · rw [get_set_data, tb_mod256]
        simp [Nat.testBit_or, Nat.testBit_and, tb_not8, hb, hd]
      · exact iorq_port_read_eq { c with io_pullup := q } pins h in_cb out_cb hin hout hwf.1
          hA0 hRW

theorem pullup_on_output_level_witness :
    (portExampleCpu.in_cb = some memIn ∧ portExampleCpu.out_cb = some memOut ∧
      portWf portExampleCpu) ∧
    (portExampleCpu.io_pullup, portExampleCpu.io_ddr) = (0x17, 0x2F) ∧
    (m6510_iorq portExampleCpu 0x1000001 zeroHost).map (fun r => M6502_GET_DATA r.1) =
      some 0x25 ∧
    (m6510_iorq portExampleCpu 0x0F0000 zeroHost).map (fun r => r.2.2.calls) =
      some [Call.output 0x15 7] ∧
    (∃ pins' c' h', m6510_iorq portExampleCpu 0x1000001 zeroHost = some (pins', c', h') ∧
      ((0x1000001 : Nat) &&& M6502_RW = 0 →
        ∃ v, h'.calls = zeroHost.calls ++ [Call.output v portExampleCpu.user_data] ∧
          ∀ b, b < 8 → c'.io_ddr.testBit b = false →
            v.testBit b = portExampleCpu.io_pullup.testBit b) ∧
      ((0x1000001 : Nat) &&& M6502_A0 ≠ 0 → (0x1000001 : Nat) &&& M6502_RW ≠ 0 →
        (∀ b, b < 8 → portExampleCpu.io_ddr.testBit b = false →
          (M6502_GET_DATA pins').testBit b =
            ((callIn memIn portExampleCpu.user_data zeroHost).1.testBit b ||
              (portExampleCpu.io_floating.testBit b && portExampleCpu.io_drive.testBit b))) ∧
        ∀ q, m6510_iorq { portExampleCpu with io_pullup := q } 0x1000001 zeroHost =
          some (pins', { c' with io_pullup := q }, h'))) :=
  ⟨⟨rfl, rfl, by decide⟩, by decide, by decide, by decide,
    pullup_on_output_level portExampleCpu 0x1000001 zeroHost memIn memOut rfl rfl (by decide)⟩

/-- C27, refuted as stated: `m6502_reset` of `exampleCpu` changes the driven level
from `0x35` to `0x17` and invokes the tick callback twice and the output callback
not at all. -/
theorem reset_level_counterexample :
    drivenLevel exampleCpu = 0x35 ∧
    (m6502_reset exampleCpu exampleHost).map (fun r => (drivenLevel r.1, r.2.calls)) =
      some (0x17, [Call.tick (M6502_RW ||| 0xFFFC) 7, Call.tick (M6502_RW ||| 0xFFFD) 7]) := by
  decide

/-- C27, amended: for each kind of `m6510_iorq` access, if the driven level
`(io_out & io_ddr) | (io_pullup & ~io_ddr)` after the access differs from the level
before it, the output callback was invoked during the access with the new level. -/
theorem iorq_level_change_reported {W : Type} (c : m6502_t W) (pins : Nat) (h : Host W)
    (in_cb : Nat → W → Nat × W) (out_cb : Nat → Nat → W → W)
    (hin : c.in_cb = some in_cb) (hout : c.out_cb = some out_cb) (hwf : portWf c) :
    ∃ pins' c' h' new, m6510_iorq c pins h = some (pins', c', h') ∧
      h'.calls = h.calls ++ new ∧
      (drivenLevel c' ≠ drivenLevel c → Call.output (drivenLevel c') c.user_data ∈ new) := by
  by_cases hA0 : pins &&& M6502_A0 = 0
  · by_cases hRW : pins &&& M6502_RW = 0
    · exact ⟨_, _, _, _, iorq_ddr_write_eq c pins h in_cb out_cb hin hout hA0 hRW, rfl,
        fun _ => List.mem_singleton.mpr rfl⟩
    · exact ⟨_, _, _, [], iorq_ddr_read_eq c pins h in_cb out_cb hin hout hA0 hRW,
        (List.append_nil _).symm, fun hne => absurd rfl hne⟩
  · by_cases hRW : pins &&& M6502_RW = 0
    · exact ⟨_, _, _, _, iorq_port_write_eq c pins h in_cb out_cb hin hout hwf.1 hA0 hRW, rfl,
        fun _ => List.mem_singleton.mpr rfl⟩
    · exact ⟨_, _, _, _, iorq_port_read_eq c pins h in_cb out_cb hin hout hwf.1 hA0 hRW, rfl,
        fun hne => absurd rfl hne⟩

theorem iorq_level_change_reported_witness :
    (exampleCpu.in_cb = some memIn ∧ exampleCpu.out_cb = some memOut ∧ portWf exampleCpu) ∧
    (drivenLevel exampleCpu = 0x35 ∧
      (m6510_iorq exampleCpu 0x5A0000 exampleHost).map
        (fun r => (drivenLevel r.2.1, r.2.2.calls)) = some (0x05, [Call.output 0x05 7])) ∧
    (∃ pins' c' h' new, m6510_iorq exampleCpu 0x5A0000 exampleHost = some (pins', c', h') ∧
      h'.calls = exampleHost.calls ++ new ∧
      (drivenLevel c' ≠ drivenLevel exampleCpu →
        Call.output (drivenLevel c') exampleCpu.user_data ∈ new)) :=
  ⟨⟨rfl, rfl, by decide⟩, by decide,
    iorq_level_change_reported exampleCpu 0x5A0000 exampleHost memIn memOut rfl rfl
      (by decide)⟩

/-! ## Fatal preconditions -/

theorem iorq_eq_outcome {W : Type} (c : m6502_t W) (pins : Nat) (h : Host W) :
    m6510_iorq c pins h = (m6510_iorq_outcome c pins h).result := by
  unfold m6510_iorq m6510_iorq_outcome m6510_iorq_body
  cases c.in_cb with
  | none => rfl
  | some i =>
    cases c.out_cb with
    | none => rfl
    | some o =>
      simp only [Outcome.result]
      split_ifs <;> rfl

theorem init_eq_outcome {W : Type} (c : m6502_t W) (desc : m6502_desc_t W) :
    m6502_init c desc = (m6502_init_outcome c desc).result := by
  unfold m6502_init m6502_init_outcome
  cases desc.tick_cb <;> rfl

/-- C28: `m6510_iorq` fails iff the input callback or the output callback is not
configured, whatever the access is, and with both configured it returns.  The
assertion is the first statement: a failing call is aborted with the CPU object and
the host exactly as they were given, so no field has been modified and no callback
invoked; a call that is not aborted returns the result of the statements after the
assertion. -/
theorem iorq_fails_iff {W : Type} (c : m6502_t W) (pins : Nat) (h : Host W) :
    (m6510_iorq c pins h = none ↔ (c.in_cb = none ∨ c.out_cb = none)) ∧
    ((c.in_cb ≠ none ∧ c.out_cb ≠ none) → ∃ r, m6510_iorq c pins h = some r) ∧
    m6510_iorq c pins h = (m6510_iorq_outcome c pins h).result ∧
    (∀ s, m6510_iorq_outcome c pins h = Outcome.aborted s ↔
      ((c.in_cb = none ∨ c.out_cb = none) ∧ s = (c, h))) ∧
    (∀ r, m6510_iorq_outcome c pins h = Outcome.returned r ↔
      ∃ i o, c.in_cb = some i ∧ c.out_cb = some o ∧ r = m6510_iorq_body i o c pins h) := by
  refine ⟨?_, ?_, iorq_eq_outcome c pins h, ?_, ?_⟩
  · unfold m6510_iorq
    cases hi : c.in_cb with
    | none => simp
    | some i =>
      cases ho : c.out_cb with
      | none => simp
      | some o =>
        simp only [false_or, reduceCtorEq]
        split_ifs <;> simp
  · unfold m6510_iorq
    cases hi : c.in_cb with
    | none => simp
    | some i =>
      cases ho : c.out_cb with
      | none => simp
      | some o =>
        intro _
        split_ifs <;> exact ⟨_, rfl⟩
  · intro s
    unfold m6510_iorq_outcome
    cases hi : c.in_cb with
    | none =>
      simp only [Outcome.aborted.injEq, true_or, true_and]
      exact eq_comm
    | some i =>
      cases ho : c.out_cb with
      | none =>
        simp only [Outcome.aborted.injEq, or_true, true_and]
        exact eq_comm
      | some o => simp
  · intro r
    unfold m6510_iorq_outcome
    cases hi : c.in_cb with
    | none => simp
    | some i =>
      cases ho : c.out_cb with
      | none => simp
      | some o =>
        simp only [Outcome.returned.injEq, Option.some.injEq]
        constructor
        · intro e; exact ⟨i, o, rfl, rfl, e.symm⟩
        · rintro ⟨i', o', rfl, rfl, e⟩; exact e.symm

theorem iorq_fails_iff_witness :
    ({ portExampleCpu with in_cb := none } : m6502_t (Nat → Nat)).out_cb = some memOut ∧
    m6510_iorq_outcome { portExampleCpu with in_cb := none } 0x1000000 exampleHost =
      Outcome.aborted ({ portExampleCpu with in_cb := none }, exampleHost) ∧
    (m6510_iorq { portExampleCpu with in_cb := none } 0x1000000 exampleHost).map
      (fun r => r.1) = none ∧
    (m6510_iorq { portExampleCpu with in_cb := none } 0x1000000 exampleHost = none ↔
      (({ portExampleCpu with in_cb := none } : m6502_t (Nat → Nat)).in_cb = none ∨
        ({ portExampleCpu with in_cb := none } : m6502_t (Nat → Nat)).out_cb = none)) :=
  ⟨rfl, rfl, by decide,
    (iorq_fails_iff { portExampleCpu with in_cb := none } 0x1000000 exampleHost).1⟩

/-- C29: `m6502_init` fails iff the descriptor carries no tick callback; absent port
callbacks do not make it fail.  The assertion precedes the `memset`: a failing call is
aborted with the CPU object exactly as it was given, and a call that is not aborted
returns the object built by the statements after the assertion. -/
theorem init_fails_iff {W : Type} (c : m6502_t W) (desc : m6502_desc_t W) :
    (m6502_init c desc = none ↔ desc.tick_cb = none) ∧
    (desc.tick_cb ≠ none →
      ∃ c', m6502_init c { desc with in_cb := none, out_cb := none } = some c') ∧
    m6502_init c desc = (m6502_init_outcome c desc).result ∧
    (∀ s, m6502_init_outcome c desc = Outcome.aborted s ↔ (desc.tick_cb = none ∧ s = c)) ∧
    (∀ r, m6502_init_outcome c desc = Outcome.returned r ↔
      ∃ tick, desc.tick_cb = some tick ∧ r = m6502_init_body tick desc) := by
  refine ⟨?_, ?_, init_eq_outcome c desc, ?_, ?_⟩
  · unfold m6502_init
    cases ht : desc.tick_cb <;> simp
  · unfold m6502_init
    cases ht : desc.tick_cb <;> simp
  · intro s
    unfold m6502_init_outcome
    cases ht : desc.tick_cb with
    | none =>
      simp only [Outcome.aborted.injEq, true_and]
      exact eq_comm
    | some tick => simp
  · intro r
    unfold m6502_init_outcome
    cases ht : desc.tick_cb with
    | none => simp
    | some tick =>
      simp only [Outcome.returned.injEq, Option.some.injEq]
      constructor
      · intro e; exact ⟨tick, rfl, e.symm⟩
      · rintro ⟨t, rfl, e⟩; exact e.symm

theorem init_fails_iff_witness :
    ({ exampleDesc with tick_cb := none } : m6502_desc_t (Nat → Nat)).in_cb = some memIn ∧
    m6502_init_outcome exampleCpu { exampleDesc with tick_cb := none } =
      Outcome.aborted exampleCpu ∧
    (m6502_init exampleCpu { exampleDesc with tick_cb := none }).map (fun c => c.state.S) =
      none ∧
    (m6502_init exampleCpu { exampleDesc with tick_cb := none } = none ↔
      ({ exampleDesc with tick_cb := none } : m6502_desc_t (Nat → Nat)).tick_cb = none) :=
  ⟨rfl, rfl, by decide, (init_fails_iff exampleCpu { exampleDesc with tick_cb := none }).1⟩

/-! ## The execution loop -/

theorem tickCount_append (a b : List Call) : tickCount (a ++ b) = tickCount a + tickCount b := by
  unfold tickCount
  exact List.countP_append _ a b

theorem tickCount_tick (p u : Nat) : tickCount [Call.tick p u] = 1 := rfl

theorem tickCount_trap (pc : Nat) (t : Int) (p u : Nat) : tickCount [Call.trap pc t p u] = 0 :=
  rfl

theorem Advances.refl {W : Type} (s : ExecState W) : Advances s s :=
  ⟨Nat.le_refl _, [], (List.append_nil _).symm, by simp [tickCount]⟩

theorem Advances.trans {W : Type} {a b c : ExecState W} (h1 : Advances a b)
    (h2 : Advances b c) : Advances a c := by
  obtain ⟨l1, n1, e1, t1⟩ := h1
  obtain ⟨l2, n2, e2, t2⟩ := h2
  refine ⟨Nat.le_trans l1 l2, n1 ++ n2, ?_, ?_⟩
  · rw [e2, e1, List.append_assoc]
  · rw [tickCount_append]; omega

theorem Advances.tick {W : Type} (tick : Nat → Nat → W → Nat × W) (word ud : Nat)
    (s : ExecState W) :
    Advances s { s with
      pins := (callTick tick word ud s.host).1
      ticks := s.ticks + 1
      host := (callTick tick word ud s.host).2 } :=
  ⟨Nat.le_succ _, [Call.tick word ud], rfl, by rw [tickCount_tick]; exact Nat.add_comm _ _⟩

theorem readCycle_spec {W : Type} (tick : Nat → Nat → W → Nat × W) (ud addr : Nat)
    (sync : Bool) (wait : Nat) :
    ∀ (s s' : ExecState W), readCycle tick ud addr sync wait s = some s' →
      Advances s s' ∧ s.ticks < s'.ticks ∧ s'.st = s.st := by
  induction wait with
  | zero => intro s s' h; simp [readCycle] at h
  | succ w ih =>
    intro s s' h
    rw [readCycle] at h
    split_ifs at h with hr
    · obtain ⟨a1, a2, a3⟩ := ih _ _ h
      refine ⟨(Advances.tick tick _ ud s).trans a1, ?_, ?_⟩
      · exact Nat.lt_of_lt_of_le (Nat.lt_succ_self _) (Nat.le_of_lt a2)
      · rw [a3]
    · injection h with h
      subst h
      exact ⟨Advances.tick tick _ ud s, Nat.lt_succ_self _, rfl⟩

theorem writeCycle_spec {W : Type} (tick : Nat → Nat → W → Nat × W) (ud addr data : Nat)
    (s : ExecState W) : Advances s (writeCycle tick ud addr data s) :=
  Advances.tick tick _ ud s

theorem runCycles_spec {W : Type} (tick : Nat → Nat → W → Nat × W) (ud wait : Nat)
    (cyc : Cycles) :
    ∀ (s s' : ExecState W), runCycles tick ud wait cyc s = some s' → Advances s s' := by
  induction cyc with
  | retire st =>
    intro s s' h
    simp only [runCycles, Option.some.injEq] at h
    subst h
    exact ⟨Nat.le_refl _, [], (List.append_nil _).symm, by simp [tickCount]⟩
  | read addr next ih =>
    intro s s' h
    rw [runCycles] at h
    cases hrd : readCycle tick ud addr false wait s with
    | none => rw [hrd] at h; simp at h
    | some s1 =>
      rw [hrd] at h
      exact (readCycle_spec tick ud addr false wait s s1 hrd).1.trans (ih _ _ _ h)
  | write addr data next ih =>
    intro s s' h
    rw [runCycles] at h
    exact (writeCycle_spec tick ud addr data s).trans (ih _ _ h)

theorem execInstr_spec {W : Type} (tbl : DecodeTable) (tick : Nat → Nat → W → Nat × W)
    (ud wait : Nat) (s s' : ExecState W) (h : execInstr tbl tick ud wait s = some s') :
    Advances s s' ∧ s.ticks < s'.ticks := by
  unfold execInstr at h
  cases hrd : readCycle tick ud s.st.PC true wait s with
  | none => rw [hrd] at h; simp at h
  | some s1 =>
    rw [hrd] at h
    obtain ⟨a1, a2, _⟩ := readCycle_spec tick ud s.st.PC true wait s s1 hrd
    simp only at h
    cases hrun : runCycles tick ud wait
        (tbl.instr (M6502_GET_DATA s1.pins) { s1.st with PC := (s1.st.PC + 1) % 65536 })
        { s1 with st := { s1.st with PC := (s1.st.PC + 1) % 65536 } } with
    | none => rw [hrun] at h; simp at h
    | some s2 =>
      rw [hrun] at h
      have b1 := runCycles_spec tick ud wait _ _ _ hrun
      have a12 : Advances s s2 := a1.trans b1
      have l12 : s.ticks < s2.ticks := Nat.lt_of_lt_of_le a2 b1.1
      simp only at h
      cases hint : tbl.interrupt s.pins s2.pins s2.st with
      | none =>
        rw [hint] at h
        injection h with h
        subst h
        exact ⟨a12, l12⟩
      | some cyc =>
        rw [hint] at h
        have c1 := runCycles_spec tick ud wait _ _ _ h
        exact ⟨a12.trans c1, Nat.lt_of_lt_of_le l12 c1.1⟩

theorem trapHook_spec {W : Type} (trap : Option (Nat → Int → Nat → Nat → W → Int × W))
    (tud : Nat) (s : ExecState W) :
    Advances s (trapHook trap tud s).1 ∧ (trapHook trap tud s).1.ticks = s.ticks := by
  cases trap with
  | none => exact ⟨Advances.refl s, rfl⟩
  | some cb =>
    refine ⟨⟨Nat.le_refl _, [Call.trap s.st.PC (s.ticks : Int) s.pins tud], rfl, ?_⟩, rfl⟩
    rw [tickCount_trap]
    exact Nat.zero_add _

theorem execLoop_spec {W : Type} (tbl : DecodeTable) (tick : Nat → Nat → W → Nat × W)
    (trap : Option (Nat → Int → Nat → Nat → W → Int × W)) (ud tud wait n : Nat) (k : Nat) :
    ∀ (s : ExecState W) (r : ExecState W × Option Int),
      execLoop tbl tick trap ud tud wait n k s = some r →
      Advances s r.1 ∧ (n ≤ s.ticks + k → r.2 = none → n ≤ r.1.ticks) ∧
      (∀ s0, AtBoundary tbl tick trap ud tud wait s0 s →
        AtBoundary tbl tick trap ud tud wait s0 r.1) := by
  induction k with
  | zero =>
    intro s r h
    simp only [execLoop, Option.some.injEq] at h
    subst h
    exact ⟨Advances.refl s, fun hk _ => hk, fun _ hb => hb⟩
  | succ k ih =>
    intro s r h
    rw [execLoop] at h
    split_ifs at h with hlt
    · cases hi : execInstr tbl tick ud wait s with
      | none => rw [hi] at h; simp at h
      | some s1 =>
        rw [hi] at h
        simp only at h
        obtain ⟨a1, l1⟩ := execInstr_spec tbl tick ud wait s s1 hi
        obtain ⟨t1, t2⟩ := trapHook_spec trap tud s1
        cases ht : (trapHook trap tud s1).2 with
        | some v =>
          rw [ht] at h
          injection h with h
          subst h
          refine ⟨a1.trans t1, fun _ hn => ?_, fun s0 hb => AtBoundary.instr s s1 hb hi⟩
          simp at hn
        | none =>
          rw [ht] at h
          obtain ⟨b1, b2, b3⟩ := ih _ _ h
          refine ⟨(a1.trans t1).trans b1, fun hk hn => b2 ?_ hn,
            fun s0 hb => b3 s0 (AtBoundary.instr s s1 hb hi)⟩
          rw [t2]
          omega
    · injection h with h
      subst h
      exact ⟨Advances.refl s, fun _ _ => Nat.le_of_not_lt hlt, fun _ hb => hb⟩

theorem tb_RW (i : Nat) : M6502_RW.testBit i = decide (24 = i) := by
  show (2 ^ 24).testBit i = _; exact Nat.testBit_two_pow
theorem tb_SYNC (i : Nat) : M6502_SYNC.testBit i = decide (25 = i) := by
  show (2 ^ 25).testBit i = _; exact Nat.testBit_two_pow
theorem tb_RDY (i : Nat) : M6502_RDY.testBit i = decide (28 = i) := by
  show (2 ^ 28).testBit i = _; exact Nat.testBit_two_pow

theorem flagSet_RW (p : Nat) : p &&& M6502_RW ≠ 0 ↔ p.testBit 24 = true :=
  and_two_pow_ne_zero p 24

theorem flagSet_RDY (p : Nat) : p &&& M6502_RDY ≠ 0 ↔ p.testBit 28 = true :=
  and_two_pow_ne_zero p 28

theorem readWord_RW (pins addr : Nat) (sync : Bool) : readWord pins addr sync &&& M6502_RW ≠ 0 := by
  rw [flagSet_RW]
  unfold readWord
  cases sync <;>
    simp [Nat.testBit_and, Nat.testBit_or, tb_not64, tb_RW, tb_RDY, tb_SYNC]

theorem readCycle_total {W : Type} (tick : Nat → Nat → W → Nat × W) (hr : releasesRDY tick)
    (ud addr : Nat) (sync : Bool) (wait : Nat) (hw : 1 ≤ wait) (s : ExecState W) :
    ∃ s', readCycle tick ud addr sync wait s = some s' := by
  obtain ⟨w, rfl⟩ : ∃ w, wait = w + 1 := ⟨wait - 1, by omega⟩
  rw [readCycle]
  have h0 := hr (readWord s.pins addr sync) ud s.host (readWord_RW _ _ _)
  rw [if_neg (by simp [h0])]
  exact ⟨_, rfl⟩

theorem runCycles_total {W : Type} (tick : Nat → Nat → W → Nat × W) (hr : releasesRDY tick)
    (ud wait : Nat) (hw : 1 ≤ wait) (cyc : Cycles) :
    ∀ (s : ExecState W), ∃ s', runCycles tick ud wait cyc s = some s' := by
  induction cyc with
  | retire st => intro s; exact ⟨_, rfl⟩
  | read addr next ih =>
    intro s
    obtain ⟨s1, h1⟩ := readCycle_total tick hr ud addr false wait hw s
    rw [runCycles, h1]
    exact ih _ s1
  | write addr data next ih =>
    intro s
    rw [runCycles]
    exact ih _

theorem execInstr_total {W : Type} (tbl : DecodeTable) (tick : Nat → Nat → W → Nat × W)
    (hr : releasesRDY tick) (ud wait : Nat) (hw : 1 ≤ wait) (s : ExecState W) :
    ∃ s', execInstr tbl tick ud wait s = some s' := by
  unfold execInstr
  obtain ⟨s1, h1⟩ := readCycle_total tick hr ud s.st.PC true wait hw s
  rw [h1]
  simp only
  obtain ⟨s2, h2⟩ := runCycles_total tick hr ud wait hw
    (tbl.instr (M6502_GET_DATA s1.pins) { s1.st with PC := (s1.st.PC + 1) % 65536 })
    { s1 with st := { s1.st with PC := (s1.st.PC + 1) % 65536 } }
  rw [h2]
  simp only
  cases tbl.interrupt s.pins s2.pins s2.st with
  | none => exact ⟨_, rfl⟩
  | some cyc => exact runCycles_total tick hr ud wait hw cyc s2

theorem execLoop_total {W : Type} (tbl : DecodeTable) (tick : Nat → Nat → W → Nat × W)
    (hr : releasesRDY tick) (trap : Option (Nat → Int → Nat → Nat → W → Int × W))
    (ud tud wait : Nat) (hw : 1 ≤ wait) (n k : Nat) :
    ∀ (s : ExecState W), ∃ r, execLoop tbl tick trap ud tud wait n k s = some r := by
  induction k with
  | zero => intro s; exact ⟨_, rfl⟩
  | succ k ih =>
    intro s
    rw [execLoop]
    split_ifs with hlt
    · obtain ⟨s1, h1⟩ := execInstr_total tbl tick hr ud wait hw s
      rw [h1]
      simp only
      cases ht : (trapHook trap tud s1).2 with
      | some v => exact ⟨_, rfl⟩
      | none => exact ih _
    · exact ⟨_, rfl⟩

theorem stuckTick_RDY (word ud : Nat) (h : Host (Nat → Nat)) :
    (callTick stuckTick word ud h).1 &&& M6502_RDY ≠ 0 := by
  rw [flagSet_RDY]
  simp only [callTick, stuckTick]
  rw [Nat.testBit_mod_two_pow, Nat.testBit_or, tb_RDY]
  simp

/-! ## Pin word accessors -/

theorem and_ffff (x : Nat) : x &&& 0xFFFF = x % 65536 := Nat.and_pow_two_sub_one_eq_mod x 16

theorem get_addr_eq (p : Nat) : M6502_GET_ADDR p = p % 65536 := by
  unfold M6502_GET_ADDR
  rw [and_ffff, Nat.mod_mod]

theorem tb_addrMask (j : Nat) : (0xFFFF : Nat).testBit j = decide (j < 16) :=
  Nat.testBit_two_pow_sub_one 16 j

theorem set_addr_testBit (p a i : Nat) :
    (M6502_SET_ADDR p a).testBit i =
      if i < 16 then a.testBit i else (decide (i < 64) && p.testBit i) := by
  unfold M6502_SET_ADDR
  simp only [Nat.testBit_or, Nat.testBit_and, tb_not64, tb_addrMask]
  by_cases h16 : i < 16
  · have h64 : i < 64 := by omega
    simp [h16, h64]
  · by_cases h64 : i < 64 <;> simp [h16, h64]

theorem set_data_testBit (p d i : Nat) :
    (M6502_SET_DATA p d).testBit i =
      if 16 ≤ i ∧ i < 24 then d.testBit (i - 16) else (decide (i < 64) && p.testBit i) := by
  unfold M6502_SET_DATA
  simp only [Nat.testBit_or, Nat.testBit_and, tb_not64, tb_dataMask, Nat.testBit_shiftLeft]
  by_cases h16 : 16 ≤ i
  · by_cases h24 : i < 24
    · have h64 : i < 64 := by omega
      have h8 : i - 16 < 8 := by omega
      simp [h16, h24, h64, h8]
    · have h8 : ¬ i - 16 < 8 := by omega
      by_cases h64 : i < 64 <;> simp [h16, h24, h64, h8]
  · have h24 : i < 24 := by omega
    have h64 : i < 64 := by omega
    simp [h16, h64]

theorem tb_lt64 {p : Nat} (hp : p < 2 ^ 64) {i : Nat} (hi : 64 ≤ i) : p.testBit i = false := by
  apply Nat.testBit_lt_two_pow
  calc p < 2 ^ 64 := hp
    _ ≤ 2 ^ i := Nat.pow_le_pow_right (by decide) hi

theorem set_addr_frame (p a i : Nat) (hp : p < 2 ^ 64) (hi : 16 ≤ i) :
    (M6502_SET_ADDR p a).testBit i = p.testBit i := by
  rw [set_addr_testBit, if_neg (by omega)]
  by_cases h64 : i < 64
  · simp [h64]
  · simp [h64, tb_lt64 hp (Nat.le_of_not_lt h64)]

theorem set_data_frame (p d i : Nat) (hp : p < 2 ^ 64) (hi : i < 16 ∨ 24 ≤ i) :
    (M6502_SET_DATA p d).testBit i = p.testBit i := by
  rw [set_data_testBit, if_neg (by omega)]
  by_cases h64 : i < 64
  · simp [h64]
  · simp [h64, tb_lt64 hp (Nat.le_of_not_lt h64)]

theorem get_set_addr (p a : Nat) : M6502_GET_ADDR (M6502_SET_ADDR p a) = a % 65536 := by
  rw [get_addr_eq]
  apply Nat.eq_of_testBit_eq
  intro i
  have h := Nat.testBit_mod_two_pow (M6502_SET_ADDR p a) 16 i
  have h2 := Nat.testBit_mod_two_pow a 16 i
  simp only [show (2 : Nat) ^ 16 = 65536 from rfl] at h h2
  rw [h, h2, set_addr_testBit]
  by_cases h16 : i < 16 <;> simp [h16]

theorem lt_two_pow_of_testBit (x n : Nat) (h : ∀ i, n ≤ i → x.testBit i = false) : x < 2 ^ n := by
  by_contra hge
  obtain ⟨i, hi, hb⟩ := Nat.ge_two_pow_implies_high_bit_true (Nat.le_of_not_lt hge)
  rw [h i hi] at hb
  exact Bool.false_ne_true hb

theorem set_addr_lt (p a : Nat) : M6502_SET_ADDR p a < 2 ^ 64 := by
  apply lt_two_pow_of_testBit
  intro i hi
  rw [set_addr_testBit, if_neg (by omega)]
  simp [Nat.not_lt.mpr hi]

theorem set_data_lt (p d : Nat) : M6502_SET_DATA p d < 2 ^ 64 := by
  apply lt_two_pow_of_testBit
  intro i hi
  rw [set_data_testBit, if_neg (by omega)]
  simp [Nat.not_lt.mpr hi]

theorem get_data_testBit (p i : Nat) :
    (M6502_GET_DATA p).testBit i = (decide (i < 8) && p.testBit (16 + i)) := by
  unfold M6502_GET_DATA
  rw [tb_mod256, Nat.testBit_shiftRight, Nat.testBit_and, tb_dataMask]
  by_cases h8 : i < 8
  · have h1 : 16 + i ≥ 16 := by omega
    have h2 : 16 + i - 16 < 8 := by omega
    simp [h8, h1, h2]
  · simp [h8]

theorem get_addr_testBit (p i : Nat) :
    (M6502_GET_ADDR p).testBit i = (decide (i < 16) && p.testBit i) := by
  rw [get_addr_eq]
  exact Nat.testBit_mod_two_pow p 16 i

/-- C33: on a 64-bit pin word the address read after `M6502_SET_ADDR(p, a)` is `a`
truncated to 16 bits (so `a` itself for a 16-bit `a`) and the data read after
`M6502_SET_DATA(p, d)` is `d` truncated to 8 bits; `M6502_SET_ADDR` changes no bit
outside bits 0..15 and `M6502_SET_DATA` no bit outside bits 16..23, so each setter
leaves the other field as it was, and the result is again a 64-bit word. -/
theorem pin_fields_roundtrip (p a d : Nat) (hp : p < 2 ^ 64) :
    M6502_GET_ADDR (M6502_SET_ADDR p a) = a % 65536 ∧
    (a < 65536 → M6502_GET_ADDR (M6502_SET_ADDR p a) = a) ∧
    M6502_GET_DATA (M6502_SET_DATA p d) = d % 256 ∧
    (d < 256 → M6502_GET_DATA (M6502_SET_DATA p d) = d) ∧
    (∀ i, 16 ≤ i → (M6502_SET_ADDR p a).testBit i = p.testBit i) ∧
    (∀ i, i < 16 ∨ 24 ≤ i → (M6502_SET_DATA p d).testBit i = p.testBit i) ∧
    M6502_GET_DATA (M6502_SET_ADDR p a) = M6502_GET_DATA p ∧
    M6502_GET_ADDR (M6502_SET_DATA p d) = M6502_GET_ADDR p ∧
    M6502_SET_ADDR p a < 2 ^ 64 ∧ M6502_SET_DATA p d < 2 ^ 64 := by
  refine ⟨get_set_addr p a, fun ha => ?_, get_set_data p d, fun hd => ?_,
    fun i hi => set_addr_frame p a i hp hi, fun i hi => set_data_frame p d i hp hi, ?_, ?_,
    set_addr_lt p a, set_data_lt p d⟩
  · rw [get_set_addr, Nat.mod_eq_of_lt ha]
  · rw [get_set_data, Nat.mod_eq_of_lt hd]
  · apply Nat.eq_of_testBit_eq
    intro i
    rw [get_data_testBit, get_data_testBit]
    by_cases h8 : i < 8
    · rw [set_addr_frame p a (16 + i) hp (by omega)]
    · simp [h8]
  · apply Nat.eq_of_testBit_eq
    intro i
    rw [get_addr_testBit, get_addr_testBit]
    by_cases h16 : i < 16
    · rw [set_data_frame p d i hp (Or.inl h16)]
    · simp [h16]

theorem pin_fields_roundtrip_witness :
    (0x1F12345678 : Nat) < 2 ^ 64 ∧
    M6502_SET_ADDR 0x1F12345678 0x3C0DE = 0x1F1234C0DE ∧
    M6502_SET_DATA 0x1F12345678 0x1AB = 0x1F12AB5678 ∧
    (M6502_GET_ADDR (M6502_SET_ADDR 0x1F12345678 0x3C0DE) = 0x3C0DE % 65536 ∧
    ((0x3C0DE : Nat) < 65536 → M6502_GET_ADDR (M6502_SET_ADDR 0x1F12345678 0x3C0DE) = 0x3C0DE) ∧
    M6502_GET_DATA (M6502_SET_DATA 0x1F12345678 0x1AB) = 0x1AB % 256 ∧
    ((0x1AB : Nat) < 256 → M6502_GET_DATA (M6502_SET_DATA 0x1F12345678 0x1AB) = 0x1AB) ∧
    (∀ i, 16 ≤ i → (M6502_SET_ADDR 0x1F12345678 0x3C0DE).testBit i =
      (0x1F12345678 : Nat).testBit i) ∧
    (∀ i, i < 16 ∨ 24 ≤ i → (M6502_SET_DATA 0x1F12345678 0x1AB).testBit i =
      (0x1F12345678 : Nat).testBit i) ∧
    M6502_GET_DATA (M6502_SET_ADDR 0x1F12345678 0x3C0DE) = M6502_GET_DATA 0x1F12345678 ∧
    M6502_GET_ADDR (M6502_SET_DATA 0x1F12345678 0x1AB) = M6502_GET_ADDR 0x1F12345678 ∧
    M6502_SET_ADDR 0x1F12345678 0x3C0DE < 2 ^ 64 ∧
    M6502_SET_DATA 0x1F12345678 0x1AB < 2 ^ 64) :=
  ⟨by decide, by decide, by decide, pin_fields_roundtrip 0x1F12345678 0x3C0DE 0x1AB (by decide)⟩

theorem and_fffe (p : Nat) : p &&& 0xFFFE = 2 * (p / 2 % 32768) := by
  have h := and_mask_shift p 1 15
  have hm : ((2 ^ 15 - 1) <<< 1 : Nat) = 0xFFFE := by decide
  rw [hm] at h
  rw [h, Nat.shiftLeft_eq, Nat.shiftRight_eq_div_pow]
  omega

/-- C34: `M6510_CHECK_IO(p)` is true exactly when the address field of `p` is 0 or 1,
and its value is the same on two pin words with the same address field. -/
theorem check_io_iff (p : Nat) :
    ( M6510_CHECK_IO p = true ↔ M6502_GET_ADDR p = 0 ∨ M6502_GET_ADDR p = 1) ∧
    (∀ q, M6502_GET_ADDR q = M6502_GET_ADDR p → M6510_CHECK_IO q = M6510_CHECK_IO p) := by
  have key : ∀ x, ( M6510_CHECK_IO x = true ↔ M6502_GET_ADDR x = 0 ∨ M6502_GET_ADDR x = 1) := by
    intro x
    unfold M6510_CHECK_IO
    rw [decide_eq_true_eq, and_fffe, get_addr_eq]
    omega
  refine ⟨key p, fun q hq => ?_⟩
  have hp := key p
  have hq2 := key q
  rw [hq] at hq2
  cases hcp : M6510_CHECK_IO p <;> cases hcq : M6510_CHECK_IO q <;> simp_all

/-! ## Frames of the accessors, of the port access and of the reset -/

/-- C35: for each register A, X, Y, S, P and PC the getter called after the setter
returns the value that was set, and the setter changes that register only: the other
registers, the pin word, `pi`, `bcd_enabled`, the callbacks, the trap configuration and
the port state are as before. -/
theorem register_roundtrip {W : Type} (cpu : m6502_t W) (v : Nat) :
    (m6502_a (m6502_set_a cpu v) = v ∧
      m6502_set_a cpu v = { cpu with state := { cpu.state with A := v } }) ∧
    (m6502_x (m6502_set_x cpu v) = v ∧
      m6502_set_x cpu v = { cpu with state := { cpu.state with X := v } }) ∧
    (m6502_y (m6502_set_y cpu v) = v ∧
      m6502_set_y cpu v = { cpu with state := { cpu.state with Y := v } }) ∧
    (m6502_s (m6502_set_s cpu v) = v ∧
      m6502_set_s cpu v = { cpu with state := { cpu.state with S := v } }) ∧
    (m6502_p (m6502_set_p cpu v) = v ∧
      m6502_set_p cpu v = { cpu with state := { cpu.state with P := v } }) ∧
    (m6502_pc (m6502_set_pc cpu v) = v ∧
      m6502_set_pc cpu v = { cpu with state := { cpu.state with PC := v } }) :=
  ⟨⟨rfl, rfl⟩, ⟨rfl, rfl⟩, ⟨rfl, rfl⟩, ⟨rfl, rfl⟩, ⟨rfl, rfl⟩, ⟨rfl, rfl⟩⟩

/-- C38: with both port callbacks set `m6510_iorq` returns; the returned pin word is
the given 64-bit pin word on a write and differs from it at most in the data bits
16..23 on a read; the registers (A, X, Y, S, P, PC, PINS, `pi`, `bcd_enabled`), the
pull-up and floating masks, the trap configuration, the callbacks and the user data
of the CPU object are unchanged. -/
theorem iorq_frame {W : Type} (c : m6502_t W) (pins : Nat) (h : Host W)
    (in_cb : Nat → W → Nat × W) (out_cb : Nat → Nat → W → W)
    (hin : c.in_cb = some in_cb) (hout : c.out_cb = some out_cb) (hp : pins < 2 ^ 64) :
    ∃ pins' c' h', m6510_iorq c pins h = some (pins', c', h') ∧
      (pins &&& M6502_RW = 0 → pins' = pins) ∧
      (∀ i, i < 16 ∨ 24 ≤ i → pins'.testBit i = pins.testBit i) ∧
      c'.state = c.state ∧ c'.io_pullup = c.io_pullup ∧ c'.io_floating = c.io_floating ∧
      c'.trap_cb = c.trap_cb ∧ c'.trap_user_data = c.trap_user_data ∧
      c'.trap_id = c.trap_id ∧ c'.tick_cb = c.tick_cb ∧ c'.in_cb = c.in_cb ∧
      c'.out_cb = c.out_cb ∧ c'.user_data = c.user_data := by
  unfold m6510_iorq
  rw [hin, hout]
  by_cases hA0 : pins &&& M6502_A0 = 0
  · by_cases hRW : pins &&& M6502_RW = 0
    · simp only [if_pos hA0, hRW, ne_eq, not_true_eq_false, if_false]
      exact ⟨_, _, _, rfl, fun _ => rfl, fun _ _ => rfl, rfl, rfl, rfl, rfl, rfl, rfl, rfl, rfl,
        rfl, rfl⟩
    · simp only [if_pos hA0, if_pos hRW]
      exact ⟨_, _, _, rfl, fun h0 => absurd h0 hRW, fun i hi => set_data_frame _ _ i hp hi,
        rfl, rfl, rfl, rfl, rfl, rfl, rfl, hin, hout, rfl⟩
  · by_cases hRW : pins &&& M6502_RW = 0
    · simp only [if_neg hA0, hRW, ne_eq, not_true_eq_false, if_false]
      exact ⟨_, _, _, rfl, fun _ => rfl, fun _ _ => rfl, rfl, rfl, rfl, rfl, rfl, rfl, rfl, rfl,
        rfl, rfl⟩
    · simp only [if_neg hA0, if_pos hRW]
      exact ⟨_, _, _, rfl, fun h0 => absurd h0 hRW, fun i hi => set_data_frame _ _ i hp hi,
        rfl, rfl, rfl, rfl, rfl, rfl, rfl, rfl, rfl, rfl⟩

theorem iorq_frame_witness :
    (exampleCpu.in_cb = some memIn ∧ exampleCpu.out_cb = some memOut ∧
      (0x1F13340001 : Nat) < 2 ^ 64) ∧
    (m6510_iorq exampleCpu 0x1F13340001 exampleHost).map (fun r => r.1) = some 0x1F13E50001 ∧
    (∃ pins' c' h', m6510_iorq exampleCpu 0x1F13340001 exampleHost = some (pins', c', h') ∧
      ((0x1F13340001 : Nat) &&& M6502_RW = 0 → pins' = 0x1F13340001) ∧
      (∀ i, i < 16 ∨ 24 ≤ i → pins'.testBit i = (0x1F13340001 : Nat).testBit i) ∧
      c'.state = exampleCpu.state ∧ c'.io_pullup = exampleCpu.io_pullup ∧
      c'.io_floating = exampleCpu.io_floating ∧
      c'.trap_cb = exampleCpu.trap_cb ∧ c'.trap_user_data = exampleCpu.trap_user_data ∧
      c'.trap_id = exampleCpu.trap_id ∧ c'.tick_cb = exampleCpu.tick_cb ∧
      c'.in_cb = exampleCpu.in_cb ∧ c'.out_cb = exampleCpu.out_cb ∧
      c'.user_data = exampleCpu.user_data) :=
  ⟨⟨rfl, rfl, by decide⟩, by decide,
    iorq_frame exampleCpu 0x1F13340001 exampleHost memIn memOut rfl rfl (by decide)⟩

/-- C39: with a tick callback `m6502_reset` returns and leaves A, X, Y, `pi`,
`bcd_enabled`, the trap callback with its user data and `trap_id`, the tick, input and
output callbacks, the user data, the pull-up and floating masks and the drive
register `io_drive` as they were before the reset. -/
theorem reset_frame {W : Type} (c : m6502_t W) (h : Host W)
    (tick : Nat → Nat → W → Nat × W) (ht : c.tick_cb = some tick) :
    ∃ c' h', m6502_reset c h = some (c', h') ∧
      c'.state.A = c.state.A ∧ c'.state.X = c.state.X ∧ c'.state.Y = c.state.Y ∧
      c'.state.pi = c.state.pi ∧ c'.state.bcd_enabled = c.state.bcd_enabled ∧
      c'.trap_cb = c.trap_cb ∧ c'.trap_user_data = c.trap_user_data ∧
      c'.trap_id = c.trap_id ∧ c'.tick_cb = c.tick_cb ∧ c'.user_data = c.user_data ∧
      c'.in_cb = c.in_cb ∧ c'.out_cb = c.out_cb ∧
      c'.io_pullup = c.io_pullup ∧ c'.io_floating = c.io_floating ∧
      c'.io_drive = c.io_drive := by
  unfold m6502_reset
  rw [ht]
  exact ⟨_, _, rfl, rfl, rfl, rfl, rfl, rfl, rfl, rfl, rfl, rfl, rfl, rfl, rfl, rfl, rfl, rfl⟩

theorem reset_frame_witness :
    exampleCpu.tick_cb = some memTick ∧
    (m6502_reset exampleCpu exampleHost).map
      (fun r => (r.1.state.A, r.1.io_drive, r.1.state.PC, r.1.io_ddr)) =
      some (0x11, 0xE5, 0xC0DE, 0) ∧
    (∃ c' h', m6502_reset exampleCpu exampleHost = some (c', h') ∧
      c'.state.A = exampleCpu.state.A ∧ c'.state.X = exampleCpu.state.X ∧
      c'.state.Y = exampleCpu.state.Y ∧
      c'.state.pi = exampleCpu.state.pi ∧
      c'.state.bcd_enabled = exampleCpu.state.bcd_enabled ∧
      c'.trap_cb = exampleCpu.trap_cb ∧ c'.trap_user_data = exampleCpu.trap_user_data ∧
      c'.trap_id = exampleCpu.trap_id ∧ c'.tick_cb = exampleCpu.tick_cb ∧
      c'.user_data = exampleCpu.user_data ∧
      c'.in_cb = exampleCpu.in_cb ∧ c'.out_cb = exampleCpu.out_cb ∧
      c'.io_pullup = exampleCpu.io_pullup ∧ c'.io_floating = exampleCpu.io_floating ∧
      c'.io_drive = exampleCpu.io_drive) :=
  ⟨rfl, by decide, reset_frame exampleCpu exampleHost memTick rfl⟩

/-! ## Decimal subtract after decimal add -/

theorem adc_dec_value (cpu : m6502_state_t) (val : Nat) (hA : cpu.A < 256) (hv : val < 256)
    (hmode : decimalMode cpu) (hbA : validBCD cpu.A) (hbv : validBCD val) :
    (_m6502_adc cpu val).A < 256 ∧ validBCD (_m6502_adc cpu val).A ∧
    dec (_m6502_adc cpu val).A = (dec cpu.A + dec val + carryIn cpu.P) % 100 := by
  have hc := carryIn_le cpu.P
  have hAr := adc_dec_A cpu val hmode
  have hl := adcLowNibble_eq cpu.A val (carryIn cpu.P) hc
  have hh0 := adcHighNibbleSum_eq cpu.A val (carryIn cpu.P) hA hv
  have hh := adcHighNibble_eq cpu.A val (carryIn cpu.P) hA hv
  unfold validBCD at hbA hbv
  rw [shr4, and_15] at hbA hbv
  refine ⟨by rw [hAr]; exact Nat.mod_lt _ (by decide), ?_⟩
  unfold validBCD dec
  simp only [shr4, and_15, hAr]
  have hq : (16 * adcHighNibble cpu.A val (carryIn cpu.P) +
      adcLowNibble cpu.A val (carryIn cpu.P) % 16) % 256 / 16 =
      adcHighNibble cpu.A val (carryIn cpu.P) % 16 := by omega
  have hr : (16 * adcHighNibble cpu.A val (carryIn cpu.P) +
      adcLowNibble cpu.A val (carryIn cpu.P) % 16) % 256 % 16 =
      adcLowNibble cpu.A val (carryIn cpu.P) % 16 := by omega
  rw [hq, hr]
  obtain ⟨g1, g2, g3, _⟩ := bcd_add_arith (cpu.A / 16) (cpu.A % 16) (val / 16) (val % 16)
    (carryIn cpu.P) _ _ _ hbA.1 hbA.2 hbv.1 hbv.2 hc hl hh0 hh
  exact ⟨⟨g1, g2⟩, g3⟩

theorem sbc_dec_value (cpu : m6502_state_t) (val : Nat) (hA : cpu.A < 256) (hv : val < 256)
    (hmode : decimalMode cpu) (hbA : validBCD cpu.A) (hbv : validBCD val) :
    (_m6502_sbc cpu val).A < 256 ∧ validBCD (_m6502_sbc cpu val).A ∧
    ((dec (_m6502_sbc cpu val).A : Nat) : Int) =
      ((dec cpu.A : Int) - (dec val : Int) - ((borrowIn cpu.P : Nat) : Int)) % 100 := by
  have hc := carryIn_le cpu.P
  have hbe := borrowIn_eq cpu.P
  have hb : borrowIn cpu.P ≤ 1 := by omega
  have hAr := sbc_dec_A cpu val hmode
  have hl := sbcLowNibble_eq cpu.A val (borrowIn cpu.P) hb
  have hh := sbcHighNibble_eq cpu.A val (borrowIn cpu.P) hA hv hb
  unfold validBCD at hbA hbv
  rw [shr4, and_15] at hbA hbv
  refine ⟨by rw [hAr]; exact Nat.mod_lt _ (by decide), ?_⟩
  unfold validBCD dec
  simp only [shr4, and_15, hAr]
  have hq : (16 * sbcHighNibble cpu.A val (borrowIn cpu.P) +
      sbcLowNibble cpu.A val (borrowIn cpu.P) % 16) % 256 / 16 =
      sbcHighNibble cpu.A val (borrowIn cpu.P) % 16 := by omega
  have hr : (16 * sbcHighNibble cpu.A val (borrowIn cpu.P) +
      sbcLowNibble cpu.A val (borrowIn cpu.P) % 16) % 256 % 16 =
      sbcLowNibble cpu.A val (borrowIn cpu.P) % 16 := by omega
  rw [hq, hr]
  obtain ⟨g1, g2, g3, _⟩ := bcd_sub_arith (cpu.A / 16) (cpu.A % 16) (val / 16) (val % 16)
    (borrowIn cpu.P) _ _ hbA.1 hbA.2 hbv.1 hbv.2 hb hl hh
  exact ⟨⟨g1, g2⟩, g3⟩

theorem validBCD_lt {x : Nat} (h : validBCD x) : x < 256 := by
  unfold validBCD at h
  rw [shr4] at h
  omega

theorem bcd_eq_of_dec_eq {x y : Nat} (hx : validBCD x) (hy : validBCD y)
    (h : dec x = dec y) : x = y := by
  unfold validBCD at hx hy
  unfold dec at h
  rw [shr4, and_15] at hx hy h
  rw [shr4, and_15] at h
  omega

theorem or_CF_carry (p : Nat) : carryIn (p ||| M6502_CF) = 1 := by
  have h : flagSet (p ||| M6502_CF) M6502_CF := by
    rw [flagSet_CF, Nat.testBit_or, tb_CF]
    simp
  unfold carryIn
  exact if_pos h

theorem or_CF_decimal (p : Nat) : flagSet (p ||| M6502_CF) M6502_DF ↔ flagSet p M6502_DF := by
  rw [flagSet_DF, flagSet_DF, Nat.testBit_or, tb_CF]
  simp

theorem sbc_undoes_adc (s : m6502_state_t) (v a : Nat) (hmode : decimalMode s)
    (hcar : carryIn s.P = 1) (hbs : validBCD s.A) (hbv : validBCD v) (hba : validBCD a)
    (hd : dec s.A = (dec a + dec v) % 100) : (_m6502_sbc s v).A = a := by
  obtain ⟨_, b2, b3⟩ := sbc_dec_value s v (validBCD_lt hbs) (validBCD_lt hbv) hmode hbs hbv
  apply bcd_eq_of_dec_eq b2 hba
  have hb0 : borrowIn s.P = 0 := by
    rw [borrowIn_eq, hcar]
  rw [hb0] at b3
  have hdA : dec a ≤ 99 := by
    unfold validBCD at hba
    unfold dec
    omega
  have hdv : dec v ≤ 99 := by
    unfold validBCD at hbv
    unfold dec
    omega
  generalize dec (_m6502_sbc s v).A = r at b3 ⊢
  generalize dec s.A = m at hd b3
  generalize dec a = x at hd hdA ⊢
  generalize dec v = y at hd hdv b3
  omega

/-- C37: in decimal mode, on a valid packed-BCD accumulator and a valid packed-BCD
operand `v`, `_m6502_adc(v)` run with the carry flag clear followed by `_m6502_sbc(v)`
run with the carry flag set restores the accumulator. -/
theorem adc_sbc_decimal_roundtrip (cpu : m6502_state_t) (v : Nat) (hP : cpu.P < 256)
    (hmode : decimalMode cpu) (hc : ¬ flagSet cpu.P M6502_CF)
    (hbA : validBCD cpu.A) (hbv : validBCD v) :
    (_m6502_sbc { _m6502_adc cpu v with P := (_m6502_adc cpu v).P ||| M6502_CF } v).A =
      cpu.A := by
  obtain ⟨_, a2, a3⟩ :=
    adc_dec_value cpu v (validBCD_lt hbA) (validBCD_lt hbv) hmode hbA hbv
  have hc0 : carryIn cpu.P = 0 := by
    unfold carryIn
    exact if_neg hc
  rw [hc0, Nat.add_zero] at a3
  have hen : (_m6502_adc cpu v).bcd_enabled = cpu.bcd_enabled := by
    rw [adc_eq_update]
  have hD : flagSet (_m6502_adc cpu v).P M6502_DF :=
    (flagD_of_bits (adc_dec_bits cpu v hP hmode)).mpr hmode.2
  exact sbc_undoes_adc _ v cpu.A ⟨hen.trans hmode.1, (or_CF_decimal _).mpr hD⟩
    (or_CF_carry _) a2 hbv hbA a3

theorem adc_sbc_decimal_roundtrip_witness :
    (roundTripExample.P < 256 ∧ decimalMode roundTripExample ∧
      ¬ flagSet roundTripExample.P M6502_CF ∧ validBCD roundTripExample.A ∧ validBCD 0x47) ∧
    (_m6502_adc roundTripExample 0x47).A = 0x35 ∧
    (_m6502_sbc { _m6502_adc roundTripExample 0x47 with
        P := (_m6502_adc roundTripExample 0x47).P ||| M6502_CF } 0x47).A = roundTripExample.A :=
  ⟨by decide, by decide,
    adc_sbc_decimal_roundtrip roundTripExample 0x47 (by decide) (by decide) (by decide)
      (by decide) (by decide)⟩

/-! ## The invariant of the combined port value -/

theorem portInv_init {W : Type} (c0 : m6502_t W) (desc : m6502_desc_t W) (c : m6502_t W)
    (h : m6502_init c0 desc = some c) : portInv c := by
  unfold m6502_init at h
  cases ht : desc.tick_cb with
  | none => rw [ht] at h; simp at h
  | some tick =>
    rw [ht] at h
    simp only [Option.some.injEq] at h
    subst h
    exact ⟨show (0 : Nat) < 256 by decide, show (0 : Nat) < 256 by decide,
      show (0 : Nat) < 256 by decide,
      show (0 : Nat) = (0 &&& 0) ||| (0 &&& not8 0) by decide⟩

theorem portInv_reset {W : Type} (c : m6502_t W) (h : Host W) (c' : m6502_t W) (h' : Host W)
    (hr : m6502_reset c h = some (c', h')) : portInv c' := by
  unfold m6502_reset at hr
  cases ht : c.tick_cb with
  | none => rw [ht] at hr; simp at hr
  | some tick =>
    rw [ht] at hr
    simp only [Option.some.injEq, Prod.mk.injEq] at hr
    obtain ⟨hc, _⟩ := hr
    subst hc
    exact ⟨show (0 : Nat) < 256 by decide, show (0 : Nat) < 256 by decide,
      show (0 : Nat) < 256 by decide,
      show (0 : Nat) = (0 &&& 0) ||| (0 &&& not8 0) by decide⟩

theorem portInv_iorq {W : Type} (c : m6502_t W) (pins : Nat) (h : Host W) (pins' : Nat)
    (c' : m6502_t W) (h' : Host W) (hi : portInv c)
    (hr : m6510_iorq c pins h = some (pins', c', h')) : portInv c' := by
  obtain ⟨i1, i2, i3, i4⟩ := hi
  cases hin : c.in_cb with
  | none => simp [m6510_iorq, hin] at hr
  | some in_cb =>
    cases hout : c.out_cb with
    | none => simp [m6510_iorq, hin, hout] at hr
    | some out_cb =>
      by_cases hA0 : pins &&& M6502_A0 = 0
      · by_cases hRW : pins &&& M6502_RW = 0
        · rw [iorq_ddr_write_eq c pins h in_cb out_cb hin hout hA0 hRW] at hr
          simp only [Option.some.injEq, Prod.mk.injEq] at hr
          obtain ⟨_, hc, _⟩ := hr
          subst hc
          exact ⟨get_data_lt pins, i2, i3, rfl⟩
        · rw [iorq_ddr_read_eq c pins h in_cb out_cb hin hout hA0 hRW] at hr
          simp only [Option.some.injEq, Prod.mk.injEq] at hr
          obtain ⟨_, hc, _⟩ := hr
          subst hc
          exact ⟨i1, i2, i3, i4⟩
      · by_cases hRW : pins &&& M6502_RW = 0
        · rw [iorq_port_write_eq c pins h in_cb out_cb hin hout i1 hA0 hRW] at hr
          simp only [Option.some.injEq, Prod.mk.injEq] at hr
          obtain ⟨_, hc, _⟩ := hr
          subst hc
          exact ⟨i1, get_data_lt pins, i3, rfl⟩
        · rw [iorq_port_read_eq c pins h in_cb out_cb hin hout i1 hA0 hRW] at hr
          simp only [Option.some.injEq, Prod.mk.injEq] at hr
          obtain ⟨_, hc, _⟩ := hr
          subst hc
          exact ⟨i1, i2, Nat.mod_lt _ (by decide), rfl⟩

theorem portInv_of_reachable {W : Type} (c : m6502_t W) (hr : Reachable c) : portInv c := by
  induction hr with
  | init c0 desc c h => exact portInv_init c0 desc c h
  | reset c h c' h' _ hres _ => exact portInv_reset c h c' h' hres
  | iorq c pins h pins' c' h' _ hio ih => exact portInv_iorq c pins h pins' c' h' ih hio
  | set_a c v _ ih => exact ih
  | set_x c v _ ih => exact ih
  | set_y c v _ ih => exact ih
  | set_s c v _ ih => exact ih
  | set_p c v _ ih => exact ih
  | set_pc c v _ ih => exact ih
  | trap_cb c cb ud _ ih => exact ih
  | adc c v _ ih => exact ih
  | sbc c v _ ih => exact ih
  | arr c _ ih => exact ih

/-- C36: on every CPU object reached from `m6502_init` by any sequence of
`m6502_reset`, `m6510_iorq` accesses, register setters, `m6502_trap_cb` and ALU
primitives, `io_pins = (io_out & io_ddr) | (io_inp & ~io_ddr)`; in particular the
equation holds after a read of the direction register made on such an object. -/
theorem port_pins_invariant {W : Type} (c : m6502_t W) (hr : Reachable c) :
    c.io_pins = combinedPins c ∧
    ∀ pins h pins' c' h', pins &&& M6502_A0 = 0 → pins &&& M6502_RW ≠ 0 →
      m6510_iorq c pins h = some (pins', c', h') → c'.io_pins = combinedPins c' :=
  ⟨(portInv_of_reachable c hr).2.2.2, fun pins h pins' c' h' _ _ hio =>
    (portInv_of_reachable c' (Reachable.iorq c pins h pins' c' h' hr hio)).2.2.2⟩

theorem port_pins_invariant_witness :
    Reachable portExampleCpu ∧
    (portExampleCpu.io_pins = 0xA5 ∧ combinedPins portExampleCpu = 0xA5) ∧
    (portExampleCpu.io_pins = combinedPins portExampleCpu ∧
    ∀ pins h pins' c' h', pins &&& M6502_A0 = 0 → pins &&& M6502_RW ≠ 0 →
      m6510_iorq portExampleCpu pins h = some (pins', c', h') →
      c'.io_pins = combinedPins c') :=
  have r0 := Reachable.init exampleCpu exampleDesc _ rfl
  have r1 := Reachable.iorq _ 0x2F0000 exampleHost _ _ _ r0 rfl
  have r2 := Reachable.iorq _ 0x250001 exampleHost _ _ _ r1 rfl
  have r3 := Reachable.iorq _ 0x1000001 exampleHost _ _ _ r2 rfl
  have r4 : Reachable portExampleCpu :=
    Reachable.iorq _ 0x1000000 exampleHost _ portExampleCpu _ r3 rfl
  ⟨r4, ⟨rfl, by decide⟩, port_pins_invariant portExampleCpu r4⟩

theorem portExampleCpu_reachable : Reachable portExampleCpu :=
  have r0 := Reachable.init exampleCpu exampleDesc _ rfl
  have r1 := Reachable.iorq _ 0x2F0000 exampleHost _ _ _ r0 rfl
  have r2 := Reachable.iorq _ 0x250001 exampleHost _ _ _ r1 rfl
  have r3 := Reachable.iorq _ 0x1000001 exampleHost _ _ _ r2 rfl
  Reachable.iorq _ 0x1000000 exampleHost _ portExampleCpu _ r3 rfl

theorem iorq_returns {W : Type} (c : m6502_t W) (pins : Nat) (h : Host W)
    (in_cb : Nat → W → Nat × W) (out_cb : Nat → Nat → W → W)
    (hin : c.in_cb = some in_cb) (hout : c.out_cb = some out_cb) :
    ∃ r, m6510_iorq c pins h = some r := by
  unfold m6510_iorq
  rw [hin, hout]
  simp only
  split_ifs <;> exact ⟨_, rfl⟩

/-- C25: on every CPU object the code can reach (from `m6502_init` by `m6502_reset`,
`m6510_iorq` accesses, register setters, `m6502_trap_cb` and ALU primitives) with both
port callbacks set, an access through `m6510_iorq` with any pin word, hence of each
of the four kinds, returns, and after it `io_pins` equals
`(io_out & io_ddr) | (io_inp & ~io_ddr)` computed on the state after the access. -/
theorem iorq_pins_recomputed {W : Type} (c : m6502_t W) (hr : Reachable c) (pins : Nat)
    (h : Host W) (in_cb : Nat → W → Nat × W) (out_cb : Nat → Nat → W → W)
    (hin : c.in_cb = some in_cb) (hout : c.out_cb = some out_cb) :
    ∃ pins' c' h', m6510_iorq c pins h = some (pins', c', h') ∧
      c'.io_pins = combinedPins c' := by
  obtain ⟨⟨pins', c', h'⟩, e⟩ := iorq_returns c pins h in_cb out_cb hin hout
  exact ⟨pins', c', h', e,
    (portInv_of_reachable c' (Reachable.iorq c pins h pins' c' h' hr e)).2.2.2⟩

theorem iorq_pins_recomputed_witness :
    (Reachable portExampleCpu ∧ portExampleCpu.in_cb = some memIn ∧
      portExampleCpu.out_cb = some memOut) ∧
    (m6510_iorq portExampleCpu 0x1000000 zeroHost).map
      (fun r => (r.2.1.io_pins, combinedPins r.2.1)) = some (0xA5, 0xA5) ∧
    (m6510_iorq portExampleCpu 0x1000001 zeroHost).map
      (fun r => (r.2.1.io_pins, combinedPins r.2.1)) = some (0x25, 0x25) ∧
    (m6510_iorq portExampleCpu 0xF00000 zeroHost).map
      (fun r => (r.2.1.io_pins, combinedPins r.2.1)) = some (0x21, 0x21) ∧
    (m6510_iorq portExampleCpu 0x5A0001 zeroHost).map
      (fun r => (r.2.1.io_pins, combinedPins r.2.1)) = some (0x8A, 0x8A) ∧
    (∃ pins' c' h', m6510_iorq portExampleCpu 0x1000000 zeroHost = some (pins', c', h') ∧
      c'.io_pins = combinedPins c') :=
  ⟨⟨portExampleCpu_reachable, rfl, rfl⟩, by decide, by decide, by decide, by decide,
    iorq_pins_recomputed portExampleCpu portExampleCpu_reachable 0x1000000 zeroHost memIn memOut
      rfl rfl⟩

/-! ## The RDY wait-state rule -/

theorem readWord_RDY (pins addr : Nat) (sync : Bool) : readWord pins addr sync &&& M6502_RDY = 0 := by
  have h : ¬ (readWord pins addr sync &&& M6502_RDY ≠ 0) := by
    rw [flagSet_RDY]
    unfold readWord
    cases sync <;>
      simp [Nat.testBit_and, Nat.testBit_or, tb_not64, tb_RW, tb_RDY, tb_SYNC]
  exact Classical.not_not.mp h

theorem readWord_addr (pins addr : Nat) (sync : Bool) :
    M6502_GET_ADDR (readWord pins addr sync) = addr % 65536 := by
  apply Nat.eq_of_testBit_eq
  intro i
  rw [get_addr_testBit, Nat.testBit_mod_two_pow addr 16 i]
  by_cases h16 : i < 16
  · have h24 : ¬ 24 = i := by omega
    have h25 : ¬ 25 = i := by omega
    have h28 : ¬ 28 = i := by omega
    have h64 : i < 64 := by omega
    unfold readWord
    cases sync <;>
      simp [Nat.testBit_and, Nat.testBit_or, tb_not64, tb_RW, tb_RDY, tb_SYNC,
        set_addr_testBit, h16, h24, h25, h28, h64]
  · simp [h16]

theorem writeWord_RW (pins addr data : Nat) : writeWord pins addr data &&& M6502_RW = 0 := by
  have h : ¬ (writeWord pins addr data &&& M6502_RW ≠ 0) := by
    rw [flagSet_RW]
    unfold writeWord
    simp [Nat.testBit_and, tb_not64, tb_RW, tb_SYNC]
  exact Classical.not_not.mp h

theorem readCycle_succ {W : Type} (tick : Nat → Nat → W → Nat × W) (ud addr : Nat)
    (sync : Bool) (w : Nat) (s : ExecState W) :
    readCycle tick ud addr sync (w + 1) s =
      if (readTick tick ud addr sync s).pins &&& M6502_RDY ≠ 0
      then readCycle tick ud addr sync w (readTick tick ud addr sync s)
      else some (readTick tick ud addr sync s) := by
  rw [readCycle]
  rfl

theorem readCycle_iff {W : Type} (tick : Nat → Nat → W → Nat × W) (ud addr : Nat)
    (sync : Bool) (wait : Nat) :
    ∀ (s s' : ExecState W), readCycle tick ud addr sync wait s = some s' ↔
      ∃ k, k < wait ∧ s' = (readTick tick ud addr sync)^[k + 1] s ∧
        (∀ j, j < k → ((readTick tick ud addr sync)^[j + 1] s).pins &&& M6502_RDY ≠ 0) ∧
        ((readTick tick ud addr sync)^[k + 1] s).pins &&& M6502_RDY = 0 := by
  induction wait with
  | zero =>
    intro s s'
    constructor
    · intro h; simp [readCycle] at h
    · rintro ⟨k, hk, _⟩; omega
  | succ w ih =>
    intro s s'
    rw [readCycle_succ]
    by_cases hr : (readTick tick ud addr sync s).pins &&& M6502_RDY ≠ 0
    · rw [if_pos hr, ih]
      constructor
      · rintro ⟨k, hk, e, hset, hclr⟩
        refine ⟨k + 1, by omega, ?_, ?_, ?_⟩
        · rw [e, Function.iterate_succ_apply (readTick tick ud addr sync) (k + 1)]
        · intro j hj
          cases j with
          | zero => exact hr
          | succ j =>
            rw [Function.iterate_succ_apply (readTick tick ud addr sync) (j + 1)]
            exact hset j (by omega)
        · rw [Function.iterate_succ_apply (readTick tick ud addr sync) (k + 1)]
          exact hclr
      · rintro ⟨k, hk, e, hset, hclr⟩
        cases k with
        | zero => exact absurd hclr hr
        | succ k =>
          refine ⟨k, by omega, ?_, ?_, ?_⟩
          · rw [e, Function.iterate_succ_apply (readTick tick ud addr sync) (k + 1)]
          · intro j hj
            have := hset (j + 1) (by omega)
            rw [Function.iterate_succ_apply (readTick tick ud addr sync) (j + 1)] at this
            exact this
          · rw [Function.iterate_succ_apply (readTick tick ud addr sync) (k + 1)] at hclr
            exact hclr
    · rw [if_neg hr]
      have hclr0 : (readTick tick ud addr sync s).pins &&& M6502_RDY = 0 :=
        Classical.not_not.mp hr
      constructor
      · intro h
        injection h with h
        subst h
        exact ⟨0, by omega, rfl, fun j hj => absurd hj (Nat.not_lt_zero j), hclr0⟩
      · rintro ⟨k, hk, e, hset, hclr⟩
        cases k with
        | zero => rw [e]; rfl
        | succ k => exact absurd (hset 0 (by omega)) hr

theorem ticksOnly_refl {W : Type} (ud : Nat) (s : ExecState W) : TicksOnly ud s s :=
  ⟨[], (List.append_nil _).symm, fun c hc => absurd hc (List.not_mem_nil c)⟩

theorem ticksOnly_trans {W : Type} {ud : Nat} {a b c : ExecState W} (h1 : TicksOnly ud a b)
    (h2 : TicksOnly ud b c) : TicksOnly ud a c := by
  obtain ⟨n1, e1, t1⟩ := h1
  obtain ⟨n2, e2, t2⟩ := h2
  refine ⟨n1 ++ n2, ?_, ?_⟩
  · rw [e2, e1, List.append_assoc]
  · intro x hx
    rcases List.mem_append.mp hx with hx | hx
    · exact t1 x hx
    · exact t2 x hx

theorem ticksOnly_one {W : Type} (ud word : Nat) (s s' : ExecState W)
    (hc : s'.host.calls = s.host.calls ++ [Call.tick word ud])
    (hw : word &&& M6502_RW ≠ 0 → word &&& M6502_RDY = 0) : TicksOnly ud s s' := by
  refine ⟨[Call.tick word ud], hc, ?_⟩
  intro c hc
  rw [List.mem_singleton] at hc
  exact ⟨word, hc, hw⟩

theorem readTick_ticksOnly {W : Type} (tick : Nat → Nat → W → Nat × W) (ud addr : Nat)
    (sync : Bool) (s : ExecState W) : TicksOnly ud s (readTick tick ud addr sync s) :=
  ticksOnly_one ud (readWord s.pins addr sync) s _ rfl (fun _ => readWord_RDY _ _ _)

theorem readTicks_ticksOnly {W : Type} (tick : Nat → Nat → W → Nat × W) (ud addr : Nat)
    (sync : Bool) (n : Nat) :
    ∀ s : ExecState W, TicksOnly ud s ((readTick tick ud addr sync)^[n] s) := by
  induction n with
  | zero => intro s; exact ticksOnly_refl ud s
  | succ n ih =>
    intro s
    rw [Function.iterate_succ_apply]
    exact ticksOnly_trans (readTick_ticksOnly tick ud addr sync s) (ih _)

theorem readCycle_ticksOnly {W : Type} (tick : Nat → Nat → W → Nat × W) (ud addr : Nat)
    (sync : Bool) (wait : Nat) (s s' : ExecState W)
    (h : readCycle tick ud addr sync wait s = some s') : TicksOnly ud s s' := by
  obtain ⟨k, _, e, _, _⟩ := (readCycle_iff tick ud addr sync wait s s').mp h
  rw [e]
  exact readTicks_ticksOnly tick ud addr sync (k + 1) s

theorem readCycle_first {W : Type} (tick : Nat → Nat → W → Nat × W) (ud addr : Nat)
    (sync : Bool) (wait : Nat) (s s' : ExecState W)
    (h : readCycle tick ud addr sync wait s = some s') :
    TicksOnly ud (readTick tick ud addr sync s) s' := by
  obtain ⟨k, _, e, _, _⟩ := (readCycle_iff tick ud addr sync wait s s').mp h
  rw [e, Function.iterate_succ_apply]
  exact readTicks_ticksOnly tick ud addr sync k _

theorem writeCycle_ticksOnly {W : Type} (tick : Nat → Nat → W → Nat × W) (ud addr data : Nat)
    (s : ExecState W) : TicksOnly ud s (writeCycle tick ud addr data s) :=
  ticksOnly_one ud (writeWord s.pins addr data) s _ rfl
    (fun h => absurd (writeWord_RW s.pins addr data) h)

theorem runCycles_ticksOnly {W : Type} (tick : Nat → Nat → W → Nat × W) (ud wait : Nat)
    (cyc : Cycles) :
    ∀ (s s' : ExecState W), runCycles tick ud wait cyc s = some s' → TicksOnly ud s s' := by
  induction cyc with
  | retire st =>
    intro s s' h
    simp only [runCycles, Option.some.injEq] at h
    subst h
    exact ⟨[], (List.append_nil _).symm, fun c hc => absurd hc (List.not_mem_nil c)⟩
  | read addr next ih =>
    intro s s' h
    rw [runCycles] at h
    cases hrd : readCycle tick ud addr false wait s with
    | none => rw [hrd] at h; simp at h
    | some s1 =>
      rw [hrd] at h
      exact ticksOnly_trans (readCycle_ticksOnly tick ud addr false wait s s1 hrd) (ih _ _ _ h)
  | write addr data next ih =>
    intro s s' h
    rw [runCycles] at h
    exact ticksOnly_trans (writeCycle_ticksOnly tick ud addr data s) (ih _ _ h)

/-- An instruction starts with the opcode fetch at the program counter, with the
opcode-fetch marker, and makes tick invocations only. -/
theorem execInstr_ticksOnly {W : Type} (tbl : DecodeTable) (tick : Nat → Nat → W → Nat × W)
    (ud wait : Nat) (s s' : ExecState W) (h : execInstr tbl tick ud wait s = some s') :
    TicksOnly ud (readTick tick ud s.st.PC true s) s' ∧ TicksOnly ud s s' := by
  unfold execInstr at h
  cases hrd : readCycle tick ud s.st.PC true wait s with
  | none => rw [hrd] at h; simp at h
  | some s1 =>
    rw [hrd] at h
    have a1 := readCycle_first tick ud s.st.PC true wait s s1 hrd
    simp only at h
    cases hrun : runCycles tick ud wait
        (tbl.instr (M6502_GET_DATA s1.pins) { s1.st with PC := (s1.st.PC + 1) % 65536 })
        { s1 with st := { s1.st with PC := (s1.st.PC + 1) % 65536 } } with
    | none => rw [hrun] at h; simp at h
    | some s2 =>
      rw [hrun] at h
      have b1 := runCycles_ticksOnly tick ud wait _ _ _ hrun
      have b1' : TicksOnly ud s1 s2 := b1
      have a12 : TicksOnly ud (readTick tick ud s.st.PC true s) s2 := ticksOnly_trans a1 b1'
      simp only at h
      cases hint : tbl.interrupt s.pins s2.pins s2.st with
      | none =>
        rw [hint] at h
        injection h with h
        subst h
        exact ⟨a12, ticksOnly_trans (readTick_ticksOnly tick ud s.st.PC true s) a12⟩
      | some cyc =>
        rw [hint] at h
        have c1 := runCycles_ticksOnly tick ud wait _ _ _ h
        exact ⟨ticksOnly_trans a12 c1,
          ticksOnly_trans (readTick_ticksOnly tick ud s.st.PC true s) (ticksOnly_trans a12 c1)⟩

theorem trapCalls_append (a b : List Call) : trapCalls (a ++ b) = trapCalls a ++ trapCalls b := by
  unfold trapCalls
  exact List.filter_append a b

theorem trapCalls_of_ticksOnly {ud : Nat} (new : List Call)
    (h : ∀ c, c ∈ new → ∃ p, c = Call.tick p ud ∧ (p &&& M6502_RW ≠ 0 → p &&& M6502_RDY = 0)) :
    trapCalls new = [] := by
  unfold trapCalls
  rw [List.filter_eq_nil_iff]
  intro c hc
  obtain ⟨p, e, _⟩ := h c hc
  rw [e]
  simp

theorem readCycle_mono {W : Type} (tick : Nat → Nat → W → Nat × W) (ud addr : Nat)
    (sync : Bool) {w w' : Nat} (hw : w ≤ w') (s s' : ExecState W)
    (h : readCycle tick ud addr sync w s = some s') :
    readCycle tick ud addr sync w' s = some s' := by
  rw [readCycle_iff] at h ⊢
  obtain ⟨k, hk, rest⟩ := h
  exact ⟨k, Nat.lt_of_lt_of_le hk hw, rest⟩

theorem runCycles_mono {W : Type} (tick : Nat → Nat → W → Nat × W) (ud : Nat)
    {w w' : Nat} (hw : w ≤ w') (cyc : Cycles) :
    ∀ (s s' : ExecState W), runCycles tick ud w cyc s = some s' →
      runCycles tick ud w' cyc s = some s' := by
  induction cyc with
  | retire st => intro s s' h; exact h
  | read addr next ih =>
    intro s s' h
    rw [runCycles] at h ⊢
    cases hrd : readCycle tick ud addr false w s with
    | none => rw [hrd] at h; simp at h
    | some s1 =>
      rw [hrd] at h
      rw [readCycle_mono tick ud addr false hw s s1 hrd]
      exact ih _ _ _ h
  | write addr data next ih =>
    intro s s' h
    rw [runCycles] at h ⊢
    exact ih _ _ h

theorem execInstr_mono {W : Type} (tbl : DecodeTable) (tick : Nat → Nat → W → Nat × W)
    (ud : Nat) {w w' : Nat} (hw : w ≤ w') (s s' : ExecState W)
    (h : execInstr tbl tick ud w s = some s') : execInstr tbl tick ud w' s = some s' := by
  unfold execInstr at h ⊢
  cases hrd : readCycle tick ud s.st.PC true w s with
  | none => rw [hrd] at h; simp at h
  | some s1 =>
    rw [hrd] at h
    rw [readCycle_mono tick ud s.st.PC true hw s s1 hrd]
    simp only at h ⊢
    cases hrun : runCycles tick ud w
        (tbl.instr (M6502_GET_DATA s1.pins) { s1.st with PC := (s1.st.PC + 1) % 65536 })
        { s1 with st := { s1.st with PC := (s1.st.PC + 1) % 65536 } } with
    | none => rw [hrun] at h; simp at h
    | some s2 =>
      rw [hrun] at h
      rw [runCycles_mono tick ud hw _ _ _ hrun]
      simp only at h ⊢
      cases hint : tbl.interrupt s.pins s2.pins s2.st with
      | none =>
        rw [hint] at h
        exact h
      | some cyc =>
        rw [hint] at h
        exact runCycles_mono tick ud hw _ _ _ h

theorem execLoop_mono {W : Type} (tbl : DecodeTable) (tick : Nat → Nat → W → Nat × W)
    (trap : Option (Nat → Int → Nat → Nat → W → Int × W)) (ud tud : Nat) {w w' : Nat}
    (hw : w ≤ w') (n k : Nat) :
    ∀ (s : ExecState W) (r : ExecState W × Option Int),
      execLoop tbl tick trap ud tud w n k s = some r →
      execLoop tbl tick trap ud tud w' n k s = some r := by
  induction k with
  | zero => intro s r h; exact h
  | succ k ih =>
    intro s r h
    rw [execLoop] at h ⊢
    split_ifs at h ⊢ with hlt
    · cases hi : execInstr tbl tick ud w s with
      | none => rw [hi] at h; simp at h
      | some s1 =>
        rw [hi] at h
        rw [execInstr_mono tbl tick ud hw s s1 hi]
        simp only at h ⊢
        cases ht : (trapHook trap tud s1).2 with
        | some v =>
          rw [ht] at h
          exact h
        | none =>
          rw [ht] at h
          exact ih _ _ h
    · exact h

theorem exec_mono {W : Type} (tbl : DecodeTable) (cpu : m6502_t W) (n : Nat) (h : Host W)
    {w w' : Nat} (hw : w ≤ w') (r : Nat × m6502_t W × Host W)
    (hex : m6502_exec tbl w cpu n h = some r) : m6502_exec tbl w' cpu n h = some r := by
  unfold m6502_exec at hex ⊢
  cases hrun : m6502_exec_run tbl w cpu n h with
  | none => rw [hrun] at hex; simp at hex
  | some q =>
    rw [hrun] at hex
    have hrun' : m6502_exec_run tbl w' cpu n h = some q := by
      unfold m6502_exec_run at hrun ⊢
      cases ht : cpu.tick_cb with
      | none => rw [ht] at hrun; simp at hrun
      | some tick =>
        rw [ht] at hrun
        exact execLoop_mono tbl tick cpu.trap_cb cpu.user_data cpu.trap_user_data hw n n _ q hrun
    rw [hrun']
    exact hex

theorem readCycle_of_clear {W : Type} (tick : Nat → Nat → W → Nat × W) (ud addr : Nat)
    (sync : Bool) (k : Nat) :
    ∀ s : ExecState W, ((readTick tick ud addr sync)^[k + 1] s).pins &&& M6502_RDY = 0 →
      ∃ s', readCycle tick ud addr sync (k + 1) s = some s' := by
  induction k with
  | zero =>
    intro s hc
    rw [readCycle_succ]
    have hc' : (readTick tick ud addr sync s).pins &&& M6502_RDY = 0 := hc
    rw [if_neg (by simp [hc'])]
    exact ⟨_, rfl⟩
  | succ k ih =>
    intro s hc
    rw [readCycle_succ]
    by_cases hr : (readTick tick ud addr sync s).pins &&& M6502_RDY ≠ 0
    · rw [if_pos hr]
      rw [Function.iterate_succ_apply (readTick tick ud addr sync) (k + 1)] at hc
      exact ih _ hc
    · rw [if_neg hr]
      exact ⟨_, rfl⟩

theorem readCycle_ends {W : Type} (tick : Nat → Nat → W → Nat × W) (ud : Nat)
    (he : readsEnd tick ud) (addr : Nat) (sync : Bool) (s : ExecState W) :
    ∃ wait s', readCycle tick ud addr sync wait s = some s' := by
  obtain ⟨k, hk⟩ := he addr sync s
  exact ⟨k + 1, readCycle_of_clear tick ud addr sync k s hk⟩

theorem runCycles_ends {W : Type} (tick : Nat → Nat → W → Nat × W) (ud : Nat)
    (he : readsEnd tick ud) (cyc : Cycles) :
    ∀ s : ExecState W, ∃ wait s', runCycles tick ud wait cyc s = some s' := by
  induction cyc with
  | retire st => intro s; exact ⟨0, _, rfl⟩
  | read addr next ih =>
    intro s
    obtain ⟨w1, s1, h1⟩ := readCycle_ends tick ud he addr false s
    obtain ⟨w2, s2, h2⟩ := ih (M6502_GET_DATA s1.pins) s1
    refine ⟨max w1 w2, s2, ?_⟩
    rw [runCycles, readCycle_mono tick ud addr false (Nat.le_max_left w1 w2) s s1 h1]
    exact runCycles_mono tick ud (Nat.le_max_right w1 w2) _ _ _ h2
  | write addr data next ih =>
    intro s
    obtain ⟨w, s2, h2⟩ := ih (writeCycle tick ud addr data s)
    exact ⟨w, s2, by rw [runCycles]; exact h2⟩

theorem execInstr_ends {W : Type} (tbl : DecodeTable) (tick : Nat → Nat → W → Nat × W)
    (ud : Nat) (he : readsEnd tick ud) (s : ExecState W) :
    ∃ wait s', execInstr tbl tick ud wait s = some s' := by
  obtain ⟨w1, s1, h1⟩ := readCycle_ends tick ud he s.st.PC true s
  obtain ⟨w2, s2, h2⟩ := runCycles_ends tick ud he
    (tbl.instr (M6502_GET_DATA s1.pins) { s1.st with PC := (s1.st.PC + 1) % 65536 })
    { s1 with st := { s1.st with PC := (s1.st.PC + 1) % 65536 } }
  cases hint : tbl.interrupt s.pins s2.pins s2.st with
  | none =>
    refine ⟨max w1 w2, s2, ?_⟩
    unfold execInstr
    rw [readCycle_mono tick ud s.st.PC true (Nat.le_max_left w1 w2) s s1 h1]
    simp only
    rw [runCycles_mono tick ud (Nat.le_max_right w1 w2) _ _ _ h2]
    simp only
    rw [hint]
  | some cyc =>
    obtain ⟨w3, s3, h3⟩ := runCycles_ends tick ud he cyc s2
    refine ⟨max (max w1 w2) w3, s3, ?_⟩
    have l1 : w1 ≤ max (max w1 w2) w3 :=
      Nat.le_trans (Nat.le_max_left w1 w2) (Nat.le_max_left _ w3)
    have l2 : w2 ≤ max (max w1 w2) w3 :=
      Nat.le_trans (Nat.le_max_right w1 w2) (Nat.le_max_left _ w3)
    unfold execInstr
    rw [readCycle_mono tick ud s.st.PC true l1 s s1 h1]
    simp only
    rw [runCycles_mono tick ud l2 _ _ _ h2]
    simp only
    rw [hint]
    exact runCycles_mono tick ud (Nat.le_max_right _ w3) _ _ _ h3

theorem execLoop_ends {W : Type} (tbl : DecodeTable) (tick : Nat → Nat → W → Nat × W)
    (trap : Option (Nat → Int → Nat → Nat → W → Int × W)) (ud tud : Nat)
    (he : readsEnd tick ud) (n k : Nat) :
    ∀ s : ExecState W, ∃ wait r, execLoop tbl tick trap ud tud wait n k s = some r := by
  induction k with
  | zero => intro s; exact ⟨0, _, rfl⟩
  | succ k ih =>
    intro s
    by_cases hlt : s.ticks < n
    · obtain ⟨w1, s1, h1⟩ := execInstr_ends tbl tick ud he s
      cases ht : (trapHook trap tud s1).2 with
      | some v =>
        refine ⟨w1, ((trapHook trap tud s1).1, some v), ?_⟩
        rw [execLoop, if_pos hlt, h1]
        simp only
        rw [ht]
      | none =>
        obtain ⟨w2, r, h2⟩ := ih (trapHook trap tud s1).1
        refine ⟨max w1 w2, r, ?_⟩
        rw [execLoop, if_pos hlt,
          execInstr_mono tbl tick ud (Nat.le_max_left w1 w2) s s1 h1]
        simp only
        rw [ht]
        exact execLoop_mono tbl tick trap ud tud (Nat.le_max_right w1 w2) n k _ r h2
    · exact ⟨0, _, by rw [execLoop, if_neg hlt]⟩

theorem readCycle_held {W : Type} (tick : Nat → Nat → W → Nat × W) (hh : holdsRDY tick)
    (ud addr : Nat) (sync : Bool) (wait : Nat) :
    ∀ s : ExecState W, readCycle tick ud addr sync wait s = none := by
  induction wait with
  | zero => intro s; rfl
  | succ w ih =>
    intro s
    rw [readCycle_succ]
    have hr : (readTick tick ud addr sync s).pins &&& M6502_RDY ≠ 0 :=
      hh (readWord s.pins addr sync) ud s.host (readWord_RW _ _ _)
    rw [if_pos hr]
    exact ih _

theorem exec_held {W : Type} (tbl : DecodeTable) (wait : Nat) (cpu : m6502_t W) (n : Nat)
    (h : Host W) (tick : Nat → Nat → W → Nat × W) (ht : cpu.tick_cb = some tick)
    (hh : holdsRDY tick) (hn : 1 ≤ n) : m6502_exec tbl wait cpu n h = none := by
  obtain ⟨k, rfl⟩ : ∃ k, n = k + 1 := ⟨n - 1, by omega⟩
  have hrun : m6502_exec_run tbl wait cpu (k + 1) h = none := by
    unfold m6502_exec_run
    rw [ht]
    simp only
    rw [execLoop, if_pos (Nat.succ_pos k)]
    unfold execInstr
    rw [readCycle_held tick hh]
  unfold m6502_exec
  rw [hrun]
  rfl

theorem rdy_clear_iff (x : Nat) : x &&& M6502_RDY = 0 ↔ x.testBit 28 = false := by
  have h := flagSet_RDY x
  constructor
  · intro h0
    cases hb : x.testBit 28
    · rfl
    · exact absurd h0 (h.mpr hb)
  · intro hb
    by_contra hne
    have := h.mp hne
    rw [hb] at this
    exact Bool.false_ne_true this

theorem stuckTick_holdsRDY : holdsRDY stuckTick :=
  fun pins ud h _ => stuckTick_RDY pins ud h

theorem memTick_readsEnd (ud : Nat) : readsEnd memTick ud := by
  intro addr sync s
  refine ⟨0, ?_⟩
  show (callTick memTick (readWord s.pins addr sync) ud s.host).1 &&& M6502_RDY = 0
  have hw := (rdy_clear_iff _).mp (readWord_RDY s.pins addr sync)
  rw [rdy_clear_iff]
  simp only [callTick, memTick, if_pos (readWord_RW s.pins addr sync)]
  rw [Nat.testBit_mod_two_pow, set_data_testBit]
  simp [hw]

theorem slowTick_clear (ud addr : Nat) (sync : Bool) (m : Nat) :
    ∀ s : ExecState (Nat → Nat), s.host.world 0x10002 = m →
      ((readTick slowTick ud addr sync)^[m + 1] s).pins &&& M6502_RDY = 0 := by
  induction m with
  | zero =>
    intro s hm
    show (callTick slowTick (readWord s.pins addr sync) ud s.host).1 &&& M6502_RDY = 0
    have hw := (rdy_clear_iff _).mp (readWord_RDY s.pins addr sync)
    rw [rdy_clear_iff]
    simp only [callTick, slowTick, if_pos (readWord_RW s.pins addr sync), if_pos hm]
    rw [Nat.testBit_mod_two_pow, set_data_testBit]
    simp [hw]
  | succ m ih =>
    intro s hm
    rw [Function.iterate_succ_apply (readTick slowTick ud addr sync) (m + 1)]
    apply ih
    have hne : ¬ s.host.world 0x10002 = 0 := by omega
    simp only [readTick, callTick, slowTick, if_pos (readWord_RW s.pins addr sync), if_neg hne]
    simp [hm]

theorem slowTick_readsEnd (ud : Nat) : readsEnd slowTick ud :=
  fun addr sync s => ⟨s.host.world 0x10002, slowTick_clear ud addr sync _ s rfl⟩

/-- C30, refuted as stated: the CPU object `stuckCpu` is the result of `m6502_init`
and `m6502_reset` with a tick callback that answers every cycle with RDY set; on it
`m6502_exec(cpu, 1)` does not return, however many ticks the first read cycle is
allowed to wait. -/
theorem exec_stuck_counterexample :
    (m6502_init exampleCpu stuckDesc).bind (fun c => m6502_reset c exampleHost) =
      some (stuckCpu, resetHost) ∧
    ∀ wait, m6502_exec nopTable wait stuckCpu 1 resetHost = none :=
  ⟨rfl, fun wait => exec_held nopTable wait stuckCpu 1 resetHost stuckTick rfl
    stuckTick_holdsRDY (Nat.le_refl 1)⟩

/-- C30, amended: whenever `m6502_exec(cpu, n)` returns, the returned cycle count is
at least `n` unless a trap value ended the call, it equals the number of
tick-callback invocations made during the call, and the engine is at an instruction
boundary; the result does not depend on how long the read cycles were allowed to
wait.  The call returns when every read cycle ends, that is when the tick callback
releases RDY after finitely many ticks of a read; it does not return, for a budget of
at least one cycle, when the tick callback answers every read with RDY set. -/
theorem exec_cycle_count {W : Type} (tbl : DecodeTable) (cpu : m6502_t W)
    (n : Nat) (h : Host W) (tick : Nat → Nat → W → Nat × W) (ht : cpu.tick_cb = some tick) :
    (∀ wait count cpu' h', m6502_exec tbl wait cpu n h = some (count, cpu', h') →
      ∃ s trap, m6502_exec_run tbl wait cpu n h = some (s, trap) ∧
        count = s.ticks ∧ h' = s.host ∧
        (trap = none → n ≤ count) ∧
        (∃ new, h'.calls = h.calls ++ new ∧ tickCount new = count) ∧
        AtBoundary tbl tick cpu.trap_cb cpu.user_data cpu.trap_user_data wait
          { st := cpu.state, pins := cpu.state.PINS, ticks := 0, host := h } s) ∧
    (∀ wait wait' r, wait ≤ wait' → m6502_exec tbl wait cpu n h = some r →
      m6502_exec tbl wait' cpu n h = some r) ∧
    (readsEnd tick cpu.user_data → ∃ wait r, m6502_exec tbl wait cpu n h = some r) ∧
    (holdsRDY tick → 1 ≤ n → ∀ wait, m6502_exec tbl wait cpu n h = none) := by
  refine ⟨?_, fun wait wait' r hw hex => exec_mono tbl cpu n h hw r hex, ?_,
    fun hh hn wait => exec_held tbl wait cpu n h tick ht hh hn⟩
  · intro wait count cpu' h' hex
    unfold m6502_exec at hex
    cases hrun : m6502_exec_run tbl wait cpu n h with
    | none => rw [hrun] at hex; simp at hex
    | some r =>
      rw [hrun] at hex
      simp only [Option.map_some', Option.some.injEq, Prod.mk.injEq] at hex
      obtain ⟨hc, _, hh⟩ := hex
      have hloop := hrun
      unfold m6502_exec_run at hloop
      rw [ht] at hloop
      obtain ⟨⟨_, new, e1, e2⟩, b2, b3⟩ :=
        execLoop_spec tbl tick cpu.trap_cb cpu.user_data cpu.trap_user_data wait n n _ r hloop
      refine ⟨r.1, r.2, rfl, hc.symm, hh.symm, ?_, ⟨new, ?_, ?_⟩, b3 _ AtBoundary.start⟩
      · intro hn
        rw [← hc]
        exact b2 (by simp) hn
      · rw [← hh]; exact e1
      · rw [← hc]; simpa using e2
  · intro he
    obtain ⟨wait, r, hrr⟩ := execLoop_ends tbl tick cpu.trap_cb cpu.user_data
      cpu.trap_user_data he n n { st := cpu.state, pins := cpu.state.PINS, ticks := 0, host := h }
    have hrun : m6502_exec_run tbl wait cpu n h = some r := by
      unfold m6502_exec_run
      rw [ht]
      exact hrr
    refine ⟨wait, ?_⟩
    unfold m6502_exec
    rw [hrun]
    exact ⟨_, rfl⟩

theorem exec_cycle_count_witness :
    (m6502_init exampleCpu exampleDesc).bind (fun c => m6502_reset c exampleHost) =
      some (readyCpu, resetHost) ∧
    readyCpu.tick_cb = some memTick ∧
    (readsEnd memTick readyCpu.user_data ∧ readsEnd slowTick slowCpu.user_data) ∧
    (m6502_exec nopTable 1 readyCpu 5 resetHost).map
      (fun r => (r.1, tickCount r.2.2.calls - tickCount resetHost.calls, r.2.1.state.PC)) =
      some (6, 6, 0xC0E1) ∧
    (m6502_exec nopTable 3 slowCpu 5 slowHost).map
      (fun r => (r.1, tickCount r.2.2.calls, r.2.1.state.PC)) = some (6, 6, 0xC0E0) ∧
    ((∀ wait count cpu' h', m6502_exec nopTable wait readyCpu 5 resetHost =
        some (count, cpu', h') →
      ∃ s trap, m6502_exec_run nopTable wait readyCpu 5 resetHost = some (s, trap) ∧
        count = s.ticks ∧ h' = s.host ∧
        (trap = none → 5 ≤ count) ∧
        (∃ new, h'.calls = resetHost.calls ++ new ∧ tickCount new = count) ∧
        AtBoundary nopTable memTick readyCpu.trap_cb readyCpu.user_data
          readyCpu.trap_user_data wait
          { st := readyCpu.state, pins := readyCpu.state.PINS, ticks := 0,
            host := resetHost } s) ∧
    (∀ wait wait' r, wait ≤ wait' → m6502_exec nopTable wait readyCpu 5 resetHost = some r →
      m6502_exec nopTable wait' readyCpu 5 resetHost = some r) ∧
    (readsEnd memTick readyCpu.user_data →
      ∃ wait r, m6502_exec nopTable wait readyCpu 5 resetHost = some r) ∧
    (holdsRDY memTick → 1 ≤ 5 → ∀ wait, m6502_exec nopTable wait readyCpu 5 resetHost = none)) :=
  ⟨rfl, rfl, ⟨memTick_readsEnd _, slowTick_readsEnd _⟩, by decide, by decide,
    exec_cycle_count nopTable readyCpu 5 resetHost memTick rfl⟩

theorem flagSet_SYNC (p : Nat) : p &&& M6502_SYNC ≠ 0 ↔ p.testBit 25 = true :=
  and_two_pow_ne_zero p 25

theorem readWord_SYNC (pins addr : Nat) : readWord pins addr true &&& M6502_SYNC ≠ 0 := by
  rw [flagSet_SYNC]
  unfold readWord
  simp [Nat.testBit_and, Nat.testBit_or, tb_not64, tb_RW, tb_RDY, tb_SYNC]

theorem execInstr_fetch {W : Type} (tbl : DecodeTable) (tick : Nat → Nat → W → Nat × W)
    (ud wait : Nat) (s s' : ExecState W) (h : execInstr tbl tick ud wait s = some s') :
    ∃ rest, s'.host.calls = s.host.calls ++ Call.tick (readWord s.pins s.st.PC true) ud :: rest := by
  obtain ⟨new, e, _⟩ := (execInstr_ticksOnly tbl tick ud wait s s' h).1
  refine ⟨new, ?_⟩
  rw [e]
  show (s.host.calls ++ [Call.tick (readWord s.pins s.st.PC true) ud]) ++ new = _
  rw [List.append_assoc]
  rfl

theorem execLoop_trapRun {W : Type} (tbl : DecodeTable) (tick : Nat → Nat → W → Nat × W)
    (cb : Nat → Int → Nat → Nat → W → Int × W) (ud tud wait n : Nat) (k : Nat) :
    ∀ (s : ExecState W) (r : ExecState W × Option Int),
      execLoop tbl tick (some cb) ud tud wait n k s = some r →
      ∃ traps new, TrapRun tbl tick cb ud tud wait s traps r.1 r.2 ∧
        r.1.host.calls = s.host.calls ++ new ∧ trapCalls new = traps ∧
        (∀ v, r.2 = some v → v ≠ 0 ∧
          ∃ pre, new = pre ++ [Call.trap r.1.st.PC (r.1.ticks : Int) r.1.pins tud]) := by
  induction k with
  | zero =>
    intro s r h
    simp only [execLoop, Option.some.injEq] at h
    subst h
    exact ⟨[], [], TrapRun.done s, (List.append_nil _).symm, rfl, fun v hv => by cases hv⟩
  | succ k ih =>
    intro s r h
    rw [execLoop] at h
    split_ifs at h with hlt
    · cases hi : execInstr tbl tick ud wait s with
      | none => rw [hi] at h; simp at h
      | some s1 =>
        rw [hi] at h
        simp only at h
        obtain ⟨n1, e1, t1⟩ := (execInstr_ticksOnly tbl tick ud wait s s1 hi).2
        have tc1 : trapCalls n1 = [] := trapCalls_of_ticksOnly n1 t1
        by_cases hv : (callTrap cb s1.st.PC (s1.ticks : Int) s1.pins tud s1.host).1 ≠ 0
        · have h2 : (trapHook (some cb) tud s1).2 =
              some (callTrap cb s1.st.PC (s1.ticks : Int) s1.pins tud s1.host).1 := by
            simp only [trapHook]
            exact if_pos hv
          rw [h2] at h
          simp only [Option.some.injEq] at h
          subst h
          refine ⟨[Call.trap s1.st.PC (s1.ticks : Int) s1.pins tud],
            n1 ++ [Call.trap s1.st.PC (s1.ticks : Int) s1.pins tud],
            TrapRun.stop s s1 hi hv, ?_, ?_, ?_⟩
          · show s1.host.calls ++ [Call.trap s1.st.PC (s1.ticks : Int) s1.pins tud] = _
            rw [e1, List.append_assoc]
          · rw [trapCalls_append, tc1]
            rfl
          · intro v hv2
            injection hv2 with hv2
            exact ⟨by rw [← hv2]; exact hv, n1, rfl⟩
        · have hv0 : (callTrap cb s1.st.PC (s1.ticks : Int) s1.pins tud s1.host).1 = 0 :=
            Classical.not_not.mp hv
          have h2 : (trapHook (some cb) tud s1).2 = none := by
            simp only [trapHook]
            exact if_neg hv
          rw [h2] at h
          simp only at h
          obtain ⟨traps2, n2, run2, e2, tc2, l2⟩ := ih _ _ h
          refine ⟨Call.trap s1.st.PC (s1.ticks : Int) s1.pins tud :: traps2,
            (n1 ++ [Call.trap s1.st.PC (s1.ticks : Int) s1.pins tud]) ++ n2,
            TrapRun.next s s1 traps2 r.1 r.2 hi hv0 run2, ?_, ?_, ?_⟩
          · rw [e2]
            show (s1.host.calls ++ [Call.trap s1.st.PC (s1.ticks : Int) s1.pins tud]) ++ n2 = _
            rw [e1]
            simp only [List.append_assoc]
          · rw [trapCalls_append, trapCalls_append, tc1, tc2]
            rfl
          · intro v hv2
            obtain ⟨hne, pre, hpre⟩ := l2 v hv2
            exact ⟨hne, (n1 ++ [Call.trap s1.st.PC (s1.ticks : Int) s1.pins tud]) ++ pre, by
              simp only [hpre, List.append_assoc]⟩
    · injection h with h
      subst h
      exact ⟨[], [], TrapRun.done s, (List.append_nil _).symm, rfl, fun v hv => by cases hv⟩

/-- C32: with a trap callback registered by `m6502_trap_cb`, whenever `m6502_exec`
returns, the run is a sequence of whole instructions after each of which the trap
callback was invoked exactly once, with the program counter, the cycles consumed so
far in the call and the pin word at the retirement; these are all the trap
invocations of the call.  A non-zero return value is stored in `trap_id` and ends the
call: that trap invocation is the last callback invocation made and the returned
cycle count is the count it was given.  After a return value of 0 the run continues,
until the budget is consumed.  The program counter given to the trap callback is the
address of the next opcode fetch.  The call returns when the tick callback answers
every read cycle with RDY clear. -/
theorem trap_hook_rule {W : Type} (tbl : DecodeTable) (wait : Nat) (cpu : m6502_t W)
    (n : Nat) (h : Host W) (tick : Nat → Nat → W → Nat × W)
    (cb : Nat → Int → Nat → Nat → W → Int × W) (tud : Nat) (ht : cpu.tick_cb = some tick) :
    (∀ count cpu' h',
      m6502_exec tbl wait (m6502_trap_cb cpu (some cb) tud) n h = some (count, cpu', h') →
      ∃ traps s r new,
        TrapRun tbl tick cb cpu.user_data tud wait
          { st := cpu.state, pins := cpu.state.PINS, ticks := 0, host := h } traps s r ∧
        h'.calls = h.calls ++ new ∧ trapCalls new = traps ∧ count = s.ticks ∧
        (∀ v, r = some v → v ≠ 0 ∧ cpu'.trap_id = v ∧
          ∃ pre, new = pre ++ [Call.trap cpu'.state.PC (count : Int) cpu'.state.PINS tud]) ∧
        (r = none → n ≤ count)) ∧
    (∀ (s b : ExecState W), execInstr tbl tick cpu.user_data wait s = some b →
      (∃ rest, b.host.calls =
        s.host.calls ++ Call.tick (readWord s.pins s.st.PC true) cpu.user_data :: rest) ∧
      M6502_GET_ADDR (readWord s.pins s.st.PC true) = s.st.PC % 65536 ∧
      readWord s.pins s.st.PC true &&& M6502_SYNC ≠ 0) ∧
    (releasesRDY tick → 1 ≤ wait →
      ∃ r, m6502_exec tbl wait (m6502_trap_cb cpu (some cb) tud) n h = some r) := by
  refine ⟨?_, ?_, ?_⟩
  · intro count cpu' h' hex
    unfold m6502_exec at hex
    cases hrun : m6502_exec_run tbl wait (m6502_trap_cb cpu (some cb) tud) n h with
    | none => rw [hrun] at hex; simp at hex
    | some r =>
      rw [hrun] at hex
      simp only [Option.map_some', Option.some.injEq, Prod.mk.injEq] at hex
      obtain ⟨hc, hcpu, hh⟩ := hex
      have hloop : execLoop tbl tick (some cb) cpu.user_data tud wait n n
          { st := cpu.state, pins := cpu.state.PINS, ticks := 0, host := h } = some r := by
        have h0 := hrun
        unfold m6502_exec_run at h0
        have ht2 : (m6502_trap_cb cpu (some cb) tud).tick_cb = some tick := ht
        rw [ht2] at h0
        exact h0
      obtain ⟨traps, new, run, e, tc, l⟩ :=
        execLoop_trapRun tbl tick cb cpu.user_data tud wait n n _ r hloop
      obtain ⟨_, b2, _⟩ :=
        execLoop_spec tbl tick (some cb) cpu.user_data tud wait n n _ r hloop
      refine ⟨traps, r.1, r.2, new, run, by rw [← hh]; exact e, tc, hc.symm, ?_, ?_⟩
      · intro v hv
        obtain ⟨hne, pre, hpre⟩ := l v hv
        refine ⟨hne, ?_, pre, ?_⟩
        · rw [← hcpu, hv]
          rfl
        · rw [hpre, ← hcpu, ← hc]
      · intro hn
        rw [← hc]
        exact b2 (by simp) hn
  · intro s b hb
    exact ⟨execInstr_fetch tbl tick cpu.user_data wait s b hb, readWord_addr _ _ _,
      readWord_SYNC _ _⟩
  · intro hr hw
    obtain ⟨r, hrr⟩ := execLoop_total tbl tick hr (some cb) cpu.user_data tud
      wait hw n n { st := cpu.state, pins := cpu.state.PINS, ticks := 0, host := h }
    have hrun : m6502_exec_run tbl wait (m6502_trap_cb cpu (some cb) tud) n h = some r := by
      unfold m6502_exec_run
      have ht2 : (m6502_trap_cb cpu (some cb) tud).tick_cb = some tick := ht
      rw [ht2]
      exact hrr
    unfold m6502_exec
    rw [hrun]
    exact ⟨_, rfl⟩

theorem trap_hook_rule_witness :
    exampleCpu.tick_cb = some memTick ∧
    (m6502_exec nopTable 1 (m6502_trap_cb exampleCpu (some pcTrap) 9) 100 exampleHost).map
        (fun r => (r.1, r.2.1.trap_id, r.2.1.state.PC, trapCalls r.2.2.calls)) =
      some (4, 5, 0x5568, [Call.trap 0x5567 2 0x1005567 9, Call.trap 0x5568 4 0x1005568 9]) ∧
    ((∀ count cpu' h',
      m6502_exec nopTable 1 (m6502_trap_cb exampleCpu (some pcTrap) 9) 100 exampleHost =
        some (count, cpu', h') →
      ∃ traps s r new,
        TrapRun nopTable memTick pcTrap exampleCpu.user_data 9 1
          { st := exampleCpu.state, pins := exampleCpu.state.PINS, ticks := 0,
            host := exampleHost } traps s r ∧
        h'.calls = exampleHost.calls ++ new ∧ trapCalls new = traps ∧ count = s.ticks ∧
        (∀ v, r = some v → v ≠ 0 ∧ cpu'.trap_id = v ∧
          ∃ pre, new = pre ++ [Call.trap cpu'.state.PC (count : Int) cpu'.state.PINS 9]) ∧
        (r = none → 100 ≤ count)) ∧
    (∀ (s b : ExecState (Nat → Nat)),
      execInstr nopTable memTick exampleCpu.user_data 1 s = some b →
      (∃ rest, b.host.calls =
        s.host.calls ++ Call.tick (readWord s.pins s.st.PC true) exampleCpu.user_data :: rest) ∧
      M6502_GET_ADDR (readWord s.pins s.st.PC true) = s.st.PC % 65536 ∧
      readWord s.pins s.st.PC true &&& M6502_SYNC ≠ 0) ∧
    (releasesRDY memTick → 1 ≤ 1 →
      ∃ r, m6502_exec nopTable 1 (m6502_trap_cb exampleCpu (some pcTrap) 9) 100 exampleHost =
        some r)) :=
  ⟨rfl, by decide, trap_hook_rule nopTable 1 exampleCpu 100 exampleHost memTick pcTrap 9 rfl⟩

end M6502
